import Mathlib

/-!
Verification development for the cabi-testgen generator core.

The Go sources are shallowly embedded as pure Lean functions.  The
embedding follows the newest generator core in the repository
(src/unnamed/part_009, the version built around the seeded `wraprand`
stream) together with the parameter-variant files.  Where the current
version of a variant file is absent from the snapshot (only older
revisions are present), the definition is modelled from the spec and
carries a doc comment saying so.

Modelling conventions:
  * The seeded PRNG source is an arbitrary sequence `g : Nat -> Nat`;
    `rand.Intn n` returns `g pos % n` and advances the position.  All
    three wraprand primitives consume one abstract draw.  Go panics on
    `Intn n` for `n <= 0`; in the embedding `% 0` is the identity, and
    no theorem below depends on that corner.
  * Floating-point draws only ever flow into emitted literal text, never
    into control flow, so a float value is represented by its raw draw
    (a Nat) and rendered with `toString`.
  * Go maps of strings are association lists with unique keys
    (insertion guarded by lookup, exactly as in the source).
  * `bytes.Buffer` is a `List String`: one element per WriteString call,
    in emission order.  The file text is the concatenation.
  * Value counters (`value int`) start at 1 and only grow: `Nat`.
-/

set_option autoImplicit false
set_option maxRecDepth 4000

namespace CabiGen

/-- Tunable parameters of the generator, after part_009 lines 14-96.
The four fraction tables are lists (uint8 values as Nat). -/
structure TunableParams where
  nParmRange : Nat := 0
  nReturnRange : Nat := 0
  nStructFields : Nat := 0
  nArrayElements : Nat := 0
  sliceFraction : Nat := 0
  intBitRanges : List Nat := []
  floatBitRanges : List Nat := []
  unsignedRanges : List Nat := []
  blankPerc : Nat := 0
  structDepth : Nat := 0
  typeFractions : List Nat := []
  recurPerc : Nat := 0
  methodPerc : Nat := 0
  pointerMethodCallPerc : Nat := 0
  doReflectCall : Bool := false
  takeAddress : Bool := false
  takenFraction : Nat := 0
  addrFractions : List Nat := []
  doDefer : Bool := false
  deferFraction : Nat := 0
  doFuncCallValues : Bool := false
  funcCallValFraction : Nat := 0
  deriving Repr, DecidableEq

/-- Bucket indices into typeFractions, part_009 lines 112-123. -/
def StructTfIdx : Nat := 0
def ArrayTfIdx : Nat := 1
def MapTfIdx : Nat := 2
def PointerTfIdx : Nat := 3
def NumericTfIdx : Nat := 4
def FloatTfIdx : Nat := 5
def ComplexTfIdx : Nat := 6
def ByteTfIdx : Nat := 7
def StringTfIdx : Nat := 8

/-- Default tunables, part_009 lines 125-148. -/
def defaultTunables : TunableParams :=
  { nParmRange := 15
    nReturnRange := 7
    nStructFields := 7
    nArrayElements := 5
    sliceFraction := 50
    intBitRanges := [30, 20, 20, 30]
    floatBitRanges := [50, 50]
    unsignedRanges := [50, 50]
    blankPerc := 15
    structDepth := 3
    typeFractions := [10, 10, 10, 15, 20, 15, 5, 5, 10]
    recurPerc := 20
    methodPerc := 10
    pointerMethodCallPerc := 50
    doReflectCall := true
    doDefer := true
    takeAddress := true
    doFuncCallValues := true
    takenFraction := 20
    deferFraction := 30
    funcCallValFraction := 5
    addrFractions := [50, 25, 15, 10] }

/-- checkTunables, part_009 lines 154-217.  The Go function aborts the
process on a violation; here it returns `true` exactly when every check
passes. -/
def checkTunablesOK (t : TunableParams) : Bool :=
  (t.intBitRanges.foldl (fun a v => a + v) 0 == 100) &&
  (t.unsignedRanges.foldl (fun a v => a + v) 0 == 100) &&
  (t.blankPerc ≤ 100) &&
  (t.recurPerc ≤ 100) &&
  (t.methodPerc ≤ 100) &&
  (t.pointerMethodCallPerc ≤ 100) &&
  (t.floatBitRanges.foldl (fun a v => a + v) 0 == 100) &&
  (t.typeFractions.foldl (fun a v => a + v) 0 == 100) &&
  (t.addrFractions.foldl (fun a v => a + v) 0 == 100) &&
  (t.takenFraction ≤ 100) &&
  (t.deferFraction ≤ 100) &&
  (t.sliceFraction ≤ 100)

/-- The wrapped seeded PRNG of src/generator/wraprand.go, extended with
the stream position.  `g` is the underlying deterministic sequence of
raw draws produced by the seed (two streams built from the same seed
share the same `g`). -/
structure wraprand where
  g : Nat → Nat
  pos : Nat := 0
  f32calls : Nat := 0
  f64calls : Nat := 0
  intncalls : Nat := 0

/-- NewWrapRand (wraprand.go lines 13-16): fresh stream with zeroed
counters.  The randctl argument of the current version only toggles
debug capture and is not modelled. -/
def NewWrapRand (g : Nat → Nat) : wraprand :=
  { g := g }

/-- wraprand.Intn (wraprand.go lines 50-56): counts the call and draws. -/
def wraprand.Intn (w : wraprand) (n : Nat) : Nat × wraprand :=
  (w.g w.pos % n,
   { w with pos := w.pos + 1, intncalls := w.intncalls + 1 })

/-- wraprand.Float32 (wraprand.go lines 58-64).  The float value is
represented by its raw draw. -/
def wraprand.Float32 (w : wraprand) : Nat × wraprand :=
  (w.g w.pos,
   { w with pos := w.pos + 1, f32calls := w.f32calls + 1 })

/-- wraprand.NormFloat64 (wraprand.go lines 66-72). -/
def wraprand.NormFloat64 (w : wraprand) : Nat × wraprand :=
  (w.g w.pos,
   { w with pos := w.pos + 1, f64calls := w.f64calls + 1 })

/-- wraprand.Equal (wraprand.go lines 85-89): equality of the three
call counters. -/
def wraprand.Equal (w w2 : wraprand) : Bool :=
  w.f32calls == w2.f32calls &&
  w.f64calls == w2.f64calls &&
  w.intncalls == w2.intncalls

/-- wraprand.Check (wraprand.go lines 91-115) panics when the two
streams are not Equal; `CheckOK` is true exactly when Check returns
without panicking. -/
def wraprand.CheckOK (w w2 : wraprand) : Bool :=
  w.Equal w2

/-- addrTakenHow, src/generator/parm.go (current revision) lines 46-60. -/
inductive addrTakenHow where
  | notAddrTaken
  | addrTakenSimple
  | addrTakenPassed
  | addrTakenHeap
  deriving Repr, DecidableEq

export addrTakenHow (notAddrTaken addrTakenSimple addrTakenPassed addrTakenHeap)

/-- The mix-in flags every parm variant embeds (isBlank, addrTakenHow,
isGenValFunc in the current parm.go). -/
structure PFlags where
  blank : Bool := false
  addrTaken : addrTakenHow := notAddrTaken
  isGenVal : Bool := false
  deriving Repr, DecidableEq

/-- The parm type tree.  One constructor per variant implementing the
Go `parm` interface: numparm, stringparm, pointerparm, arrayparm,
structparm, mapparm, typedefparm.  Structurally the fields follow the
variant struct definitions (current arrayparm/structparm/mapparm
carry their blank/addrTaken/genval mix-ins; the per-variant data fields
are as in the source files). -/
inductive Parm where
  | numparm (tag : String) (widthInBits : Nat) (ctl : Bool) (fl : PFlags)
  | stringparm (fl : PFlags)
  | pointerparm (totype : Parm) (fl : PFlags)
  | arrayparm (aname qname : String) (nelements : Nat) (slice : Bool)
      (eltype : Parm) (fl : PFlags)
  | structparm (sname qname : String) (fields : List Parm) (fl : PFlags)
  | mapparm (aname qname : String) (keytmp : String)
      (keytype valtype : Parm) (fl : PFlags)
  | typedefparm (aname qname : String) (target : Parm) (fl : PFlags)
  deriving Repr

namespace Parm

/-- The embedded flag record of a parm. -/
def flags : Parm → PFlags
  | numparm _ _ _ fl => fl
  | stringparm fl => fl
  | pointerparm _ fl => fl
  | arrayparm _ _ _ _ _ fl => fl
  | structparm _ _ _ fl => fl
  | mapparm _ _ _ _ _ fl => fl
  | typedefparm _ _ _ fl => fl

/-- Replace the embedded flag record. -/
def setFlags : Parm → PFlags → Parm
  | numparm t w c _, fl => numparm t w c fl
  | stringparm _, fl => stringparm fl
  | pointerparm tp _, fl => pointerparm tp fl
  | arrayparm a q n sl e _, fl => arrayparm a q n sl e fl
  | structparm s q fs _, fl => structparm s q fs fl
  | mapparm a q k kt vt _, fl => mapparm a q k kt vt fl
  | typedefparm a q t _, fl => typedefparm a q t fl

/-- IsBlank: reads the isBlank mix-in (pointer receiver in the current
source, so SetBlank below really updates it). -/
def IsBlank (p : Parm) : Bool := p.flags.blank

/-- SetBlank: functional update of the isBlank mix-in.  Models the
pointer-receiver SetBlank of the current parm.go applied through the
`parm` interface (the old value-receiver arrayparm revision is embedded
separately below as `ArrayparmFile`). -/
def SetBlank (p : Parm) (v : Bool) : Parm :=
  p.setFlags { p.flags with blank := v }

/-- AddrTaken mix-in read. -/
def AddrTaken (p : Parm) : addrTakenHow := p.flags.addrTaken

/-- SetAddrTaken mix-in update. -/
def SetAddrTaken (p : Parm) (v : addrTakenHow) : Parm :=
  p.setFlags { p.flags with addrTaken := v }

/-- IsGenVal mix-in read. -/
def IsGenVal (p : Parm) : Bool := p.flags.isGenVal

/-- SetIsGenVal mix-in update. -/
def SetIsGenVal (p : Parm) (v : Bool) : Parm :=
  p.setFlags { p.flags with isGenVal := v }

/-- IsControl: true only for a numparm with ctl set (numparm returns
its ctl field, every other variant returns false). -/
def IsControl : Parm → Bool
  | numparm _ _ c _ => c
  | _ => false

/-- TypeName, per the per-variant TypeName methods. -/
def TypeName : Parm → String
  | numparm tag w _ _ => if tag == "byte" then "byte" else tag ++ toString w
  | stringparm _ => "string"
  | pointerparm tp _ => "*" ++ tp.TypeName
  | arrayparm a _ _ _ _ _ => a
  | structparm s _ _ _ => s
  | mapparm a _ _ _ _ _ => a
  | typedefparm a _ _ _ => a

/-- QualName, per the per-variant QualName methods. -/
def QualName : Parm → String
  | numparm tag w _ _ => if tag == "byte" then "byte" else tag ++ toString w
  | stringparm _ => "string"
  | pointerparm tp _ => "*" ++ tp.QualName
  | arrayparm _ q _ _ _ _ => q
  | structparm _ q _ _ => q
  | mapparm _ q _ _ _ _ => q
  | typedefparm _ q _ _ => q

mutual

/-- NumElements.  Scalars, strings, pointers and maps count as one
element; arrays multiply; structs sum over all fields (blank fields
included, their values are consumed too); typedefs delegate.
Modelled from the spec for the variant revisions missing from src
(recursive count of primitive leaves). -/
def NumElements : Parm → Nat
  | numparm _ _ _ _ => 1
  | stringparm _ => 1
  | pointerparm _ _ => 1
  | arrayparm _ _ n _ e _ => e.NumElements * n
  | structparm _ _ fs _ => numElementsList fs
  | mapparm _ _ _ _ _ _ => 1
  | typedefparm _ _ t _ => t.NumElements

/-- Sum of NumElements over a field list. -/
def numElementsList : List Parm → Nat
  | [] => 0
  | p :: ps => p.NumElements + numElementsList ps

end

end Parm

mutual

/-- HasPointer: transitively contains a pointer.  Pointers, slices and
maps answer true (slices and maps are not comparable with == in the
emitted code, so the current source routes them through Equal
functions); arrays/structs/typedefs look inside.
Modelled from the spec for the missing current variant revisions. -/
def Parm.HasPointer : Parm → Bool
  | .numparm _ _ _ _ => false
  | .stringparm _ => false
  | .pointerparm _ _ => true
  | .arrayparm _ _ _ sl e _ => sl || e.HasPointer
  | .structparm _ _ fs _ => hasPointerList fs
  | .mapparm _ _ _ _ _ _ => true
  | .typedefparm _ _ t _ => t.HasPointer

/-- Any field transitively contains a pointer. -/
def hasPointerList : List Parm → Bool
  | [] => false
  | p :: ps => p.HasPointer || hasPointerList ps

end

/-- A function descriptor, part_009 lines 281-299.  `receiver` is an
optional parm (nil interface in Go when absent); `values` is the
per-parameter value-counter checkpoint vector filled in by the caller
emitter. -/
structure funcdef where
  idx : Nat := 0
  structdefs : List Parm := []
  arraydefs : List Parm := []
  typedefs : List Parm := []
  mapdefs : List Parm := []
  mapkeytypes : List Parm := []
  mapkeytmps : List String := []
  mapkeyts : String := ""
  receiver : Option Parm := none
  params : List Parm := []
  returns : List Parm := []
  values : List Nat := []
  dodefc : Nat := 0
  dodefp : List Nat := []
  rstack : Nat := 0
  recur : Bool := false
  method : Bool := false

/-- funcdesc, part_009 lines 1021-1027: one auto-generated helper
(deref/assign/alloc/global/genval).  In Go the unused parm fields of a
given family are nil; here they are filled with a duplicate, which no
embedded function reads. -/
structure funcdesc where
  p : Parm
  pp : Parm
  name : String
  tag : String
  payload : String

/-- Lookup in a Go map[string]string modelled as an association list
with unique keys. -/
def mlookup (m : List (String × String)) (k : String) : Option String :=
  match m.find? (fun e => e.1 == k) with
  | some e => some e.2
  | none => none

/-- Go map insert.  In the generator every insert is guarded by a
failed lookup, so the key is fresh and insertion is a cons; the general
overwrite case is kept for faithfulness. -/
def minsert (m : List (String × String)) (k v : String) : List (String × String) :=
  if (m.find? (fun e => e.1 == k)).isSome then
    m.map (fun e => if e.1 == k then (k, v) else e)
  else
    (k, v) :: m

/-- Go delete on a unique-key map: drop the entry. -/
def mdelete (m : List (String × String)) (k : String) : List (String × String) :=
  m.filter (fun e => e.1 != k)

/-- genstate, part_009 lines 301-324.  File-system fields (outdir) and
the debug knob randctl are omitted; everything that reaches the emitted
text or the PRNG is kept. -/
structure genstate where
  ipref : String := ""
  tag : String := ""
  numtpk : Nat := 0
  pkidx : Nat := 0
  errs : Nat := 0
  pragma : String := ""
  sforce : Bool := false
  tunables : TunableParams := {}
  tstack : List TunableParams := []
  derefFuncs : List (String × String) := []
  newDerefFuncs : List funcdesc := []
  assignFuncs : List (String × String) := []
  newAssignFuncs : List funcdesc := []
  allocFuncs : List (String × String) := []
  newAllocFuncs : List funcdesc := []
  genvalFuncs : List (String × String) := []
  newGenvalFuncs : List funcdesc := []
  globVars : List (String × String) := []
  newGlobVars : List funcdesc := []
  wr : wraprand := { g := fun _ => 0 }

namespace genstate

/-- Draw via the state-held wraprand (threads the stream). -/
def Intn (s : genstate) (n : Nat) : Nat × genstate :=
  let (v, wr) := s.wr.Intn n
  (v, { s with wr := wr })

/-- Float32 draw through the state. -/
def Float32 (s : genstate) : Nat × genstate :=
  let (v, wr) := s.wr.Float32
  (v, { s with wr := wr })

/-- NormFloat64 draw through the state. -/
def NormFloat64 (s : genstate) : Nat × genstate :=
  let (v, wr) := s.wr.NormFloat64
  (v, { s with wr := wr })

/-- checkerPkg, part_009 lines 1818-1820. -/
def checkerPkg (s : genstate) (which : Nat) : String :=
  s.tag ++ "Checker" ++ toString which

/-- callerPkg, part_009 lines 1809-1811. -/
def callerPkg (s : genstate) (which : Nat) : String :=
  s.tag ++ "Caller" ++ toString which

/-- utilsPkg, part_009 lines 1827-1829. -/
def utilsPkg (s : genstate) : String :=
  s.tag ++ "Utils"

/-- pushTunables, part_009 lines 370-372: Go append puts the snapshot
at the END of the tstack slice. -/
def pushTunables (s : genstate) : genstate :=
  { s with tstack := s.tstack ++ [s.tunables] }

/-- popTunables, part_009 lines 374-380: takes tstack[0], the FRONT of
the slice (the oldest snapshot), then drops it.  The Go function panics
on an empty stack; that case is modelled as the identity and is
unreachable in every use below. -/
def popTunables (s : genstate) : genstate :=
  match s.tstack with
  | [] => s
  | t :: rest => { s with tunables := t, tstack := rest }

/-- intFlavor, part_009 lines 326-332. -/
def intFlavor (s : genstate) : String × genstate :=
  let (which, s) := s.Intn 100
  if which < s.tunables.unsignedRanges.getD 0 0 then ("uint", s)
  else ("int", s)

/-- The accumulating scan of intBits, part_009 lines 336-344: walk the
ranges adding them to `t`, doubling `bits`, returning at the first
bucket with `which < t`. -/
def intBitsLoop (which : Nat) : List Nat → Nat → Nat → Option Nat
  | [], _, _ => none
  | v :: rest, t, bits =>
      let t := t + v
      if which < t then some bits
      else intBitsLoop which rest t (bits * 2)

/-- intBits, part_009 lines 334-346.  The fallback (unreachable when
the ranges sum to 100) returns intBitRanges[3] as in the source. -/
def intBits (s : genstate) : Nat × genstate :=
  let (which, s) := s.Intn 100
  match intBitsLoop which s.tunables.intBitRanges 0 8 with
  | some bits => (bits, s)
  | none => (s.tunables.intBitRanges.getD 3 0, s)

/-- floatBits, part_009 lines 348-354. -/
def floatBits (s : genstate) : Nat × genstate :=
  let (which, s) := s.Intn 100
  if which < s.tunables.floatBitRanges.getD 0 0 then (32, s) else (64, s)

/-- The scan of genAddrTaken, part_009 lines 359-367. -/
def genAddrTakenLoop (which : Nat) : List Nat → Nat → addrTakenHow → addrTakenHow
  | [], _, _ => notAddrTaken
  | v :: rest, t, res =>
      let t := t + v
      if which < t then res
      else genAddrTakenLoop which rest t
        (match res with
         | notAddrTaken => addrTakenSimple
         | addrTakenSimple => addrTakenPassed
         | addrTakenPassed => addrTakenHeap
         | addrTakenHeap => addrTakenHeap)

/-- genAddrTaken, part_009 lines 356-368. -/
def genAddrTaken (s : genstate) : addrTakenHow × genstate :=
  let (which, s) := s.Intn 100
  (genAddrTakenLoop which s.tunables.addrFractions 0 notAddrTaken, s)

end genstate

/-- The inner loop of redistributeFraction (doredis, part_009 lines
412-425).  The Go code iterates the nine buckets forever, skipping
avoided indices, incrementing a bucket and decrementing the uint8 `f`
until it hits zero; the uint8 decrement wraps at zero.  `k` is the
overall visit counter (`k % 9` is the bucket index); `fuel` bounds the
number of visits, `none` meaning the fuel ran out (the Go loop runs
forever when every bucket is avoided). -/
def doredisAux (avoid : List Nat) : Nat → List Nat → Nat → Nat → Option (List Nat)
  | 0, _, _, _ => none
  | fuel + 1, tf, f, k =>
      let i := k % 9
      if avoid.contains i then doredisAux avoid fuel tf f (k + 1)
      else
        let tf := tf.set i (tf.getD i 0 + 1)
        let f := (f + 255) % 256
        if f == 0 then some tf
        else doredisAux avoid fuel tf f (k + 1)

/-- redistributeFraction, part_009 lines 402-428: run doredis, then
checkTunables (which aborts the process when the fractions no longer
sum to 100 — modelled as `none`). -/
def genstate.redistributeFraction (fuel : Nat) (s : genstate) (f : Nat)
    (avoid : List Nat) : Option genstate :=
  match doredisAux avoid fuel s.tunables.typeFractions (f % 256) 0 with
  | none => none
  | some tf =>
      let s := { s with tunables := { s.tunables with typeFractions := tf } }
      if checkTunablesOK s.tunables then some s else none

/-- precludeSelectedTypes, part_009 lines 430-439: zero the avoided
buckets, accumulating their weight into the uint8 `f`, then
redistribute. -/
def genstate.precludeSelectedTypes (fuel : Nat) (s : genstate) (t : Nat)
    (t2 : List Nat) : Option genstate :=
  let avoid := t :: t2
  let ftf := avoid.foldl
    (fun (acc : Nat × List Nat) idx =>
      ((acc.1 + acc.2.getD idx 0) % 256, acc.2.set idx 0))
    (0, s.tunables.typeFractions)
  let s := { s with tunables := { s.tunables with typeFractions := ftf.2 } }
  s.redistributeFraction fuel ftf.1 avoid

/-- Literal braces in emitted Go text. -/
def lb : String := "\x7b"

/-- Literal closing brace in emitted Go text. -/
def rb : String := "\x7d"

/-- writeCom, part_009 lines 266-270: comma before every element but
the first. -/
def writeComStr (i : Nat) : String :=
  if i != 0 then ", " else ""

/-- Declare, per the per-variant Declare methods: writes
"prefix name suffix" with the checker-side name or (caller=true) the
qualified name. -/
def Parm.Declare (p : Parm) (pfx sfx : String) (caller : Bool) : String :=
  match p with
  | .numparm tag w _ _ =>
      if tag == "byte" then pfx ++ " byte" ++ sfx
      else pfx ++ " " ++ tag ++ toString w ++ sfx
  | .stringparm _ => pfx ++ " string" ++ sfx
  | .pointerparm tp _ =>
      pfx ++ " *" ++ (if caller then tp.QualName else tp.TypeName) ++ sfx
  | .arrayparm a q _ _ _ _ => pfx ++ " " ++ (if caller then q else a) ++ sfx
  | .structparm sn q _ _ => pfx ++ " " ++ (if caller then q else sn) ++ sfx
  | .mapparm a q _ _ _ _ => pfx ++ " " ++ (if caller then q else a) ++ sfx
  | .typedefparm a q _ _ => pfx ++ " " ++ (if caller then q else a) ++ sfx

/-- FieldName of structparm: "_" for a blank field, else F-index. -/
def Parm.FieldName (p : Parm) (i : Nat) : String :=
  match p with
  | .structparm _ _ fs _ =>
      if (fs.getD i (.stringparm {})).IsBlank then "_" else "F" ++ toString i
  | _ => "F" ++ toString i

/-- genDeref, part_009 lines 674-685: strip the pointer chain,
returning the base parm and one star per level. -/
def genDeref : Parm → Parm × String
  | .pointerparm tp _ =>
      let (b, star) := genDeref tp
      (b, "*" ++ star)
  | p => (p, "")

/-- eqFuncRef, part_009 lines 687-695. -/
def genstate.eqFuncRef (s : genstate) (f : funcdef) (t : Parm)
    (caller : Bool) : String :=
  let cp :=
    if f.mapkeyts != "" then "mkt."
    else if caller then s.checkerPkg s.pkidx ++ "." else ""
  cp ++ "Equal" ++ t.TypeName

/-- mkPointerParm, src/generator/pointerparm.go lines 56-61. -/
def mkPointerParm (tp : Parm) : Parm := .pointerparm tp {}

/-- genGlobVar, part_009 lines 1151-1166: dedup by the declared form of
the pointer type, register a fresh gvar_N otherwise. -/
def genstate.genGlobVar (s : genstate) (p : Parm) : String × genstate :=
  let pp := mkPointerParm p
  let tag := pp.Declare "gv" "" false
  match mlookup s.globVars tag with
  | some gv => (gv, s)
  | none =>
      let gv := "gvar_" ++ toString s.globVars.length
      (gv, { s with
        newGlobVars := s.newGlobVars ++ [⟨p, pp, gv, tag, ""⟩],
        globVars := minsert s.globVars tag gv })

/-- genParamDerefFunc, part_009 lines 1168-1183. -/
def genstate.genParamDerefFunc (s : genstate) (p : Parm) : String × genstate :=
  let pp := mkPointerParm p
  let tag := pp.Declare "x" "" false
  match mlookup s.derefFuncs tag with
  | some fn => (fn, s)
  | none =>
      let fn := "deref_" ++ toString s.derefFuncs.length
      (fn, { s with
        newDerefFuncs := s.newDerefFuncs ++ [⟨p, pp, fn, tag, ""⟩],
        derefFuncs := minsert s.derefFuncs tag fn })

/-- genAssignFunc, part_009 lines 1185-1200. -/
def genstate.genAssignFunc (s : genstate) (p : Parm) : String × genstate :=
  let pp := mkPointerParm p
  let tag := pp.Declare "x" "" false
  match mlookup s.assignFuncs tag with
  | some fn => (fn, s)
  | none =>
      let fn := "retassign_" ++ toString s.assignFuncs.length
      (fn, { s with
        newAssignFuncs := s.newAssignFuncs ++ [⟨p, pp, fn, tag, ""⟩],
        assignFuncs := minsert s.assignFuncs tag fn })

/-- genAllocFunc, part_009 lines 1202-1217. -/
def genstate.genAllocFunc (s : genstate) (p : Parm) : String × genstate :=
  let pp := mkPointerParm p
  let tag := pp.Declare "x" "" false
  match mlookup s.allocFuncs tag with
  | some fn => (fn, s)
  | none =>
      let fn := "New_" ++ toString s.allocFuncs.length
      (fn, { s with
        newAllocFuncs := s.newAllocFuncs ++ [⟨p, pp, fn, tag, ""⟩],
        allocFuncs := minsert s.allocFuncs tag fn })

/-- Deterministic stand-in for the SHA1 hex digest that builds genval
tags (part_009 lines 798-806).  The digest is only ever used as a map
key; an injective encoding keeps distinct inputs distinct, and no claim
below depends on collision behaviour. -/
def sha1hex (s : String) : String := "#" ++ s

/-- Length surrogate for `len(letters) - 9` in stringparm.go; the
constant only feeds an Intn modulus, never control flow. -/
def stringparmNS : Nat := 28

/-- The float32 branch of numparm.genRandNum: one hidden Intn(100)
draw (taken at the top of genRandNum) is NOT included here; this
helper is the body after the tag dispatch. -/
def genstate.genRandFloat (s : genstate) (w value : Nat) : String × Nat × genstate :=
  if w == 32 then
    let (rf, s) := s.Float32
    let vi : Int := if value % 2 != 0 then -(rf : Int) else (rf : Int)
    ("float32(" ++ toString vi ++ ")", value + 1, s)
  else if w == 64 then
    let (rf, s) := s.NormFloat64
    ("float64(" ++ toString rf ++ ")", value + 1, s)
  else ("float?", value, s)

/-- genRandNum of numparm (the current revision draws through s.wr;
the structure follows the older numparm file, with rand replaced by the
wrapped stream; value generation contract per the spec).  Every call
starts with one Intn(100) draw; complex values are two component float
draws, each through a full genRandNum of the component width. -/
def genstate.genRandNum (s : genstate) (tag : String) (w : Nat)
    (value : Nat) : String × Nat × genstate :=
  let (which, s) := s.Intn 100
  if tag == "int" then
    if which < 3 then
      ("int" ++ toString w ++ "(" ++ toString ((2 : Int) ^ (w - 1) - 1) ++ ")",
       value + 1, s)
    else if which < 5 then
      ("int" ++ toString w ++ "(" ++ toString (-((2 : Int) ^ (w - 1))) ++ ")",
       value + 1, s)
    else
      let (v, s) := s.Intn (2 ^ (w - 2))
      let vi : Int := if value % 2 != 0 then -(v : Int) else (v : Int)
      ("int" ++ toString w ++ "(" ++ toString vi ++ ")", value + 1, s)
  else if tag == "uint" || tag == "byte" then
    let (v, s) := s.Intn (2 ^ (w - 2))
    if tag == "byte" then ("byte(" ++ toString v ++ ")", value + 1, s)
    else ("uint" ++ toString w ++ "(" ++ toString v ++ ")", value + 1, s)
  else if tag == "float" then
    s.genRandFloat w value
  else if tag == "complex" then
    if w == 64 then
      let (which1, s) := s.Intn 100
      let r1 := s.genRandFloat 32 value
      let (which2, s) := r1.2.2.Intn 100
      let r2 := s.genRandFloat 32 r1.2.1
      let _ := (which1, which2)
      ("complex(" ++ r1.1 ++ "," ++ r2.1 ++ ")", r2.2.1, r2.2.2)
    else if w == 128 then
      let (which1, s) := s.Intn 100
      let r1 := s.genRandFloat 64 value
      let (which2, s) := r1.2.2.Intn 100
      let r2 := s.genRandFloat 64 r1.2.1
      let _ := (which1, which2)
      ("complex(" ++ r1.1 ++ "," ++ r2.1 ++ ")", r2.2.1, r2.2.2)
    else ("complex?", value, s)
  else ("num?", value, s)

mutual

/-- GenElemRef, per the per-variant implementations: the textual access
path of the elidx-th primitive leaf under `path`, plus the leaf parm.
Scalars/strings/pointers/maps return themselves; arrays index by slot;
structs walk the field list with a running count; typedefs delegate to
the target but re-wrap scalar results.  Blank enclosers force the path
to "_"; zero-size subtrees give "".  Modelled from the spec for the
variant revisions missing from src (structure per the older files). -/
def Parm.GenElemRef (p : Parm) (elidx : Nat) (path : String) : String × Parm :=
  match p with
  | .numparm _ _ _ _ => (path, p)
  | .stringparm _ => (path, p)
  | .pointerparm _ _ => (path, p)
  | .mapparm _ _ _ _ _ _ => (path, p)
  | .arrayparm _ _ _ _ el fl =>
      let ene := el.NumElements
      if ene == 0 then ("", p)
      else
        let slot := elidx / ene
        if ene == 1 then
          let epath := path ++ "[" ++ toString slot ++ "]"
          ((if path == "_" || fl.blank then "_" else epath), el)
        else
          let ppath := path ++ "[" ++ toString slot ++ "]"
          el.GenElemRef (elidx - slot * ene)
            (if fl.blank then "_" else ppath)
  | .structparm _ _ fs fl => structElemWalk p fs 0 0 elidx path fl.blank
  | .typedefparm _ _ t _ =>
      match t with
      | .arrayparm _ _ _ _ _ _ => t.GenElemRef elidx path
      | .structparm _ _ _ _ => t.GenElemRef elidx path
      | _ =>
          let r := t.GenElemRef elidx path
          (r.1, p)

/-- The field-walking loop of structparm.GenElemRef: fi is the field
index, ct the running element count. -/
def structElemWalk (orig : Parm) (fs : List Parm) (fi ct elidx : Nat)
    (path : String) (pblank : Bool) : String × Parm :=
  match fs with
  | [] => ("", orig)
  | f :: rest =>
      let fne := f.NumElements
      if elidx == ct && fne == 0 then
        structElemWalk orig rest (fi + 1) ct elidx path pblank
      else if fne == 1 && elidx == ct then
        let en := path ++ ".F" ++ toString fi
        ((if f.IsBlank || pblank || path == "_" then "_" else en), f)
      else if fne > 1 && ct ≤ elidx && elidx < ct + fne then
        let ppath := path ++ ".F" ++ toString fi
        f.GenElemRef (elidx - ct) (if pblank || path == "_" then "_" else ppath)
      else
        structElemWalk orig rest (fi + 1) (ct + fne) elidx path pblank

end

/-- Comma-separated assembly of element literals (writeCom per index). -/
def commaJoinAux (i : Nat) : List String → String
  | [] => ""
  | v :: rest => writeComStr i ++ v ++ commaJoinAux (i + 1) rest

/-- Comma-separated element list starting at index 0. -/
def commaJoin (strs : List String) : String := commaJoinAux 0 strs

/-- Struct literal body: field literals in order, blank fields dropped
from the text (fi is the field index, nbfi counts emitted fields). -/
def structLiteralBody : List Parm → List String → Nat → Nat → String
  | f :: fr, v :: vr, fi, nbfi =>
      if f.IsBlank then structLiteralBody fr vr (fi + 1) nbfi
      else writeComStr nbfi ++ "F" ++ toString fi ++ ": " ++ v ++
        structLiteralBody fr vr (fi + 1) (nbfi + 1)
  | _, _, _, _ => ""

/-- The genval-helper replacement stage at the end of GenValue
(part_009 lines 793-817): on the checker side, for a parm flagged
is_genval under doFuncCallValues, the literal is replaced by a call to
a registered (or freshly registered) genval helper; the draws and the
value counter are those of the literal already produced. -/
def genstate.genvalWrap (f : funcdef) (p : Parm) (caller : Bool)
    (res : String × Nat × genstate) : String × Nat × genstate :=
  let (valstr, value, s) := res
  if !s.tunables.doFuncCallValues || !p.IsGenVal || caller then
    (valstr, value, s)
  else
    let declStr := p.Declare "x" "" false
    let hashstr := sha1hex (valstr ++ declStr ++
      (if f.mapkeyts != "" then f.mapkeyts else "") ++ declStr)
    let tg := declStr ++ hashstr
    let meth := if f.mapkeyts != "" then "mkt." else ""
    match mlookup s.genvalFuncs tg with
    | some fname => (meth ++ fname ++ "()", value, s)
    | none =>
        let fname := "genval_" ++ toString s.genvalFuncs.length
        let s := { s with
          newGenvalFuncs := s.newGenvalFuncs ++ [⟨p, p, fname, tg, valstr⟩],
          genvalFuncs := minsert s.genvalFuncs tg fname }
        (meth ++ fname ++ "()", value, s)

mutual

/-- The GenValue method of genstate (part_009 lines 778-818): first the
per-variant value generation, then — checker side only — the genval
replacement stage above.  The per-variant bodies are inlined in the match:
  * numparm/stringparm draw through the stream;
  * pointerparm boxes the target value through a New_ helper
    (modelled from the spec: "emit a call to a helper New_k(v)");
  * arrayparm emits the element literals in index order;
  * structparm consumes every field value, dropping blank fields from
    the text (modelled from the spec: "blank fields dropped, their
    value still consumed");
  * mapparm emits the literal keyed by the per-function key temporary,
    consuming only the value draw (modelled from the spec: map keys are
    fetched from the mkt record);
  * typedefparm wraps the target literal in a conversion.
Subcomponent values are produced through this same wrapper. -/
def genstate.GenValue (s : genstate) (f : funcdef) (p : Parm) (value : Nat)
    (caller : Bool) : String × Nat × genstate :=
  let res :=
    match p with
    | .numparm tag w _ _ => s.genRandNum tag w value
    | .stringparm _ =>
        let (nel, s) := s.Intn 8
        let (st, s) := s.Intn stringparmNS
        ("\"s" ++ toString st ++ "e" ++ toString (min (st + nel) stringparmNS) ++ "\"",
         value + 1, s)
    | .pointerparm tp _ =>
        let pref := if caller then s.checkerPkg s.pkidx ++ "." else ""
        let (valstr, value, s) := s.GenValue f tp value caller
        let (fname, s) := s.genAllocFunc tp
        (pref ++ fname ++ "(" ++ valstr ++ ")", value, s)
    | .arrayparm a q nel _ el _ =>
        let n := if caller then q else a
        let (strs, value, s) := s.genValueRepeat f nel el value caller
        (n ++ lb ++ commaJoin strs ++ rb, value, s)
    | .structparm sn q fs _ =>
        let n := if caller then q else sn
        let (strs, value, s) := s.genValueList f fs value caller
        (n ++ lb ++ structLiteralBody fs strs 0 0 ++ rb, value, s)
    | .mapparm a q keytmp _ vt _ =>
        let n := if caller then q else a
        let (valstr, value, s) := s.GenValue f vt value caller
        (n ++ lb ++ "mkt." ++ keytmp ++ ": " ++ valstr ++ rb, value, s)
    | .typedefparm a q t _ =>
        let n := if caller then q else a
        let (rv, value, s) := s.GenValue f t value caller
        (n ++ "(" ++ rv ++ ")", value, s)
  genstate.genvalWrap f p caller res
termination_by (sizeOf p, 0)

/-- Sequential GenValue over a component list, collecting the literal
strings in order. -/
def genstate.genValueList (s : genstate) (f : funcdef) (ps : List Parm)
    (value : Nat) (caller : Bool) : List String × Nat × genstate :=
  match ps with
  | [] => ([], value, s)
  | q :: rest =>
      let (vs, value, s) := s.GenValue f q value caller
      let (tl, value, s) := s.genValueList f rest value caller
      (vs :: tl, value, s)
termination_by (sizeOf ps, 0)

/-- The element loop of arrayparm.GenValue: nel successive element
values of the same element type. -/
def genstate.genValueRepeat (s : genstate) (f : funcdef) (nel : Nat)
    (el : Parm) (value : Nat) (caller : Bool) : List String × Nat × genstate :=
  match nel with
  | 0 => ([], value, s)
  | n + 1 =>
      let (vs, value, s) := s.GenValue f el value caller
      let (tl, value, s) := s.genValueRepeat f n el value caller
      (vs :: tl, value, s)
termination_by (sizeOf el + 1, nel)

end

/-- Checkpoint of the current wraprand revision (missing from src):
a debug position marker; it consumes no draws and touches no counter. -/
def wraprand.Checkpoint (w : wraprand) (_tag : String) : wraprand := w

mutual

/-- checkableElements, part_009 lines 991-1011: elements that get an
equality check (blank parms and empty arrays contribute none). -/
def checkableElements (p : Parm) : Nat :=
  if p.IsBlank then 0
  else
    match p with
    | .structparm _ _ fs _ => checkableElementsList fs
    | .arrayparm _ _ nel _ el _ =>
        if nel == 0 then 0 else nel * checkableElements el
    | _ => 1

/-- Sum of checkableElements over struct fields. -/
def checkableElementsList : List Parm → Nat
  | [] => 0
  | p :: ps => checkableElements p + checkableElementsList ps

end

/-- complexityMeasure, part_009 lines 1560-1572. -/
def funcdef.complexityMeasure (f : funcdef) : Nat :=
  (match f.receiver with
   | some r => if f.method then r.NumElements else 0
   | none => 0) +
  Parm.numElementsList f.params + Parm.numElementsList f.returns

/-- genParamRef, part_009 lines 1219-1231.  The addrTakenPassed case
registers (or reuses) a deref helper. -/
def genstate.genParamRef (s : genstate) (p : Parm) (idx : Nat) :
    String × genstate :=
  match p.AddrTaken with
  | notAddrTaken => ("p" ++ toString idx, s)
  | addrTakenSimple => ("(*ap" ++ toString idx ++ ")", s)
  | addrTakenHeap => ("(*ap" ++ toString idx ++ ")", s)
  | addrTakenPassed =>
      let (fn, s) := s.genParamDerefFunc p
      (fn ++ "(ap" ++ toString idx ++ ")", s)

/-- genReturnAssign, part_009 lines 1233-1245.  The addrTakenPassed
case registers (or reuses) a retassign helper. -/
def genstate.genReturnAssign (s : genstate) (b : List String) (r : Parm)
    (idx : Nat) (val : String) : List String × genstate :=
  match r.AddrTaken with
  | notAddrTaken =>
      (b ++ ["  r" ++ toString idx ++ " = " ++ val ++ "\n"], s)
  | addrTakenSimple =>
      (b ++ ["  (*ar" ++ toString idx ++ ") = " ++ val ++ "\n"], s)
  | addrTakenHeap =>
      (b ++ ["  (*ar" ++ toString idx ++ ") = " ++ val ++ "\n"], s)
  | addrTakenPassed =>
      let (fn, s) := s.genAssignFunc r
      (b ++ ["  " ++ fn ++ "(ar" ++ toString idx ++ ", " ++ val ++ ")\n"], s)

/-- The key-temporary loop of emitMapKeyTmps (part_009 lines 830-836). -/
def genstate.emitMapKeyTmpsLoop (s : genstate) (f : funcdef)
    (ts : List Parm) (tmps : List String) (value : Nat) (caller : Bool)
    (b : List String) : List String × Nat × genstate :=
  match ts, tmps with
  | t :: tr, tname :: nr =>
      let (keystr, value, s) := s.GenValue f t value caller
      let b := b ++ ["  " ++ tname ++ " := " ++ keystr ++ "\n"]
      let b := b ++ ["  mkt." ++ tname ++ " = " ++ tname ++ "\n"]
      s.emitMapKeyTmpsLoop f tr nr value caller b
  | _, _ => (b, value, s)

/-- emitMapKeyTmps, part_009 lines 820-838. -/
def genstate.emitMapKeyTmps (s : genstate) (f : funcdef) (pidx : Nat)
    (value : Nat) (caller : Bool) (b : List String) :
    List String × Nat × genstate :=
  if f.mapkeyts == "" then (b, value, s)
  else
    let cp := if caller then s.checkerPkg pidx ++ "." else ""
    let b := b ++ ["  var mkt " ++ cp ++ f.mapkeyts ++ "\n"]
    s.emitMapKeyTmpsLoop f f.mapkeytypes f.mapkeytmps value caller b

/-- emitVarAssign, part_009 lines 1431-1446: a 50/50 draw chooses, for
a map-typed value, between the make-plus-assign form and the literal
form; either branch consumes the value draws of the map value type. -/
def genstate.emitVarAssign (s : genstate) (f : funcdef) (r : Parm)
    (rname : String) (value : Nat) (caller : Bool) (b : List String) :
    List String × Nat × genstate :=
  let (d, s) := s.Intn 100
  let isassign := d < 50
  match r with
  | .mapparm _ _ keytmp _ vt _ =>
      if isassign then
        let b := b ++ [r.Declare ("  " ++ rname ++ " := make(") (")\n") caller]
        let (valstr, value, s) := s.GenValue f vt value caller
        let b := b ++ ["  " ++ rname ++ "[mkt." ++ keytmp ++ "] = " ++ valstr ++ "\n"]
        (b, value, s)
      else
        let (valstr, value, s) := s.GenValue f r value caller
        (b ++ ["  " ++ rname ++ " := " ++ valstr ++ "\n"], value, s)
  | _ =>
      let (valstr, value, s) := s.GenValue f r value caller
      (b ++ ["  " ++ rname ++ " := " ++ valstr ++ "\n"], value, s)

/-- The element loop of emitCompareFunc (part_009 lines 713-734). -/
def genstate.emitCompareFuncLoop (s : genstate) (f : funcdef) (p : Parm)
    (i numel ncmp : Nat) (b : List String) : List String × Nat :=
  if i ≥ numel then (b, ncmp)
  else
    let (lelref, lelparm) := p.GenElemRef i "left"
    let (relref, _) := p.GenElemRef i "right"
    if lelref == "" || lelref == "_" then
      s.emitCompareFuncLoop f p (i + 1) numel ncmp b
    else
      let (basep, star) := genDeref lelparm
      if basep.NumElements == 0 then
        s.emitCompareFuncLoop f p (i + 1) numel ncmp b
      else
        let b := if ncmp != 0 then b ++ ["  && "] else b
        let b :=
          if basep.HasPointer then
            let efn := s.eqFuncRef f basep false
            b ++ [" " ++ efn ++ "(" ++ star ++ lelref ++ ", " ++ star ++ relref ++ ")"]
          else
            b ++ [star ++ lelref ++ " == " ++ star ++ relref]
        s.emitCompareFuncLoop f p (i + 1) numel (ncmp + 1) b
termination_by numel - i

/-- emitCompareFunc, part_009 lines 697-739: the Equal function for a
pointer-containing type, comparing leaves pairwise. -/
def genstate.emitCompareFunc (s : genstate) (f : funcdef) (p : Parm)
    (b : List String) : List String :=
  if !p.HasPointer then b
  else
    let tn := p.TypeName
    let b := b ++ ["// equal func for " ++ tn ++ "\n"]
    let b := b ++ ["//go:noinline\n"]
    let rcvr := if f.mapkeyts != "" then "(mkt *" ++ f.mapkeyts ++ ") " else ""
    let b := b ++ ["func " ++ rcvr ++ "Equal" ++ tn ++ "(left " ++ tn ++
      ", right " ++ tn ++ ") bool \x7b\n"]
    let b := b ++ ["  return "]
    let (b, ncmp) := s.emitCompareFuncLoop f p 0 p.NumElements 0 b
    let b := if ncmp == 0 then b ++ ["true"] else b
    b ++ ["\n\x7d\n\n"]

/-- Field declarations inside a struct definition (FieldName per field,
blank names become underscores). -/
def emitFieldDecls (st : Parm) (fs : List Parm) (fi : Nat)
    (b : List String) : List String :=
  match fs with
  | [] => b
  | fp :: rest =>
      let b := b ++ [fp.Declare ("  " ++ st.FieldName fi) "\n" false]
      emitFieldDecls st rest (fi + 1) b

/-- The struct-definition loop of emitStructAndArrayDefs. -/
def genstate.emitStructDefsLoop (s : genstate) (f : funcdef)
    (defs : List Parm) (b : List String) : List String :=
  match defs with
  | [] => b
  | st :: rest =>
      match st with
      | .structparm sn _ fs _ =>
          let b := b ++ ["type " ++ sn ++ " struct \x7b\n"]
          let b := emitFieldDecls st fs 0 b
          let b := b ++ ["\x7d\n\n"]
          let b := s.emitCompareFunc f st b
          s.emitStructDefsLoop f rest b
      | _ => s.emitStructDefsLoop f rest b

/-- The array-definition loop of emitStructAndArrayDefs. -/
def genstate.emitArrayDefsLoop (s : genstate) (f : funcdef)
    (defs : List Parm) (b : List String) : List String :=
  match defs with
  | [] => b
  | a :: rest =>
      match a with
      | .arrayparm an _ nel sl el _ =>
          let elems := if sl then "" else toString nel
          let b := b ++ ["type " ++ an ++ " [" ++ elems ++ "]" ++
            el.TypeName ++ "\n\n"]
          let b := s.emitCompareFunc f a b
          s.emitArrayDefsLoop f rest b
      | _ => s.emitArrayDefsLoop f rest b

/-- The map-definition loop of emitStructAndArrayDefs. -/
def genstate.emitMapDefsLoop (s : genstate) (f : funcdef)
    (defs : List Parm) (b : List String) : List String :=
  match defs with
  | [] => b
  | a :: rest =>
      match a with
      | .mapparm an _ _ kt vt _ =>
          let b := b ++ ["type " ++ an ++ " map[" ++ kt.TypeName ++ "]" ++
            vt.TypeName ++ "\n\n"]
          let b := s.emitCompareFunc f a b
          s.emitMapDefsLoop f rest b
      | _ => s.emitMapDefsLoop f rest b

/-- The typedef loop of emitStructAndArrayDefs. -/
def genstate.emitTypedefsLoop (s : genstate) (f : funcdef)
    (defs : List Parm) (b : List String) : List String :=
  match defs with
  | [] => b
  | td :: rest =>
      match td with
      | .typedefparm an _ t _ =>
          let b := b ++ ["type " ++ an ++ " " ++ t.TypeName ++ "\n\n"]
          let b := s.emitCompareFunc f td b
          s.emitTypedefsLoop f rest b
      | _ => s.emitTypedefsLoop f rest b

/-- The map-key-holder field declarations (part_009 lines 769-775). -/
def emitMapKeyHolderFields : List Parm → List String → List String → List String
  | t :: tr, tmp :: mr, b =>
      emitMapKeyHolderFields tr mr (b ++ [t.Declare ("  " ++ tmp) "\n" false])
  | _, _, b => b

/-- emitStructAndArrayDefs, part_009 lines 741-776. -/
def genstate.emitStructAndArrayDefs (s : genstate) (f : funcdef)
    (b : List String) : List String :=
  let b := s.emitStructDefsLoop f f.structdefs b
  let b := s.emitArrayDefsLoop f f.arraydefs b
  let b := s.emitMapDefsLoop f f.mapdefs b
  let b := s.emitTypedefsLoop f f.typedefs b
  if f.mapkeyts != "" then
    let b := b ++ ["type " ++ f.mapkeyts ++ " struct \x7b\n"]
    let b := emitMapKeyHolderFields f.mapkeytypes f.mapkeytmps b
    b ++ ["\x7d\n\n"]
  else b

/-- The parameter loop of emitRecursiveCall (part_009 lines 1582-1593):
control passes its reference minus one, blanks pass their brc local,
everything else passes its reference through. -/
def genstate.emitRecursiveCallLoop (s : genstate) (f : funcdef)
    (ps : List Parm) (pi : Nat) (acc : String) : String × genstate :=
  match ps with
  | [] => (acc, s)
  | p :: rest =>
      let acc := acc ++ writeComStr pi
      if p.IsControl then
        let (r, s) := s.genParamRef p pi
        s.emitRecursiveCallLoop f rest (pi + 1) (acc ++ " " ++ r ++ "-1")
      else if !p.IsBlank then
        let (r, s) := s.genParamRef p pi
        s.emitRecursiveCallLoop f rest (pi + 1) (acc ++ " " ++ r)
      else
        s.emitRecursiveCallLoop f rest (pi + 1) (acc ++ " brc" ++ toString pi)

/-- emitRecursiveCall, part_009 lines 1574-1596. -/
def genstate.emitRecursiveCall (s : genstate) (f : funcdef) :
    String × genstate :=
  let rcvr := if f.method then "rcvr." else ""
  let (args, s) := s.emitRecursiveCallLoop f f.params 0 ""
  (" " ++ rcvr ++ "Test" ++ toString f.idx ++ "(" ++ args ++ ")", s)

/-- The name of the ri-th return constant ("rct" when routed through a
recursive call). -/
def retvalName (doRec : Bool) (ri : Nat) : String :=
  "rc" ++ (if doRec then "t" else "") ++ toString ri

/-- The "rct" receive-list chunks of emitReturn (part_009 lines
1634-1637). -/
def rctChunks (b : List String) (ri n : Nat) : List String :=
  if ri ≥ n then b
  else
    let b := if ri != 0 then b ++ [", "] else b
    rctChunks (b ++ ["  rct" ++ toString ri]) (ri + 1) n
termination_by n - ri

/-- The direct return-value chunks of emitReturn (part_009 lines
1658-1662). -/
def directRetChunks (b : List String) (doRec : Bool) (ri n : Nat) :
    List String :=
  if ri ≥ n then b
  else
    let b := if ri != 0 then b ++ [", "] else b
    directRetChunks (b ++ [retvalName doRec ri]) doRec (ri + 1) n
termination_by n - ri

/-- The indirect-return assignment loop of emitReturn (part_009 lines
1652-1655). -/
def genstate.emitReturnIndirectLoop (s : genstate) (rs : List Parm)
    (ri : Nat) (doRec : Bool) (b : List String) : List String × genstate :=
  match rs with
  | [] => (b, s)
  | r :: rest =>
      let (b, s) := s.genReturnAssign b r ri (retvalName doRec ri)
      s.emitReturnIndirectLoop rest (ri + 1) doRec b

/-- emitReturn, part_009 lines 1598-1665. -/
def genstate.emitReturn (s : genstate) (f : funcdef) (b : List String)
    (doRecursiveCall : Bool) : List String × genstate :=
  let indirectReturn := f.returns.any (fun r => r.AddrTaken != notAddrTaken)
  if doRecursiveCall then
    let b := b ++ ["  // recursive call\n  "]
    let b := if s.sforce then
        b ++ ["  hackStack() // force stack growth on next call\n"] else b
    let (rcall, s) := s.emitRecursiveCall f
    if indirectReturn then
      let b := rctChunks b 0 f.returns.length
      let b := b ++ [" := "] ++ [rcall] ++ ["\n"]
      let (b, s) := s.emitReturnIndirectLoop f.returns 0 true b
      (b ++ ["  return\n"], s)
    else
      if f.returns.length == 0 then (b ++ [rcall ++ "\n  return\n"], s)
      else (b ++ ["  return " ++ rcall ++ "\n"], s)
  else
    if indirectReturn then
      let (b, s) := s.emitReturnIndirectLoop f.returns 0 false b
      (b ++ ["  return\n"], s)
    else
      let b := b ++ ["  return "]
      let b := directRetChunks b false 0 f.returns.length
      (b ++ ["\n"], s)

/-- emitParamElemCheck, part_009 lines 1247-1263: the equality check of
one leaf (paramidx is -1 for the receiver). -/
def genstate.emitParamElemCheck (s : genstate) (f : funcdef)
    (b : List String) (p : Parm) (pvar cvar : String) (paramidx : Int)
    (elemidx : Nat) : List String :=
  let (basep, star) := genDeref p
  if basep.NumElements == 0 then b
  else
    let b :=
      if basep.HasPointer then
        let efn := s.eqFuncRef f basep false
        b ++ ["  if !" ++ efn ++ "(" ++ star ++ pvar ++ ", " ++ star ++ cvar ++ ") \x7b\n"]
      else
        b ++ ["  if " ++ star ++ pvar ++ " != " ++ star ++ cvar ++ " \x7b\n"]
    let cm := f.complexityMeasure
    let b := b ++ ["    " ++ s.utilsPkg ++ ".NoteFailureElem(" ++ toString cm ++
      ", " ++ toString s.pkidx ++ ", " ++ toString f.idx ++ ", \"" ++
      s.checkerPkg s.pkidx ++ "\", \"parm\", " ++ toString paramidx ++ ", " ++
      toString elemidx ++ ", false, pad[0])\n"]
    let b := b ++ ["    return\n"]
    b ++ ["  \x7d\n"]

/-- The per-element loop of the non-blank parameter case in
emitParamChecks (part_009 lines 1289-1308): each leaf value is
generated (and consumed) before the skip decision. -/
def genstate.paramElemLoop (s : genstate) (f : funcdef) (p : Parm)
    (pi i numel cel value : Nat) (b : List String) :
    List String × Nat × genstate :=
  if i ≥ numel then (b, value, s)
  else
    let (pref, s) := s.genParamRef p pi
    let (elref, elparm) := p.GenElemRef i pref
    let (valstr, value, s) := s.GenValue f elparm value false
    if elref == "" || elref == "_" || cel == 0 then
      s.paramElemLoop f p pi (i + 1) numel cel value
        (b ++ ["  // skip: " ++ valstr ++ "\n"])
    else
      let basep := (genDeref elparm).1
      if basep.NumElements == 0 then
        s.paramElemLoop f p pi (i + 1) numel cel value b
      else
        let cvar := "p" ++ toString pi ++ "f" ++ toString i ++ "c"
        let b := b ++ ["  " ++ cvar ++ " := " ++ valstr ++ "\n"]
        let b := s.emitParamElemCheck f b elparm elref cvar (Int.ofNat pi) i
        s.paramElemLoop f p pi (i + 1) numel cel value b
termination_by numel - i

/-- The per-parameter loop of emitParamChecks (part_009 lines
1269-1317).  Every parameter starts with the balance draw; the control
parameter emits the zero guard plus a return; a blank parameter
consumes its whole value; otherwise the leaves are walked.  After each
parameter the running value counter is compared with the checkpoint
f.values[pi] recorded by the caller; on mismatch errs is incremented
(Go also prints to stderr; an out-of-range checkpoint read, impossible
when the caller filled the vector, is modelled as 0). -/
def genstate.emitParamChecksLoop (s : genstate) (f : funcdef)
    (ps : List Parm) (pi value : Nat) (haveControl : Bool)
    (dangling : List Nat) (b : List String) :
    List String × Nat × genstate × Bool × List Nat :=
  match ps with
  | [] => (b, value, s, haveControl, dangling)
  | p :: rest =>
      let (_, s) := s.Intn 100
      let st :=
        if p.IsControl then
          let (pref, s) := s.genParamRef p pi
          let b := b ++ ["  if " ++ pref ++ " == 0 \x7b\n"]
          let (b, s) := s.emitReturn f b false
          (b ++ ["  \x7d\n"], value, s, true, dangling)
        else if p.IsBlank then
          let (valstr, value, s) := s.GenValue f p value false
          let b :=
            if f.recur then
              b ++ ["  brc" ++ toString pi ++ " := " ++ valstr ++ "\n"]
            else b ++ ["  _ = " ++ valstr ++ "\n"]
          (b, value, s, haveControl, dangling)
        else
          let numel := p.NumElements
          let cel := checkableElements p
          let (b, value, s) := s.paramElemLoop f p pi 0 numel cel value b
          let dangling :=
            if p.AddrTaken != notAddrTaken then dangling ++ [pi] else dangling
          (b, value, s, haveControl, dangling)
      let (b, value, s, haveControl, dangling) := st
      let s := if value != f.values.getD pi 0 then
          { s with errs := s.errs + 1 } else s
      s.emitParamChecksLoop f rest (pi + 1) value haveControl dangling b

/-- The receiver element loop of emitParamChecks (part_009 lines
1323-1344). -/
def genstate.rcvrElemLoop (s : genstate) (f : funcdef) (r : Parm)
    (i numel value : Nat) (b : List String) : List String × Nat × genstate :=
  if i ≥ numel then (b, value, s)
  else
    let (elref, elparm) := r.GenElemRef i "rcvr"
    let (valstr, value, s) := s.GenValue f elparm value false
    if elref == "" || elref.startsWith "_" || r.IsBlank then
      s.rcvrElemLoop f r (i + 1) numel value b
    else
      let basep := (genDeref elparm).1
      if basep.NumElements == 0 then
        s.rcvrElemLoop f r (i + 1) numel value b
      else
        let cvar := "rcvrf" ++ toString i ++ "c"
        let b := b ++ ["  " ++ cvar ++ " := " ++ valstr ++ "\n"]
        let b := s.emitParamElemCheck f b elparm elref cvar (-1) i
        s.rcvrElemLoop f r (i + 1) numel value b
termination_by numel - i

/-- emitParamChecks, part_009 lines 1265-1347.  Returns the updated
buffer, the value counter, the state and haveControl. -/
def genstate.emitParamChecks (s : genstate) (f : funcdef) (_pidx : Nat)
    (value : Nat) (b : List String) :
    List String × Nat × genstate × Bool :=
  let (b, value, s, haveControl, dangling) :=
    s.emitParamChecksLoop f f.params 0 value false [] b
  let b := dangling.foldl
    (fun b pi => b ++ ["  _ = ap" ++ toString pi ++ " // ref\n"]) b
  let (b, value, s) :=
    if f.method then
      match f.receiver with
      | some r => s.rcvrElemLoop f r 0 r.NumElements value b
      | none => (b, value, s)
    else (b, value, s)
  (b, value, s, haveControl)

/-- The closure signature loop of emitDeferChecks (part_009 lines
1373-1385). -/
def deferSigLoop (ps : List Parm) (dodefp : List Nat) (pi pc : Nat)
    (b : List String) : List String × Nat :=
  match ps with
  | [] => (b, pc)
  | p :: rest =>
      if p.IsControl || p.IsBlank then deferSigLoop rest dodefp (pi + 1) pc b
      else if dodefp.getD pi 0 < 50 then
        let b := if pc != 0 then b ++ [", "] else b
        let b := b ++ [p.Declare ("p" ++ toString pi) "" false]
        deferSigLoop rest dodefp (pi + 1) (pc + 1) b
      else deferSigLoop rest dodefp (pi + 1) pc b

/-- The per-element check loop inside the defer closure (part_009
lines 1396-1412); unlike the main parameter pass it consumes no
values. -/
def genstate.deferElemLoop (s : genstate) (f : funcdef) (p : Parm)
    (pi i numel cel : Nat) (b : List String) : List String × genstate :=
  if i ≥ numel then (b, s)
  else
    let (pref, s) := s.genParamRef p pi
    let (elref, elparm) := p.GenElemRef i pref
    if elref == "" || elref == "_" || cel == 0 then
      s.deferElemLoop f p pi (i + 1) numel cel b
    else
      let basep := (genDeref elparm).1
      if basep.NumElements == 0 then
        s.deferElemLoop f p pi (i + 1) numel cel b
      else
        let cvar := "p" ++ toString pi ++ "f" ++ toString i ++ "c"
        let b := s.emitParamElemCheck f b elparm elref cvar (Int.ofNat pi) i
        s.deferElemLoop f p pi (i + 1) numel cel b
termination_by numel - i

/-- The per-parameter loop of the defer closure body (part_009 lines
1387-1413). -/
def genstate.deferChecksLoop (s : genstate) (f : funcdef)
    (ps : List Parm) (dodefp : List Nat) (pi : Nat) (b : List String) :
    List String × genstate :=
  match ps with
  | [] => (b, s)
  | p :: rest =>
      if p.IsControl || p.IsBlank then
        s.deferChecksLoop f rest dodefp (pi + 1) b
      else
        let which := if dodefp.getD pi 0 < 50 then "passed" else "captured"
        let b := b ++ ["  // check parm " ++ which ++ "\n"]
        let (b, s) := s.deferElemLoop f p pi 0 p.NumElements
          (checkableElements p) b
        s.deferChecksLoop f rest dodefp (pi + 1) b

/-- The closure argument loop of emitDeferChecks (part_009 lines
1415-1425). -/
def deferArgsLoop (ps : List Parm) (dodefp : List Nat) (pi pc : Nat)
    (b : List String) : List String × Nat :=
  match ps with
  | [] => (b, pc)
  | p :: rest =>
      if p.IsControl || p.IsBlank then deferArgsLoop rest dodefp (pi + 1) pc b
      else if dodefp.getD pi 0 < 50 then
        let b := if pc != 0 then b ++ [", "] else b
        let b := b ++ ["p" ++ toString pi]
        deferArgsLoop rest dodefp (pi + 1) (pc + 1) b
      else deferArgsLoop rest dodefp (pi + 1) pc b

/-- emitDeferChecks, part_009 lines 1359-1429.  Draws nothing from the
stream; the passed/captured choice comes from the dodefp values fixed
at GenFunc time. -/
def genstate.emitDeferChecks (s : genstate) (f : funcdef) (_pidx : Nat)
    (value : Nat) (b : List String) : List String × Nat × genstate :=
  if f.params.length == 0 then (b, value, s)
  else
    let b := b ++ ["  defer func("]
    let (b, _) := deferSigLoop f.params f.dodefp 0 0 b
    let b := b ++ [") \x7b\n"]
    let (b, s) := s.deferChecksLoop f f.params f.dodefp 0 b
    let b := b ++ ["  \x7d ("]
    let (b, _) := deferArgsLoop f.params f.dodefp 0 0 b
    (b ++ [")\n\n"], value, s)

/-- The caller return-constant loop (part_009 lines 853-857). -/
def genstate.callerReturnsLoop (s : genstate) (f : funcdef)
    (rs : List Parm) (ri value : Nat) (b : List String) :
    List String × Nat × genstate :=
  match rs with
  | [] => (b, value, s)
  | r :: rest =>
      let rc := "c" ++ toString ri
      let (b, value, s) := s.emitVarAssign f r rc value true b
      s.callerReturnsLoop f rest (ri + 1) value b

/-- The caller parameter-constant loop (part_009 lines 859-870): the
control parameter takes one balance draw and the literal 10; every
other parameter goes through emitVarAssign.  After each parameter the
current value counter is appended to the checkpoint vector. -/
def genstate.callerParamsLoop (s : genstate) (f : funcdef)
    (ps : List Parm) (pi value : Nat) (vals : List Nat) (b : List String) :
    List String × Nat × List Nat × genstate :=
  match ps with
  | [] => (b, value, vals, s)
  | p :: rest =>
      if p.IsControl then
        let (_, s) := s.Intn 100
        let b := b ++ [p.Declare ("  var p" ++ toString pi ++ " ") " = 10\n" true]
        s.callerParamsLoop f rest (pi + 1) value (vals ++ [value]) b
      else
        let (b, value, s) :=
          s.emitVarAssign f p ("p" ++ toString pi) value true b
        s.callerParamsLoop f rest (pi + 1) value (vals ++ [value]) b

/-- "r0, r1, ..." receive chunks of the normal call (part_009 lines
891-894). -/
def callerRetNameChunks (b : List String) (ri n : Nat) : List String :=
  if ri ≥ n then b
  else
    let b := if ri != 0 then b ++ [", "] else b
    callerRetNameChunks (b ++ ["r" ++ toString ri]) (ri + 1) n
termination_by n - ri

/-- "p0, p1, ..." argument chunks of the normal call (part_009 lines
903-906). -/
def callerArgChunks (b : List String) (pi n : Nat) : List String :=
  if pi ≥ n then b
  else
    let b := if pi != 0 then b ++ [", "] else b
    callerArgChunks (b ++ ["p" ++ toString pi]) (pi + 1) n
termination_by n - pi

/-- "reflect.ValueOf(p0), ..." argument chunks of the reflect call
(part_009 lines 950-953). -/
def reflectArgChunks (b : List String) (pi n : Nat) : List String :=
  if pi ≥ n then b
  else
    let b := if pi != 0 then b ++ [", "] else b
    reflectArgChunks (b ++ ["reflect.ValueOf(p" ++ toString pi ++ ")"]) (pi + 1) n
termination_by n - pi

/-- The normal-mode return-check loop of emitCaller (part_009 lines
911-931).  Zero-size returns are only mentioned in a comment; a
pointer-shaped return (nonempty star from genDeref) gets the
ParamFailCount guard; the pointer-containing comparison dispatches to
the Equal function. -/
def genstate.callerRetChecksLoop (s : genstate) (f : funcdef)
    (rs : List Parm) (ri pidx cm : Nat) (b : List String) : List String :=
  match rs with
  | [] => b
  | rp :: rest =>
      let (curp, star) := genDeref rp
      if curp.NumElements == 0 then
        s.callerRetChecksLoop f rest (ri + 1) pidx cm
          (b ++ ["  _, _ = r" ++ toString ri ++ ", c" ++ toString ri ++
            " // zero size\n"])
      else
        let pfc := if star != "" then
            s.utilsPkg ++ ".ParamFailCount == 0 && " else ""
        let b :=
          if curp.HasPointer then
            let efn := "!" ++ s.eqFuncRef f curp true
            b ++ ["  if " ++ pfc ++ efn ++ "(" ++ star ++ "r" ++ toString ri ++
              ", " ++ star ++ "c" ++ toString ri ++ ") \x7b\n"]
          else
            b ++ ["  if " ++ pfc ++ star ++ "r" ++ toString ri ++ " != " ++
              star ++ "c" ++ toString ri ++ " \x7b\n"]
        let b := b ++ ["    " ++ s.utilsPkg ++ ".NoteFailure(" ++ toString cm ++
          ", " ++ toString pidx ++ ", " ++ toString f.idx ++ ", \"" ++
          s.checkerPkg pidx ++ "\", \"return\", " ++ toString ri ++
          ", true, uint64(0))\n"]
        s.callerRetChecksLoop f rest (ri + 1) pidx cm (b ++ ["  \x7d\n"])

/-- The reflect-mode return-check loop of emitCaller (part_009 lines
957-982): unpack, cast, then the same checks as the normal mode. -/
def genstate.reflectRetChecksLoop (s : genstate) (f : funcdef)
    (rs : List Parm) (ri pidx cm : Nat) (b : List String) : List String :=
  match rs with
  | [] => b
  | r :: rest =>
      let b := b ++ ["  rr" ++ toString ri ++ "i := rvslice[" ++ toString ri ++
        "].Interface()\n"]
      let b := b ++ ["  rr" ++ toString ri ++ "v:= rr" ++ toString ri ++ "i.("]
      let b := b ++ [r.Declare "" "" true]
      let b := b ++ [")\n"]
      let (curp, star) := genDeref r
      if curp.NumElements == 0 then
        s.reflectRetChecksLoop f rest (ri + 1) pidx cm
          (b ++ ["  _, _ = rr" ++ toString ri ++ "v, c" ++ toString ri ++
            " // zero size\n"])
      else
        let pfc := if star != "" then
            s.utilsPkg ++ ".ParamFailCount == 0 && " else ""
        let b :=
          if curp.HasPointer then
            let efn := "!" ++ s.eqFuncRef f curp true
            b ++ ["  if " ++ pfc ++ efn ++ "(" ++ star ++ "rr" ++ toString ri ++
              "v, " ++ star ++ "c" ++ toString ri ++ ") \x7b\n"]
          else
            b ++ ["  if " ++ pfc ++ star ++ "rr" ++ toString ri ++ "v != " ++
              star ++ "c" ++ toString ri ++ " \x7b\n"]
        let b := b ++ ["    " ++ s.utilsPkg ++ ".NoteFailure(" ++ toString cm ++
          ", " ++ toString pidx ++ ", " ++ toString f.idx ++ ", \"" ++
          s.checkerPkg pidx ++ "\", \"reflect return\", " ++ toString ri ++
          ", true, uint64(0))\n"]
        s.reflectRetChecksLoop f rest (ri + 1) pidx cm (b ++ ["  \x7d\n"])

/-- emitCaller, part_009 lines 840-989.  Returns the funcdef with its
checkpoint vector filled, the caller text and the state. -/
def genstate.emitCaller (s : genstate) (f : funcdef) (pidx : Nat)
    (b : List String) : funcdef × List String × genstate :=
  let b := b ++ ["func Caller" ++ toString f.idx ++ "(mode string) \x7b\n"]
  let b := b ++ ["  " ++ s.utilsPkg ++ ".BeginFcn()\n"]
  let value := 1
  let s := { s with wr := s.wr.Checkpoint "before mapkeytmps" }
  let (b, value, s) := s.emitMapKeyTmps f pidx value true b
  let s := { s with wr := s.wr.Checkpoint "before return constants" }
  let (b, value, s) := s.callerReturnsLoop f f.returns 0 value b
  let s := { s with wr := s.wr.Checkpoint "before param constants" }
  let (b, value, vals, s) := s.callerParamsLoop f f.params 0 value f.values b
  let (b, value, vals, s) :=
    if f.method then
      match f.receiver with
      | some rcvr =>
          let s := { s with wr := s.wr.Checkpoint "before receiver constant" }
          let b := b ++ [rcvr.Declare "  var rcvr" "\n" true]
          let (valstr, value, s) := s.GenValue f rcvr value true
          let b := b ++ ["  rcvr = " ++ valstr ++ "\n"]
          (b, value, vals ++ [value], s)
      | none => (b, value, vals, s)
    else (b, value, vals, s)
  let f := { f with values := vals }
  let b := b ++ ["  " ++ s.utilsPkg ++ ".Mode = \"\"\n"]
  let b := b ++ ["  // " ++ toString f.returns.length ++ " returns " ++
    toString f.params.length ++ " params\n"]
  let b := if s.sforce then
      b ++ ["  hackStack() // force stack growth on next call\n"] else b
  let b := b ++ ["  if mode == \"normal\" \x7b\n"]
  let b := b ++ ["  "]
  let b := callerRetNameChunks b 0 f.returns.length
  let b := if f.returns.length > 0 then b ++ [" := "] else b
  let pref := if f.method then "rcvr" else s.checkerPkg pidx
  let b := b ++ [pref ++ ".Test" ++ toString f.idx ++ "("]
  let b := callerArgChunks b 0 f.params.length
  let b := b ++ [")\n"]
  let cm := f.complexityMeasure
  let b := s.callerRetChecksLoop f f.returns 0 pidx cm b
  let b := b ++ ["  \x7d"]
  let b :=
    if s.tunables.doReflectCall then
      let b := b ++ ["else \x7b\n"]
      let b := b ++ ["  // same call via reflection\n"]
      let b := b ++ ["  " ++ s.utilsPkg ++ ".Mode = \"reflect\"\n"]
      let b :=
        if f.method then
          let b := b ++ ["  rcv := reflect.ValueOf(rcvr)\n"]
          b ++ ["  rc := rcv.MethodByName(\"Test" ++ toString f.idx ++ "\")\n"]
        else
          b ++ ["  rc := reflect.ValueOf(" ++ s.checkerPkg pidx ++ ".Test" ++
            toString f.idx ++ ")\n"]
      let b := b ++ ["  "]
      let b := if f.returns.length > 0 then b ++ ["rvslice := "] else b
      let b := b ++ ["  rc.Call([]reflect.Value" ++ lb]
      let b := reflectArgChunks b 0 f.params.length
      let b := b ++ [rb ++ ")\n"]
      let b := s.reflectRetChecksLoop f f.returns 0 pidx cm b
      b ++ [rb ++ "\n"]
    else b
  let b := b ++ ["\n  " ++ s.utilsPkg ++ ".EndFcn()\n"]
  let b := b ++ [rb ++ "\n\n"]
  (f, b, s)

/-- The children the containedParms worklist enqueues for one parm
(the switch in parm.go, current revision, lines 112-127). -/
def parmChildren : Parm → List Parm
  | .mapparm _ _ _ kt vt _ => [kt, vt]
  | .structparm _ _ fs _ => fs
  | .arrayparm _ _ _ _ el _ => [el]
  | .pointerparm tp _ => [tp]
  | .typedefparm _ _ t _ => [t]
  | _ => []

/-- The worklist pass of containedParms (parm.go, current revision,
lines 92-128): breadth-first collection keyed by TypeName.  `names` is
the visited-key set, `acc` the visited parms in insertion order; fuel
bounds the iterations. -/
def visitCanonAux : Nat → List Parm → List String → List Parm → List Parm
  | 0, _, _, acc => acc
  | _ + 1, [], _, acc => acc
  | fuel + 1, cp :: rest, names, acc =>
      if names.contains cp.TypeName then visitCanonAux fuel rest names acc
      else
        let names := cp.TypeName :: names
        let newwork := (parmChildren cp).filter
          (fun q => !names.contains q.TypeName)
        visitCanonAux fuel (rest ++ newwork) names (acc ++ [cp])

/-- Insertion into a list sorted by TypeName. -/
def insertByName (x : Parm) : List Parm → List Parm
  | [] => [x]
  | y :: ys =>
      if x.TypeName < y.TypeName then x :: y :: ys else y :: insertByName x ys

/-- Sort by TypeName (the sort.Slice call of containedParms).  The Go
comparator panics when two entries share a TypeName; that situation is
unreachable because the visited set is keyed by TypeName, see
`visitCanonAux_names_nodup` below. -/
def sortByTypeName : List Parm → List Parm
  | [] => []
  | x :: xs => insertByName x (sortByTypeName xs)

/-- containedParms (parm.go, current revision, lines 92-140).  `σ`
is the Go map-iteration order: an arbitrary permutation applied to the
canonically collected visited set before sorting. -/
def containedParms (σ : List Parm → List Parm) (fuel : Nat) (p : Parm) :
    List Parm :=
  sortByTypeName (σ (visitCanonAux fuel [p] [] []))

/-- The loop of emitDerefFuncs (part_009 lines 1031-1045): on a
suppressed function the helper is rolled back from the registry. -/
def genstate.emitDerefFuncsLoop (s : genstate) (fds : List funcdesc)
    (emit : Bool) (b : List String) : List String × genstate :=
  match fds with
  | [] => (b, s)
  | fd :: rest =>
      if !emit then
        let b := b ++ ["\n// skip derefunc " ++ fd.name ++ "\n"]
        let s := { s with derefFuncs := mdelete s.derefFuncs fd.tag }
        s.emitDerefFuncsLoop rest emit b
      else
        let b := b ++ ["\n//go:noinline\n"]
        let b := b ++ ["func " ++ fd.name ++ "("]
        let b := b ++ [fd.pp.Declare "x" "" false]
        let b := b ++ [") "]
        let b := b ++ [fd.p.Declare "" "" false]
        let b := b ++ [" \x7b\n"]
        let b := b ++ ["  return *x\n"]
        let b := b ++ ["\x7d\n"]
        s.emitDerefFuncsLoop rest emit b

/-- emitDerefFuncs, part_009 lines 1029-1047. -/
def genstate.emitDerefFuncs (s : genstate) (emit : Bool) (b : List String) :
    List String × genstate :=
  let b := b ++ ["// dereference helpers\n"]
  let (b, s) := s.emitDerefFuncsLoop s.newDerefFuncs emit b
  (b, { s with newDerefFuncs := [] })

/-- The loop of emitAssignFuncs (part_009 lines 1051-1065). -/
def genstate.emitAssignFuncsLoop (s : genstate) (fds : List funcdesc)
    (emit : Bool) (b : List String) : List String × genstate :=
  match fds with
  | [] => (b, s)
  | fd :: rest =>
      if !emit then
        let b := b ++ ["\n// skip assignfunc " ++ fd.name ++ "\n"]
        let s := { s with assignFuncs := mdelete s.assignFuncs fd.tag }
        s.emitAssignFuncsLoop rest emit b
      else
        let b := b ++ ["\n//go:noinline\n"]
        let b := b ++ ["func " ++ fd.name ++ "("]
        let b := b ++ [fd.pp.Declare "x" "" false]
        let b := b ++ [", "]
        let b := b ++ [fd.p.Declare "v" "" false]
        let b := b ++ [") \x7b\n"]
        let b := b ++ ["  *x = v\n"]
        let b := b ++ ["\x7d\n"]
        s.emitAssignFuncsLoop rest emit b

/-- emitAssignFuncs, part_009 lines 1049-1067. -/
def genstate.emitAssignFuncs (s : genstate) (emit : Bool) (b : List String) :
    List String × genstate :=
  let b := b ++ ["// assign helpers\n"]
  let (b, s) := s.emitAssignFuncsLoop s.newAssignFuncs emit b
  (b, { s with newAssignFuncs := [] })

/-- The loop of emitNewFuncs (part_009 lines 1071-1089). -/
def genstate.emitNewFuncsLoop (s : genstate) (fds : List funcdesc)
    (emit : Bool) (b : List String) : List String × genstate :=
  match fds with
  | [] => (b, s)
  | fd :: rest =>
      if !emit then
        let b := b ++ ["\n// skip newfunc " ++ fd.name ++ "\n"]
        let s := { s with allocFuncs := mdelete s.allocFuncs fd.tag }
        s.emitNewFuncsLoop rest emit b
      else
        let b := b ++ ["\n//go:noinline\n"]
        let b := b ++ ["func " ++ fd.name ++ "("]
        let b := b ++ [fd.p.Declare "i" "" false]
        let b := b ++ [") "]
        let b := b ++ [fd.pp.Declare "" "" false]
        let b := b ++ [" \x7b\n"]
        let b := b ++ ["  x := new("]
        let b := b ++ [fd.p.Declare "" "" false]
        let b := b ++ [")\n"]
        let b := b ++ ["  *x = i\n"]
        let b := b ++ ["  return x\n"]
        let b := b ++ ["\x7d\n\n"]
        s.emitNewFuncsLoop rest emit b

/-- emitNewFuncs, part_009 lines 1069-1091. -/
def genstate.emitNewFuncs (s : genstate) (emit : Bool) (b : List String) :
    List String × genstate :=
  let b := b ++ ["// 'new' funcs\n"]
  let (b, s) := s.emitNewFuncsLoop s.newAllocFuncs emit b
  (b, { s with newAllocFuncs := [] })

/-- The loop of emitGlobalVars (part_009 lines 1095-1104). -/
def genstate.emitGlobalVarsLoop (s : genstate) (fds : List funcdesc)
    (emit : Bool) (b : List String) : List String × genstate :=
  match fds with
  | [] => (b, s)
  | fd :: rest =>
      if !emit then
        let b := b ++ ["\n// skip gvar " ++ fd.name ++ "\n"]
        let s := { s with globVars := mdelete s.globVars fd.tag }
        s.emitGlobalVarsLoop rest emit b
      else
        let b := b ++ ["var "]
        let b := b ++ [fd.pp.Declare fd.name "" false]
        let b := b ++ ["\n"]
        s.emitGlobalVarsLoop rest emit b

/-- emitGlobalVars, part_009 lines 1093-1107. -/
def genstate.emitGlobalVars (s : genstate) (emit : Bool) (b : List String) :
    List String × genstate :=
  let b := b ++ ["// global vars\n"]
  let (b, s) := s.emitGlobalVarsLoop s.newGlobVars emit b
  (b ++ ["\n"], { s with newGlobVars := [] })

/-- The per-contained-parm key-copy lines inside a genval helper body
(part_009 lines 1126-1134). -/
def genvalKeyCopies : List Parm → List String → List String
  | [], b => b
  | cp :: rest, b =>
      match cp with
      | .mapparm _ _ keytmp _ _ _ =>
          genvalKeyCopies rest
            (b ++ ["  " ++ keytmp ++ " := mkt." ++ keytmp ++ "\n"])
      | _ => genvalKeyCopies rest b

/-- The loop of emitGenValFuncs (part_009 lines 1111-1137). -/
def genstate.emitGenValFuncsLoop (σ : List Parm → List Parm) (fuel : Nat)
    (s : genstate) (f : funcdef) (fds : List funcdesc) (emit : Bool)
    (b : List String) : List String × genstate :=
  match fds with
  | [] => (b, s)
  | fd :: rest =>
      if !emit then
        let b := b ++ ["\n// skip genvalfunc " ++ fd.name ++ "\n"]
        let s := { s with genvalFuncs := mdelete s.genvalFuncs fd.tag }
        s.emitGenValFuncsLoop σ fuel f rest emit b
      else
        let b := b ++ ["\n//go:noinline\n"]
        let rcvr := if f.mapkeyts != "" then "(mkt *" ++ f.mapkeyts ++ ") " else ""
        let b := b ++ ["func " ++ rcvr ++ fd.name ++ "() "]
        let b := b ++ [fd.p.Declare "" "" false]
        let b := b ++ [" \x7b\n"]
        let b :=
          if f.mapkeyts != "" then
            genvalKeyCopies (containedParms σ fuel fd.p) b
          else b
        let b := b ++ ["  return " ++ fd.payload ++ "\n"]
        let b := b ++ ["\x7d\n"]
        s.emitGenValFuncsLoop σ fuel f rest emit b

/-- emitGenValFuncs, part_009 lines 1109-1139. -/
def genstate.emitGenValFuncs (σ : List Parm → List Parm) (fuel : Nat)
    (s : genstate) (f : funcdef) (emit : Bool) (b : List String) :
    List String × genstate :=
  let b := b ++ ["// genval helpers\n"]
  let (b, s) := s.emitGenValFuncsLoop σ fuel f s.newGenvalFuncs emit b
  (b, { s with newGenvalFuncs := [] })

/-- emitAddrTakenHelpers, part_009 lines 1141-1149. -/
def genstate.emitAddrTakenHelpers (σ : List Parm → List Parm) (fuel : Nat)
    (s : genstate) (f : funcdef) (emit : Bool) (b : List String) :
    List String × genstate :=
  let b := b ++ ["// begin addr taken helpers\n"]
  let (b, s) := s.emitDerefFuncs emit b
  let (b, s) := s.emitAssignFuncs emit b
  let (b, s) := s.emitNewFuncs emit b
  let (b, s) := s.emitGlobalVars emit b
  let (b, s) := s.emitGenValFuncs σ fuel f emit b
  (b ++ ["// end addr taken helpers\n"], s)

/-- The parameter-signature loop of emitChecker (part_009 lines
1474-1481). -/
def checkerSigParams (ps : List Parm) (pi : Nat) (b : List String) :
    List String :=
  match ps with
  | [] => b
  | p :: rest =>
      let b := if pi != 0 then b ++ [", "] else b
      let n := if p.IsBlank then "_" else "p" ++ toString pi
      checkerSigParams rest (pi + 1) (b ++ [p.Declare n "" false])

/-- The return-signature loop of emitChecker (part_009 lines
1488-1491). -/
def checkerSigReturns (rs : List Parm) (ri : Nat) (b : List String) :
    List String :=
  match rs with
  | [] => b
  | r :: rest =>
      let b := if ri != 0 then b ++ [", "] else b
      checkerSigReturns rest (ri + 1)
        (b ++ [r.Declare ("r" ++ toString ri) "" false])

/-- The checker return-constant loop (part_009 lines 1510-1513). -/
def genstate.checkerReturnsLoop (s : genstate) (f : funcdef)
    (rs : List Parm) (ri value : Nat) (b : List String) :
    List String × Nat × genstate :=
  match rs with
  | [] => (b, value, s)
  | r :: rest =>
      let rc := "rc" ++ toString ri
      let (b, value, s) := s.emitVarAssign f r rc value false b
      s.checkerReturnsLoop f rest (ri + 1) value b

/-- The address-taken preparation loop (part_009 lines 1516-1532):
bind the address, and store it into a global for the heap flavour. -/
def genstate.addrPrepLoop (s : genstate) (lst : List Parm) (n : String)
    (pi count : Nat) (b : List String) : List String × Nat × genstate :=
  match lst with
  | [] => (b, count, s)
  | p :: rest =>
      if p.AddrTaken == notAddrTaken then
        s.addrPrepLoop rest n (pi + 1) count b
      else
        let b := b ++ ["  a" ++ n ++ toString pi ++ " := &" ++ n ++
          toString pi ++ "\n"]
        let (b, s) :=
          if p.AddrTaken == addrTakenHeap then
            let (gv, s) := s.genGlobVar p
            (b ++ ["  " ++ gv ++ " = a" ++ n ++ toString pi ++ "\n"], s)
          else (b, s)
        s.addrPrepLoop rest n (pi + 1) (count + 1) b

/-- emitChecker, part_009 lines 1448-1555. -/
def genstate.emitChecker (σ : List Parm → List Parm) (fuel : Nat)
    (s : genstate) (f : funcdef) (pidx : Nat) (emit : Bool)
    (b : List String) : List String × genstate :=
  let b := s.emitStructAndArrayDefs f b
  let b := b ++ ["// " ++ toString f.returns.length ++ " returns " ++
    toString f.params.length ++ " params\n"]
  let b := if s.pragma != "" then b ++ ["//go:" ++ s.pragma ++ "\n"] else b
  let b := b ++ ["//go:noinline\n"]
  let b := b ++ ["func"]
  let b :=
    if f.method then
      match f.receiver with
      | some r =>
          let b := b ++ [" ("]
          let n := if r.IsBlank then "_" else "rcvr"
          let b := b ++ [r.Declare n "" false]
          b ++ [")"]
      | none => b
    else b
  let b := b ++ [" Test" ++ toString f.idx ++ "("]
  let b := checkerSigParams f.params 0 b
  let b := b ++ [") "]
  let b := if f.returns.length > 0 then b ++ ["("] else b
  let b := checkerSigReturns f.returns 0 b
  let b := if f.returns.length > 0 then b ++ [")"] else b
  let b := b ++ [" \x7b\n"]
  let b := b ++ ["  // consume some stack space, so as to trigger morestack\n"]
  let b := b ++ ["  var pad [" ++ toString f.rstack ++ "]uint64\n"]
  let b := b ++ ["  pad[" ++ s.utilsPkg ++ ".FailCount&0x1]++\n"]
  let value := 1
  let s := { s with wr := s.wr.Checkpoint "before map key temps" }
  let (b, value, s) := s.emitMapKeyTmps f pidx value false b
  let s := { s with wr := s.wr.Checkpoint "before return constants" }
  let (b, value, s) := s.checkerReturnsLoop f f.returns 0 value b
  let (b, apCount, s) := s.addrPrepLoop f.params "p" 0 0 b
  let (b, arCount, s) := s.addrPrepLoop f.returns "r" 0 0 b
  let s := { s with wr := s.wr.Checkpoint "before param checks" }
  let (b, value, s, haveControl) := s.emitParamChecks f pidx value b
  let (b, s) :=
    if s.tunables.doDefer && f.dodefc < s.tunables.deferFraction then
      let s := { s with wr := s.wr.Checkpoint "before defer checks" }
      let (b, _, s) := s.emitDeferChecks f pidx value b
      (b, s)
    else (b, s)
  let (b, s) := s.emitReturn f b haveControl
  let b := b ++ ["  // " ++ toString apCount ++ " addr-taken params, " ++
    toString arCount ++ " addr-taken returns\n"]
  let b := b ++ ["\x7d\n\n"]
  s.emitAddrTakenHelpers σ fuel f emit b

/-- Fuel for the redistributeFraction loop.  The loop makes at most
256 increments (the uint8 wrap case) spread over at most nine visits
per increment, so 4096 visits always suffice; exhaustion models the
infinite loop that Go would enter if every bucket were avoided. -/
def redisFuel : Nat := 4096

/-- The in-place cumulative sum over the typeFractions copy in GenParm
(part_009 lines 462-467); uint8 additions. -/
def cumsumU8Aux : List Nat → Nat → List Nat
  | [], _ => []
  | v :: rest, sum =>
      let sum := (sum + v) % 256
      sum :: cumsumU8Aux rest sum

/-- Cumulative sums of a fraction table, uint8 semantics. -/
def cumsumU8 (tf : List Nat) : List Nat := cumsumU8Aux tf 0

mutual

/-- GenParm, part_009 lines 451-613.  `gt` is the package-level
`tunables` variable (read directly for takeAddress and
doFuncCallValues); the scoped weights live in s.tunables.  `fuel`
bounds the recursion (`none` = out of fuel, or a Go panic path: the
unreachable too-deep container buckets, or a checkTunables abort inside
precludeSelectedTypes).  The per-case placeholder append / fix-up of
the definition lists follows the source order so that nested calls see
the right list lengths. -/
def genstate.GenParm (gt : TunableParams) (fuel : Nat) (s : genstate)
    (f : funcdef) (depth : Nat) (mkctl : Bool) (pidx : Nat) :
    Option (Parm × funcdef × genstate) :=
  match fuel with
  | 0 => none
  | fuel + 1 =>
      let toodeep := depth ≥ s.tunables.structDepth
      let pre : Option genstate :=
        if toodeep then
          (s.pushTunables).precludeSelectedTypes redisFuel StructTfIdx
            [ArrayTfIdx, MapTfIdx, PointerTfIdx]
        else some s
      match pre with
      | none => none
      | some s =>
          let tf := cumsumU8 s.tunables.typeFractions
          let (ib, s) := s.Intn 100
          let isblank := ib < s.tunables.blankPerc
          let (addrTaken, s) :=
            if depth == 0 && gt.takeAddress && !isblank then s.genAddrTaken
            else (notAddrTaken, s)
          let (isGenValFunc, s) :=
            if gt.doFuncCallValues then
              let (d, s) := s.Intn 100
              (d < s.tunables.funcCallValFraction, s)
            else (false, s)
          let (which, s) := s.Intn 100
          let core : Option (Parm × funcdef × genstate) :=
            if which < tf.getD StructTfIdx 0 then
              if toodeep then none
              else
                let ns := f.structdefs.length
                let sname := "StructF" ++ toString f.idx ++ "S" ++ toString ns
                let qname := s.checkerPkg pidx ++ "." ++ sname
                let f := { f with structdefs :=
                  f.structdefs ++ [Parm.structparm sname qname [] {}] }
                let tnf := s.tunables.nStructFields / (depth + 1)
                let (nf, s) := s.Intn tnf
                match genstate.genParmFields gt fuel s f (depth + 1) pidx nf [] with
                | none => none
                | some (fields, f, s) =>
                    let sp := Parm.structparm sname qname fields {}
                    let f := { f with structdefs := f.structdefs.set ns sp }
                    some (sp, f, s)
            else if which < tf.getD ArrayTfIdx 0 then
              if toodeep then none
              else
                let ns := f.arraydefs.length
                let (nel, s) := s.Intn s.tunables.nArrayElements
                let (dsl, s) := s.Intn 100
                let issl := dsl < s.tunables.sliceFraction
                let aname := "ArrayF" ++ toString f.idx ++ "S" ++ toString ns ++
                  "E" ++ toString nel
                let qname := s.checkerPkg pidx ++ "." ++ aname
                let f := { f with arraydefs :=
                  f.arraydefs ++ [Parm.arrayparm aname qname nel issl (Parm.stringparm {}) {}] }
                match genstate.GenParm gt fuel s f (depth + 1) false pidx with
                | none => none
                | some (el, f, s) =>
                    let el := el.SetBlank false
                    let ap := Parm.arrayparm aname qname nel issl el {}
                    let f := { f with arraydefs := f.arraydefs.set ns ap }
                    some (ap, f, s)
            else if which < tf.getD MapTfIdx 0 then
              if toodeep then none
              else
                let ns := f.mapdefs.length
                let f := { f with
                  mapdefs := f.mapdefs ++
                    [Parm.mapparm "" "" "" (Parm.stringparm {}) (Parm.stringparm {}) {}],
                  mapkeytmps := f.mapkeytmps ++ [""],
                  mapkeytypes := f.mapkeytypes ++ [Parm.stringparm {}] }
                let aname := "MapF" ++ toString f.idx ++ "M" ++ toString ns
                let f := if f.mapkeyts == "" then
                    { f with mapkeyts := "MapKeysF" ++ toString f.idx } else f
                let qname := s.checkerPkg pidx ++ "." ++ aname
                let mkt := "Mk" ++ toString f.idx ++ "t" ++ toString ns
                match genstate.GenMapKeyType gt fuel s f (depth + 1) pidx with
                | none => none
                | some (mkp, f, s) =>
                    match genstate.GenParm gt fuel s f (depth + 1) false pidx with
                    | none => none
                    | some (vt, f, s) =>
                        let vt := vt.SetBlank false
                        let mkp := mkp.SetBlank false
                        let mp := Parm.mapparm aname qname mkt mkp vt {}
                        let f := { f with
                          mapdefs := f.mapdefs.set ns mp,
                          mapkeytypes := f.mapkeytypes.set ns mkp,
                          mapkeytmps := f.mapkeytmps.set ns mkt }
                        some (mp, f, s)
            else if which < tf.getD PointerTfIdx 0 then
              if toodeep then none
              else
                match genstate.GenParm gt fuel s f (depth + 1) false pidx with
                | none => none
                | some (t, f, s) => some (mkPointerParm t, f, s)
            else if which < tf.getD NumericTfIdx 0 then
              let (tg, s) := s.intFlavor
              let (wbits, s) := s.intBits
              some (Parm.numparm tg wbits mkctl {}, f, s)
            else if which < tf.getD FloatTfIdx 0 then
              let (wbits, s) := s.floatBits
              some (Parm.numparm "float" wbits false {}, f, s)
            else if which < tf.getD ComplexTfIdx 0 then
              let (wbits, s) := s.floatBits
              some (Parm.numparm "complex" (wbits * 2) false {}, f, s)
            else if which < tf.getD ByteTfIdx 0 then
              some (Parm.numparm "byte" 8 false {}, f, s)
            else if which < tf.getD StringTfIdx 0 then
              some (Parm.stringparm {}, f, s)
            else
              some (Parm.numparm "uint" 8 false {}, f, s)
          match core with
          | none => none
          | some (retval, f, s) =>
              let retval := if !mkctl then retval.SetBlank isblank else retval
              let retval := retval.SetAddrTaken addrTaken
              let retval := retval.SetIsGenVal isGenValFunc
              some (retval, f, (if toodeep then s.popTunables else s))
termination_by (fuel, 0)

/-- GenMapKeyType, part_009 lines 441-449: push the tunables, zero the
slice fraction, preclude maps and pointers, generate the key, pop on
exit. -/
def genstate.GenMapKeyType (gt : TunableParams) (fuel : Nat) (s : genstate)
    (f : funcdef) (depth pidx : Nat) : Option (Parm × funcdef × genstate) :=
  let s := s.pushTunables
  let s := { s with tunables := { s.tunables with sliceFraction := 0 } }
  match s.precludeSelectedTypes redisFuel MapTfIdx [PointerTfIdx] with
  | none => none
  | some s =>
      match genstate.GenParm gt fuel s f (depth + 1) false pidx with
      | none => none
      | some (p, f, s) => some (p, f, s.popTunables)
termination_by (fuel, 1)

/-- The struct-field loop of the GenParm struct case (part_009 lines
494-498). -/
def genstate.genParmFields (gt : TunableParams) (fuel : Nat) (s : genstate)
    (f : funcdef) (depth pidx nf : Nat) (acc : List Parm) :
    Option (List Parm × funcdef × genstate) :=
  match nf with
  | 0 => some (acc, f, s)
  | n + 1 =>
      match genstate.GenParm gt fuel s f depth false pidx with
      | none => none
      | some (fp, f, s) =>
          genstate.genParmFields gt fuel s f depth pidx n (acc ++ [fp])
termination_by (fuel, 2 + nf)

end

/-- GenReturn, part_009 lines 615-617. -/
def genstate.GenReturn (gt : TunableParams) (fuel : Nat) (s : genstate)
    (f : funcdef) (depth pidx : Nat) : Option (Parm × funcdef × genstate) :=
  s.GenParm gt fuel f depth false pidx

/-- makeTypedefParm, typedefparm.go (current revision missing; the
older revision draws the blank flag from the global blankPerc, here
through the wrapped stream per the current design). -/
def genstate.makeTypedefParm (gt : TunableParams) (s : genstate)
    (f : funcdef) (target : Parm) (pidx : Nat) :
    Parm × funcdef × genstate :=
  let ns := f.typedefs.length
  let aname := "MyTypeF" ++ toString f.idx ++ "S" ++ toString ns
  let qname := s.checkerPkg pidx ++ "." ++ aname
  let (d, s) := s.Intn 100
  let tdp := (Parm.typedefparm aname qname target {}).SetBlank (d < gt.blankPerc)
  let f := { f with typedefs := f.typedefs ++ [tdp] }
  (tdp, f, s)

/-- The parameter loop of GenFunc (part_009 lines 642-652). -/
def genstate.genFuncParamsLoop (gt : TunableParams) (fuel : Nat)
    (s : genstate) (f : funcdef) (pidx n : Nat) (needControl pTaken : Bool) :
    Option (funcdef × genstate × Bool) :=
  match n with
  | 0 => some (f, s, needControl)
  | n + 1 =>
      match s.GenParm gt fuel f 0 needControl pidx with
      | none => none
      | some (newparm, f, s) =>
          let newparm :=
            if !pTaken then newparm.SetAddrTaken notAddrTaken else newparm
          let needControl := if newparm.IsControl then false else needControl
          let (d, s) := s.Intn 100
          let f := { f with
            params := f.params ++ [newparm],
            dodefp := f.dodefp ++ [d] }
          s.genFuncParamsLoop gt fuel f pidx n needControl pTaken

/-- The return loop of GenFunc (part_009 lines 658-664). -/
def genstate.genFuncReturnsLoop (gt : TunableParams) (fuel : Nat)
    (s : genstate) (f : funcdef) (pidx n : Nat) (rTaken : Bool) :
    Option (funcdef × genstate) :=
  match n with
  | 0 => some (f, s)
  | n + 1 =>
      match s.GenReturn gt fuel f 0 pidx with
      | none => none
      | some (r, f, s) =>
          let r := if !rTaken then r.SetAddrTaken notAddrTaken else r
          let f := { f with returns := f.returns ++ [r] }
          s.genFuncReturnsLoop gt fuel f pidx n rTaken

/-- GenFunc, part_009 lines 619-672. -/
def genstate.GenFunc (gt : TunableParams) (fuel : Nat) (s : genstate)
    (fidx pidx : Nat) : Option (funcdef × genstate) :=
  let f : funcdef := { idx := fidx }
  let (numParams, s) := s.Intn (1 + s.tunables.nParmRange)
  let (numReturns, s) := s.Intn (1 + s.tunables.nReturnRange)
  let (d1, s) := s.Intn 100
  let f := { f with recur := d1 < s.tunables.recurPerc }
  let (d2, s) := s.Intn 100
  let f := { f with method := d2 < s.tunables.methodPerc }
  let step : Option (funcdef × genstate) :=
    if f.method then
      let s := s.pushTunables
      match s.precludeSelectedTypes redisFuel PointerTfIdx [] with
      | none => none
      | some s =>
          match s.GenParm gt fuel f 0 false pidx with
          | none => none
          | some (target, f, s) =>
              let target := target.SetBlank false
              let s := s.popTunables
              let (rcvr, f, s) := s.makeTypedefParm gt f target pidx
              let f := { f with receiver := some rcvr }
              let f := if rcvr.IsBlank then { f with recur := false } else f
              some (f, s)
    else some (f, s)
  match step with
  | none => none
  | some (f, s) =>
      let needControl := f.recur
      let (dc, s) := s.Intn 100
      let f := { f with dodefc := dc }
      let (dp, s) := s.Intn 100
      let pTaken := dp < s.tunables.takenFraction
      match s.genFuncParamsLoop gt fuel f pidx numParams needControl pTaken with
      | none => none
      | some (f, s, needControl) =>
          let f := if f.recur && needControl then { f with recur := false } else f
          let (dr, s) := s.Intn 100
          let rTaken := dr < s.tunables.takenFraction
          match s.genFuncReturnsLoop gt fuel f pidx numReturns rTaken with
          | none => none
          | some (f, s) =>
              let (spw, s) := s.Intn 11
              let rstack := 2 ^ spw
              let rstack := if rstack < 4 then 4 else rstack
              some ({ f with rstack := rstack }, s)

/-- GenPair, part_009 lines 1667-1701: check the global tunables,
generate the descriptor from a fresh stream, emit the caller from a
fresh stream with the same seed, emit the checker likewise, and compare
the two streams.  `G seed` is the raw draw sequence of the seed.  The
result carries the emitted texts (empty when emission is suppressed),
the final state, the next seed, and whether the wraprand consistency
check passed (Go panics when it does not). -/
def genstate.GenPair (gt : TunableParams) (σ : List Parm → List Parm)
    (fuel : Nat) (G : Int → Nat → Nat) (s : genstate) (fidx pidx : Nat)
    (seed : Int) (emit : Bool) :
    Option (List String × List String × genstate × Int × Bool) :=
  if !checkTunablesOK gt then none
  else
    let s := { s with tunables := gt }
    let s := { s with wr := NewWrapRand (G seed) }
    match s.GenFunc gt fuel fidx pidx with
    | none => none
    | some (fp, s) =>
        let s := { s with wr := NewWrapRand (G seed) }
        let (fp, bcaller, s) := s.emitCaller fp pidx []
        let wrcaller := s.wr
        let s := { s with wr := NewWrapRand (G seed) }
        let (bchecker, s) := s.emitChecker σ fuel fp pidx emit []
        let wrchecker := s.wr
        let checkOK := wrchecker.CheckOK wrcaller
        some ((if emit then bcaller else []), (if emit then bchecker else []),
          s, seed + 1, checkOK)

/-- emitFP, part_009 lines 1831-1849: should the (fn, pk) pair be
emitted under the given masks (an empty mask selects everything). -/
def emitFP (fn pk : Int) (fcnmask pkmask : List Int) : Bool :=
  let emitpk := if pkmask.length != 0 then pkmask.contains pk else true
  let emitfn := if fcnmask.length != 0 then fcnmask.contains fn else true
  emitpk && emitfn

/-- The import-emission fold of openOutputFile (part_009 lines
1710-1723). -/
def openImportsLoop (ipref : String) (imports : List String)
    (b : List String) (sawlinkhack : Bool) : List String × Bool :=
  match imports with
  | [] => (b, sawlinkhack)
  | imp :: rest =>
      if imp == "reflect" then
        openImportsLoop ipref rest (b ++ ["import \"reflect\"\n"]) sawlinkhack
      else if imp == "unsafe" then
        openImportsLoop ipref rest (b ++ ["import _ \"unsafe\"\n"]) true
      else
        openImportsLoop ipref rest
          (b ++ ["import \"" ++ ipref ++ imp ++ "\"\n"]) sawlinkhack

/-- openOutputFile, part_009 lines 1703-1730: the header text of one
generated file (the file-system side is not modelled). -/
def genstate.openOutputFile (s : genstate) (pk : String)
    (imports : List String) (ipref : String) : List String :=
  let b := ["package " ++ pk ++ "\n\n"]
  let (b, sawlinkhack) := openImportsLoop ipref imports b false
  let b := b ++ ["\n"]
  if s.sforce && sawlinkhack then
    b ++ ["// Hack: reach into runtime to grab this testing hook.\n",
      "//go:linkname hackStack runtime.gcTestMoveStackOnNextCall\n",
      "func hackStack()\n\n"]
  else b

/-- emitUtils, part_009 lines 1732-1778: the fixed utils package text,
parameterised by maxfail. -/
def emitUtils (maxfail : Nat) : List String :=
  let countfail :=
    "\n  if isret \x7b\n    if ParamFailCount != 0 \x7b\n      return\n    \x7d\n    ReturnFailCount++\n  \x7d else \x7b\n    ParamFailCount++\n  \x7d\n"
  let earlyexit :=
    "\n  if (ParamFailCount + FailCount + ReturnFailCount > " ++
    toString maxfail ++ ") \x7b\n    os.Exit(1)\n  \x7d\n"
  ["import \"fmt\"\n",
   "import \"os\"\n\n",
   "var ParamFailCount int\n\n",
   "var ReturnFailCount int\n\n",
   "var FailCount int\n\n",
   "var Mode string\n\n",
   "type UtilsType int\n\n",
   "//go:noinline\n",
   "func NoteFailure(cm int, pidx int, fidx int, pkg string, pref string, parmNo int, isret bool,_ uint64) \x7b",
   countfail,
   "  fmt.Fprintf(os.Stderr, ",
   "\"Error: fail %s |%d|%d|%d| =%s.Test%d= %s %d\\n\", Mode, cm, pidx, fidx, pkg, fidx, pref, parmNo)\n",
   earlyexit,
   "\x7d\n\n",
   "//go:noinline\n",
   "func NoteFailureElem(cm int, pidx int, fidx int, pkg string, pref string, parmNo int, elem int, isret bool, _ uint64) \x7b\n",
   countfail,
   "  fmt.Fprintf(os.Stderr, ",
   "\"Error: fail %s |%d|%d|%d| =%s.Test%d= %s %d elem %d\\n\", Mode, cm, pidx, fidx, pkg, fidx, pref, parmNo, elem)\n",
   earlyexit,
   "\x7d\n\n",
   "func BeginFcn() \x7b\n",
   "  ParamFailCount = 0\n",
   "  ReturnFailCount = 0\n",
   "\x7d\n\n",
   "func EndFcn() \x7b\n",
   "  FailCount += ParamFailCount\n",
   "  FailCount += ReturnFailCount\n",
   "\x7d\n\n"]

/-- The inner function loop of emitMain (part_009 lines 1787-1794). -/
def genstate.emitMainFns (s : genstate) (cp : String) (k i numit : Nat)
    (fcnmask pkmask : List Int) (b : List String) : List String :=
  if i ≥ numit then b
  else
    let b :=
      if emitFP (Int.ofNat i) (Int.ofNat k) fcnmask pkmask then
        let b := b ++ ["  " ++ cp ++ ".Caller" ++ toString i ++ "(\"normal\")\n"]
        if s.tunables.doReflectCall then
          b ++ ["  " ++ cp ++ ".Caller" ++ toString i ++ "(\"reflect\")\n"]
        else b
      else b
    s.emitMainFns cp k (i + 1) numit fcnmask pkmask b
termination_by numit - i

/-- The package loop of emitMain (part_009 lines 1785-1795). -/
def genstate.emitMainPkgs (s : genstate) (k numit : Nat)
    (fcnmask pkmask : List Int) (b : List String) : List String :=
  if k ≥ s.numtpk then b
  else
    let cp := s.tag ++ "Caller" ++ toString k
    let b := s.emitMainFns cp k 0 numit fcnmask pkmask b
    s.emitMainPkgs (k + 1) numit fcnmask pkmask b
termination_by s.numtpk - k

/-- emitMain, part_009 lines 1780-1802. -/
def genstate.emitMain (s : genstate) (numit : Nat)
    (fcnmask pkmask : List Int) : List String :=
  let b := ["import \"fmt\"\n",
    "import \"os\"\n\n",
    "func main() \x7b\n",
    "  fmt.Fprintf(os.Stderr, \"starting main\\n\")\n"]
  let b := s.emitMainPkgs 0 numit fcnmask pkmask b
  let b := b ++ ["  if " ++ s.utilsPkg ++ ".FailCount != 0 \x7b\n"]
  let b := b ++ ["    fmt.Fprintf(os.Stderr, \"FAILURES: %d\\n\", " ++
    s.utilsPkg ++ ".FailCount)\n"]
  let b := b ++ ["    os.Exit(2)\n"]
  let b := b ++ ["  \x7d\n"]
  let b := b ++ ["  fmt.Fprintf(os.Stderr, \"finished " ++
    toString (numit * s.numtpk) ++ " tests\\n\")\n"]
  b ++ ["\x7d\n"]

/-- The per-function loop inside one package of Generate (part_009
lines 1923-1927): each GenPair advances the seed by one; suppressed
pairs contribute no text. -/
def genstate.genPairLoop (gt : TunableParams) (σ : List Parm → List Parm)
    (fuel : Nat) (G : Int → Nat → Nat) (s : genstate) (k i numit : Nat)
    (seed : Int) (fcnmask pkmask : List Int) (bc bk : List String) :
    Option (List String × List String × genstate × Int) :=
  if i ≥ numit then some (bc, bk, s, seed)
  else
    let doemit := emitFP (Int.ofNat i) (Int.ofNat k) fcnmask pkmask
    match s.GenPair gt σ fuel G i k seed doemit with
    | none => none
    | some (c1, c2, s, seed, _checkOK) =>
        s.genPairLoop gt σ fuel G k (i + 1) numit seed fcnmask pkmask
          (bc ++ c1) (bk ++ c2)
termination_by numit - i

/-- Output of Generate: the text of every emitted file. -/
structure GenOutput where
  callerFiles : List (List String)
  checkerFiles : List (List String)
  utilsFile : List String
  mainFile : List String
  gomodFile : List String
  errs : Nat

/-- The per-package loop of Generate (part_009 lines 1894-1935):
open the two files (when the package is unmasked), reset the per-package
registry state (the newAllocFuncs / newGenvalFuncs slices are NOT reset
here, exactly as in the source; the flush after each function already
cleared them), run every pair, append the dummy utils reference. -/
def genstate.genPackagesLoop (gt : TunableParams) (σ : List Parm → List Parm)
    (fuel : Nat) (G : Int → Nat → Nat) (s : genstate) (k numtpkgs numit : Nat)
    (seed : Int) (fcnmask pkmask : List Int)
    (accC accK : List (List String)) :
    Option (List (List String) × List (List String) × genstate × Int) :=
  if k ≥ numtpkgs then some (accC, accK, s, seed)
  else
    let callerImports := [s.checkerPkg k, s.utilsPkg] ++
      (if gt.doReflectCall then ["reflect"] else []) ++
      (if s.sforce then ["unsafe"] else [])
    let checkerImports := [s.utilsPkg] ++ (if s.sforce then ["unsafe"] else [])
    let pkEmit := emitFP (-1) (Int.ofNat k) [] pkmask
    let headerC := if pkEmit then
        s.openOutputFile (s.callerPkg k) callerImports s.ipref else []
    let headerK := if pkEmit then
        s.openOutputFile (s.checkerPkg k) checkerImports s.ipref else []
    let s := { s with
      pkidx := k,
      newDerefFuncs := [], newAssignFuncs := [], newGlobVars := [],
      derefFuncs := [], assignFuncs := [], allocFuncs := [],
      globVars := [], genvalFuncs := [] }
    match s.genPairLoop gt σ fuel G k 0 numit seed fcnmask pkmask [] [] with
    | none => none
    | some (bc, bk, s, seed) =>
        let dummy := "\n// dummy\nvar Dummy " ++ s.utilsPkg ++ ".UtilsType\n"
        let fileC := if pkEmit then headerC ++ bc ++ [dummy] else []
        let fileK := if pkEmit then headerK ++ bk ++ [dummy] else []
        let accC := if pkEmit then accC ++ [fileC] else accC
        let accK := if pkEmit then accK ++ [fileK] else accK
        s.genPackagesLoop gt σ fuel G (k + 1) numtpkgs numit seed fcnmask
          pkmask accC accK
termination_by numtpkgs - k

/-- The mainimports fold of Generate (part_009 lines 1874-1883). -/
def genstate.mainImportsLoop (s : genstate) (i numtpkgs : Nat)
    (pkmask : List Int) (acc : List String) : List String :=
  if i ≥ numtpkgs then acc
  else
    let acc := if emitFP (-1) (Int.ofNat i) [] pkmask then
        acc ++ [s.callerPkg i] else acc
    s.mainImportsLoop (i + 1) numtpkgs pkmask acc
termination_by numtpkgs - i

/-- Generate, part_009 lines 1851-1951.  `gt` is the package-level
tunables variable; `σ` the Go map iteration order used inside
containedParms; `G seed` the raw draw stream of a seed; `fuel` bounds
the GenParm recursion.  Directory creation and file IO are not
modelled; the returned structure holds each emitted file text.  The
`utilsinl` argument is unused, as in the source. -/
def Generate (gt : TunableParams) (σ : List Parm → List Parm) (fuel : Nat)
    (G : Int → Nat → Nat) (tag _outdir pkgpath : String)
    (numit numtpkgs : Nat) (seed : Int) (pragma : String)
    (fcnmask pkmask : List Int) (_utilsinl : Bool) (maxfail : Nat)
    (forcestackgrowth : Bool) : Option GenOutput :=
  let ipref := if pkgpath.length > 0 then pkgpath ++ "/" else ""
  let s : genstate := { ipref := ipref
                        tag := tag
                        numtpk := numtpkgs
                        pragma := pragma
                        sforce := forcestackgrowth }
  let mainimports := s.mainImportsLoop 0 numtpkgs pkmask [] ++ [s.utilsPkg]
  let utilsFile := s.openOutputFile s.utilsPkg [] "" ++ emitUtils maxfail
  let mainHeader := s.openOutputFile "main" mainimports ipref
  match s.genPackagesLoop gt σ fuel G 0 numtpkgs numit seed fcnmask pkmask
    [] [] with
  | none => none
  | some (accC, accK, s, _seed) =>
      let mainFile := mainHeader ++ s.emitMain numit fcnmask pkmask
      some { callerFiles := accC
             checkerFiles := accK
             utilsFile := utilsFile
             mainFile := mainFile
             gomodFile := ["module " ++ pkgpath ++ "\n\ngo 1.15\n"]
             errs := s.errs }

namespace ArrayparmFile

/-- arrayparm as defined in src/generator/arrayparm.go (the revision
present in the snapshot): the blank flag is a plain field, and every
method of the type — including SetBlank — takes the receiver BY VALUE.
The element type is represented by the Parm tree). -/
structure arrayparm where
  aname : String
  qname : String
  nelements : Nat
  eltype : Parm
  blank : Bool

/-- IsBlank, arrayparm.go lines 22-24. -/
def arrayparm.IsBlank (p : arrayparm) : Bool := p.blank

/-- The BODY of SetBlank, arrayparm.go lines 26-28: `p.blank = v` where
`p` is the receiver.  Because the receiver is a value, the body acts on
a copy; the final state of that copy is returned here only to make the
call semantics below explicit (the Go function returns nothing). -/
def arrayparm.SetBlank (p : arrayparm) (v : Bool) : arrayparm :=
  { p with blank := v }

/-- Go call semantics of `a.SetBlank(v)` for the value-receiver method:
the receiver is copied at the call, the body mutates the copy, the copy
is discarded, and the state of `a` after the statement is `a` itself.
The same holds when the call goes through a pointer stored in a `parm`
interface value: the promoted method of *arrayparm dereferences and
copies the pointee before running the value-receiver body. -/
def setBlankCall (a : arrayparm) (v : Bool) : arrayparm :=
  let receiverCopy := a
  let _ := arrayparm.SetBlank receiverCopy v
  a

/-- The blank-flag data flow of the GenParm array case: the arrayparm
starts from the Go zero value (blank = false), and the final
`retval.SetBlank(isblank)` of GenParm (part_009 lines 607-612) is a
value-receiver call on the array, modelled by setBlankCall. -/
def genParmArrayBlank (aname qname : String) (nel : Nat) (el : Parm)
    (isblank : Bool) : arrayparm :=
  let ap : arrayparm :=
    { aname := aname
      qname := qname
      nelements := nel
      eltype := el
      blank := false }
  setBlankCall ap isblank

end ArrayparmFile

/-- The tunables-stack trace of a map-key generation that hits the
depth limit, exactly the push/mutate/pop sequence of GenMapKeyType
(part_009 lines 441-449) enclosing a too-deep GenParm prologue
(part_009 lines 453-459): outer push + preclude(map, pointer), inner
push + preclude(struct, array, map, pointer), inner pop, outer pop.
Returns (the outer scoped tunables, the tunables after the inner pop,
the tunables after the outer pop). -/
def tstackTrace : Option (TunableParams × TunableParams × TunableParams) :=
  let s0 : genstate := { tunables := defaultTunables }
  let s1 := s0.pushTunables
  let s1 := { s1 with tunables := { s1.tunables with sliceFraction := 0 } }
  match s1.precludeSelectedTypes redisFuel MapTfIdx [PointerTfIdx] with
  | none => none
  | some s2 =>
      match (s2.pushTunables).precludeSelectedTypes redisFuel StructTfIdx
        [ArrayTfIdx, MapTfIdx, PointerTfIdx] with
      | none => none
      | some s3 =>
          let s4 := s3.popTunables
          let s5 := s4.popTunables
          some (s2.tunables, s4.tunables, s5.tunables)

/-- The tunables state with every weight on the struct bucket; a legal
configuration (all checkTunables sums hold). -/
def allStructTunables : TunableParams :=
  { defaultTunables with typeFractions := [100, 0, 0, 0, 0, 0, 0, 0, 0] }

/-! ## Proof scaffolding: draw traces, value advances, leaf lists.
These definitions are not part of the embedding; they are closed forms
used to state and prove the twin-emitter synchronization lemmas. -/

mutual

/-- No typedef node anywhere in the tree.  GenParm never produces
typedefs (there is no typedef bucket), so all its outputs satisfy
this. -/
def noTd : Parm → Bool
  | .numparm _ _ _ _ => true
  | .stringparm _ => true
  | .pointerparm tp _ => noTd tp
  | .arrayparm _ _ _ _ el _ => noTd el
  | .structparm _ _ fs _ => noTdList fs
  | .mapparm _ _ _ kt vt _ => noTd kt && noTd vt
  | .typedefparm _ _ _ _ => false

/-- noTd over a field list. -/
def noTdList : List Parm → Bool
  | [] => true
  | p :: ps => noTd p && noTdList ps

end

/-- Typedef sanity: every typedef node wraps a non-typedef target.
Receivers are single typedefs over GenParm output, so they satisfy
this; it is what the element-walk lemmas need. -/
def tdOK : Parm → Bool
  | .typedefparm _ _ t _ => noTd t
  | p => noTd p

/-- The draw trace of numparm.genRandNum: the same draws in the same
order, branching on the drawn selector exactly as the source does. -/
def drawNum (tag : String) (w : Nat) (wr : wraprand) : wraprand :=
  let (which, wr) := wr.Intn 100
  if tag == "int" then
    if which < 3 then wr
    else if which < 5 then wr
    else (wr.Intn (2 ^ (w - 2))).2
  else if tag == "uint" || tag == "byte" then (wr.Intn (2 ^ (w - 2))).2
  else if tag == "float" then
    if w == 32 then wr.Float32.2
    else if w == 64 then wr.NormFloat64.2
    else wr
  else if tag == "complex" then
    if w == 64 then
      let wr := (wr.Intn 100).2
      let wr := wr.Float32.2
      let wr := (wr.Intn 100).2
      wr.Float32.2
    else if w == 128 then
      let wr := (wr.Intn 100).2
      let wr := wr.NormFloat64.2
      let wr := (wr.Intn 100).2
      wr.NormFloat64.2
    else wr
  else wr

mutual

/-- The PRNG effect of one full GenValue walk of a parm. -/
def drawTrace (p : Parm) (wr : wraprand) : wraprand :=
  match p with
  | .numparm tag w _ _ => drawNum tag w wr
  | .stringparm _ => ((wr.Intn 8).2.Intn stringparmNS).2
  | .pointerparm tp _ => drawTrace tp wr
  | .arrayparm _ _ nel _ el _ => drawRepeat nel el wr
  | .structparm _ _ fs _ => drawList fs wr
  | .mapparm _ _ _ _ vt _ => drawTrace vt wr
  | .typedefparm _ _ t _ => drawTrace t wr
termination_by (sizeOf p, 0)

/-- Sequential draw trace over a parm list. -/
def drawList (ps : List Parm) (wr : wraprand) : wraprand :=
  match ps with
  | [] => wr
  | p :: rest => drawList rest (drawTrace p wr)
termination_by (sizeOf ps, 0)

/-- n-fold draw trace of one element type. -/
def drawRepeat (n : Nat) (el : Parm) (wr : wraprand) : wraprand :=
  match n with
  | 0 => wr
  | m + 1 => drawRepeat m el (drawTrace el wr)
termination_by (sizeOf el + 1, n)

end

/-- Value-counter advance of numparm.genRandNum. -/
def vadvNum (tag : String) (w : Nat) : Nat :=
  if tag == "int" then 1
  else if tag == "uint" || tag == "byte" then 1
  else if tag == "float" then (if w == 32 then 1 else if w == 64 then 1 else 0)
  else if tag == "complex" then
    (if w == 64 then 2 else if w == 128 then 2 else 0)
  else 0

mutual

/-- Value-counter advance of one full GenValue walk. -/
def vadv : Parm → Nat
  | .numparm tag w _ _ => vadvNum tag w
  | .stringparm _ => 1
  | .pointerparm tp _ => vadv tp
  | .arrayparm _ _ nel _ el _ => nel * vadv el
  | .structparm _ _ fs _ => vadvList fs
  | .mapparm _ _ _ _ vt _ => vadv vt
  | .typedefparm _ _ t _ => vadv t

/-- Summed value advance over a field list. -/
def vadvList : List Parm → Nat
  | [] => 0
  | p :: ps => vadv p + vadvList ps

end

mutual

/-- The leaf types visited by the GenElemRef element walk, in index
order.  The walk stops at any component with exactly one element (the
fne == 1 cut of structparm.GenElemRef and the ene == 1 cut of
arrayparm.GenElemRef); scalars, strings, pointers and maps are their
own single leaf; typedefs delegate for array/struct targets and
otherwise stand for each target leaf themselves. -/
def elemLeaves (p : Parm) : List Parm :=
  match p with
  | .numparm _ _ _ _ => [p]
  | .stringparm _ => [p]
  | .pointerparm _ _ => [p]
  | .mapparm _ _ _ _ _ _ => [p]
  | .arrayparm _ _ nel _ el _ => elemLeavesRep nel el
  | .structparm _ _ fs _ => elemLeavesFields fs
  | .typedefparm _ _ (.arrayparm a q n sl el f2) _ =>
      elemLeaves (.arrayparm a q n sl el f2)
  | .typedefparm _ _ (.structparm a q fs f2) _ =>
      elemLeaves (.structparm a q fs f2)
  | .typedefparm _ _ t _ => List.replicate t.NumElements p
termination_by (sizeOf p, 1)

/-- One-element cut: a component with exactly one element is itself the
leaf; otherwise its own leaf list. -/
def elemLeavesCut (q : Parm) : List Parm :=
  if q.NumElements == 1 then [q] else elemLeaves q
termination_by (sizeOf q, 2)

/-- Leaves of an array: the element cut repeated per slot. -/
def elemLeavesRep (n : Nat) (el : Parm) : List Parm :=
  match n with
  | 0 => []
  | m + 1 => elemLeavesCut el ++ elemLeavesRep m el
termination_by (sizeOf el + 1, n)

/-- Leaves of a struct field list: the per-field cuts concatenated. -/
def elemLeavesFields : List Parm → List Parm
  | [] => []
  | f :: fs => elemLeavesCut f ++ elemLeavesFields fs
termination_by fs => (sizeOf fs, 3)

end

/-- Draw trace of the map-key-temporary loop: one GenValue per key
type, walking the two lists in lockstep (the loop body stops when
either list runs out). -/
def mkeysDraws (ts : List Parm) (tmps : List String) (wr : wraprand) :
    wraprand :=
  match ts, tmps with
  | t :: tr, _ :: nr => mkeysDraws tr nr (drawTrace t wr)
  | _, _ => wr

/-- Value advance of the map-key-temporary loop. -/
def mkeysVadv (ts : List Parm) (tmps : List String) : Nat :=
  match ts, tmps with
  | t :: tr, _ :: nr => vadv t + mkeysVadv tr nr
  | _, _ => 0

/-- Draw trace of one emitVarAssign: the 50/50 selector draw followed
by the value draws (for a map both branches consume exactly the map
value type walk). -/
def vaDraws (r : Parm) (wr : wraprand) : wraprand :=
  drawTrace r (wr.Intn 100).2

/-- Draw trace of the return-constant section: one emitVarAssign per
return. -/
def returnsDraws (rs : List Parm) (wr : wraprand) : wraprand :=
  match rs with
  | [] => wr
  | r :: rest => returnsDraws rest (vaDraws r wr)

/-- Draw trace of the parameter section: per parameter the balance
draw, then (control parameters apart) the full value walk. -/
def paramsDraws (ps : List Parm) (wr : wraprand) : wraprand :=
  match ps with
  | [] => wr
  | p :: rest =>
      let wr := (wr.Intn 100).2
      let wr := if p.IsControl then wr else drawTrace p wr
      paramsDraws rest wr

/-- The common draw trace of both emitters over one funcdef: map key
temporaries, return constants, parameters, then the receiver. -/
def pairDraws (f : funcdef) (wr : wraprand) : wraprand :=
  let wr := if f.mapkeyts == "" then wr
            else mkeysDraws f.mapkeytypes f.mapkeytmps wr
  let wr := returnsDraws f.returns wr
  let wr := paramsDraws f.params wr
  if f.method then
    match f.receiver with
    | some r => drawTrace r wr
    | none => wr
  else wr

/-- The per-parameter checkpoint sequence: after each parameter the
running value counter (control parameters advance nothing, all others
advance by their full value walk). -/
def valSeq (ps : List Parm) (v : Nat) : List Nat :=
  match ps with
  | [] => []
  | p :: rest =>
      let v := if p.IsControl then v else v + vadv p
      v :: valSeq rest v

/-- The value counter at the start of the parameter section: 1 plus
the map-key and return-constant advances. -/
def valueAtParams (f : funcdef) : Nat :=
  let v := 1
  let v := if f.mapkeyts == "" then v
           else v + mkeysVadv f.mapkeytypes f.mapkeytmps
  v + vadvList f.returns

/-- The value counter after walking a parameter list (control
parameters advance nothing). -/
def valEnd (ps : List Parm) (v : Nat) : Nat :=
  match ps with
  | [] => v
  | p :: rest => valEnd rest (if p.IsControl then v else v + vadv p)

/-- The checkpoint the caller appends for the receiver, if any. -/
def rcvrVals (f : funcdef) (vend : Nat) : List Nat :=
  if f.method then
    match f.receiver with
    | some r => [vend + vadv r]
    | none => []
  else []

/-- The key/value view of a new-helper list. -/
def toKV (fds : List funcdesc) : List (String × String) :=
  fds.map (fun fd => (fd.tag, fd.name))

/-- Registry invariant: the live map is the pending helpers (newest
first, since registration conses) on top of the base map, pending tags
are pairwise distinct, and none of them occurs in the base.  This is
exactly what the lookup-guarded registration discipline maintains, and
what makes the not-emitted rollback exact. -/
def regInv (m0 : List (String × String)) (news : List funcdesc)
    (m : List (String × String)) : Prop :=
  m = (toKV news).reverse ++ m0 ∧
  (news.map funcdesc.tag).Nodup ∧
  ∀ fd ∈ news, mlookup m0 fd.tag = none

/-- What every emission step preserves: the error counter and the five
registry invariants. -/
def emitAgree (s s' : genstate) : Prop :=
  s'.errs = s.errs ∧
  (∀ m0, regInv m0 s.newDerefFuncs s.derefFuncs →
    regInv m0 s'.newDerefFuncs s'.derefFuncs) ∧
  (∀ m0, regInv m0 s.newAssignFuncs s.assignFuncs →
    regInv m0 s'.newAssignFuncs s'.assignFuncs) ∧
  (∀ m0, regInv m0 s.newAllocFuncs s.allocFuncs →
    regInv m0 s'.newAllocFuncs s'.allocFuncs) ∧
  (∀ m0, regInv m0 s.newGenvalFuncs s.genvalFuncs →
    regInv m0 s'.newGenvalFuncs s'.genvalFuncs) ∧
  (∀ m0, regInv m0 s.newGlobVars s.globVars →
    regInv m0 s'.newGlobVars s'.globVars)

/-- The registry part of emitAgree: each pending-helper invariant is
preserved.  Unlike emitAgree this makes no statement about errs, so it
also holds across the checker parameter pass, whose checkpoint
comparison may bump the error counter. -/
def regAgree (s s' : genstate) : Prop :=
  (∀ m0, regInv m0 s.newDerefFuncs s.derefFuncs →
    regInv m0 s'.newDerefFuncs s'.derefFuncs) ∧
  (∀ m0, regInv m0 s.newAssignFuncs s.assignFuncs →
    regInv m0 s'.newAssignFuncs s'.assignFuncs) ∧
  (∀ m0, regInv m0 s.newAllocFuncs s.allocFuncs →
    regInv m0 s'.newAllocFuncs s'.allocFuncs) ∧
  (∀ m0, regInv m0 s.newGenvalFuncs s.genvalFuncs →
    regInv m0 s'.newGenvalFuncs s'.genvalFuncs) ∧
  (∀ m0, regInv m0 s.newGlobVars s.globVars →
    regInv m0 s'.newGlobVars s'.globVars)

/-- Only the registry maps and pending lists moved between two states
(what the helper flush stage touches). -/
def onlyRegs (s s' : genstate) : Prop :=
  s' = { s with
    derefFuncs := s'.derefFuncs
    newDerefFuncs := s'.newDerefFuncs
    assignFuncs := s'.assignFuncs
    newAssignFuncs := s'.newAssignFuncs
    allocFuncs := s'.allocFuncs
    newAllocFuncs := s'.newAllocFuncs
    genvalFuncs := s'.genvalFuncs
    newGenvalFuncs := s'.newGenvalFuncs
    globVars := s'.globVars
    newGlobVars := s'.newGlobVars }

/-- The funcdef fields GenParm never writes. -/
def fdefFrame (f f' : funcdef) : Prop :=
  f'.idx = f.idx ∧ f'.receiver = f.receiver ∧ f'.params = f.params ∧
  f'.returns = f.returns ∧ f'.values = f.values ∧ f'.dodefc = f.dodefc ∧
  f'.dodefp = f.dodefp ∧ f'.rstack = f.rstack ∧ f'.recur = f.recur ∧
  f'.method = f.method

/-- Only the stream moved between two states. -/
def onlyWr (s s' : genstate) : Prop := s' = { s with wr := s'.wr }

/-- The genstate fields GenParm never writes (registries and the error
counter; only the stream, the tunables and the scope stack move). -/
def regsId (s s' : genstate) : Prop :=
  s'.errs = s.errs ∧
  s'.derefFuncs = s.derefFuncs ∧ s'.newDerefFuncs = s.newDerefFuncs ∧
  s'.assignFuncs = s.assignFuncs ∧ s'.newAssignFuncs = s.newAssignFuncs ∧
  s'.allocFuncs = s.allocFuncs ∧ s'.newAllocFuncs = s.newAllocFuncs ∧
  s'.genvalFuncs = s.genvalFuncs ∧ s'.newGenvalFuncs = s.newGenvalFuncs ∧
  s'.globVars = s.globVars ∧ s'.newGlobVars = s.newGlobVars


/-- The generation frame: GenParm and its helpers touch only the
stream, the scoped tunables and the tunables stack. -/
def genFrame (s s' : genstate) : Prop :=
  s' = { s with wr := s'.wr, tunables := s'.tunables, tstack := s'.tstack }


/-- The funcdef frame of type generation: GenParm and its helpers touch
only the type-definition lists and the map-key bookkeeping of the
descriptor. -/
def fdefGenFrame (f f' : funcdef) : Prop :=
  f' = { f with
    structdefs := f'.structdefs
    arraydefs := f'.arraydefs
    mapdefs := f'.mapdefs
    typedefs := f'.typedefs
    mapkeytypes := f'.mapkeytypes
    mapkeytmps := f'.mapkeytmps
    mapkeyts := f'.mapkeyts }

/-- The GenParm postcondition at one fuel level: a successful draw
yields a typedef-free parm, touches only stream/tunables/tstack, and
only the type-definition side of the descriptor. -/
def GenParmOK (gt : TunableParams) (fuel : Nat) : Prop :=
  ∀ (s : genstate) (f : funcdef) (depth : Nat) (mkctl : Bool) (pidx : Nat)
    (p : Parm) (f' : funcdef) (s' : genstate),
    genstate.GenParm gt fuel s f depth mkctl pidx = some (p, f', s') →
    noTd p = true ∧ genFrame s s' ∧ fdefGenFrame f f' 

/-! # Theorems -/

/-! ## Stream-projection simp lemmas -/

@[simp] theorem genstate_Intn_fst (s : genstate) (n : Nat) :
    (s.Intn n).1 = (s.wr.Intn n).1 := rfl

@[simp] theorem genstate_Intn_wr (s : genstate) (n : Nat) :
    (s.Intn n).2.wr = (s.wr.Intn n).2 := rfl

@[simp] theorem genstate_Float32_wr (s : genstate) :
    s.Float32.2.wr = s.wr.Float32.2 := rfl

@[simp] theorem genstate_NormFloat64_wr (s : genstate) :
    s.NormFloat64.2.wr = s.wr.NormFloat64.2 := rfl

theorem genstate_Intn_eta (s : genstate) (n : Nat) :
    (s.Intn n).2 = { s with wr := (s.wr.Intn n).2 } := rfl

theorem genstate_Intn_eq (s : genstate) (n : Nat) :
    s.Intn n = (s.wr.g s.wr.pos % n,
      { s with wr := { s.wr with pos := s.wr.pos + 1, intncalls := s.wr.intncalls + 1 } }) := rfl

theorem genstate_Float32_eq (s : genstate) :
    s.Float32 = (s.wr.g s.wr.pos,
      { s with wr := { s.wr with pos := s.wr.pos + 1, f32calls := s.wr.f32calls + 1 } }) := rfl

theorem genstate_NormFloat64_eq (s : genstate) :
    s.NormFloat64 = (s.wr.g s.wr.pos,
      { s with wr := { s.wr with pos := s.wr.pos + 1, f64calls := s.wr.f64calls + 1 } }) := rfl

theorem wraprand_Intn_eq (w : wraprand) (n : Nat) :
    w.Intn n = (w.g w.pos % n,
      { w with pos := w.pos + 1, intncalls := w.intncalls + 1 }) := rfl

theorem wraprand_Float32_eq (w : wraprand) :
    w.Float32 = (w.g w.pos,
      { w with pos := w.pos + 1, f32calls := w.f32calls + 1 }) := rfl

theorem wraprand_NormFloat64_eq (w : wraprand) :
    w.NormFloat64 = (w.g w.pos,
      { w with pos := w.pos + 1, f64calls := w.f64calls + 1 }) := rfl

theorem genstate_Float32_eta (s : genstate) :
    s.Float32.2 = { s with wr := s.wr.Float32.2 } := rfl

theorem genstate_NormFloat64_eta (s : genstate) :
    s.NormFloat64.2 = { s with wr := s.wr.NormFloat64.2 } := rfl

/-! ## Registry invariant lemmas -/

theorem regInv_refl (m : List (String × String)) : regInv m [] m := by
  refine ⟨rfl, List.nodup_nil, ?_⟩
  intro fd h
  exact absurd h (List.not_mem_nil fd)

theorem mlookup_eq_none (m : List (String × String)) (k : String) :
    mlookup m k = none ↔ ∀ e ∈ m, ¬(e.1 == k) := by
  unfold mlookup
  constructor
  · intro h
    cases hf : m.find? (fun e => e.1 == k) with
    | none =>
        intro e he
        have := List.find?_eq_none.mp hf e he
        simpa using this
    | some e => simp [hf] at h
  · intro h
    have : m.find? (fun e => e.1 == k) = none := by
      apply List.find?_eq_none.mpr
      intro e he
      simpa using h e he
    simp [this]

theorem regInv_register (m0 : List (String × String)) (news : List funcdesc)
    (m : List (String × String)) (fd : funcdesc)
    (hinv : regInv m0 news m) (hfresh : mlookup m fd.tag = none) :
    regInv m0 (news ++ [fd]) (minsert m fd.tag fd.name) := by
  obtain ⟨hm, hnd, hbase⟩ := hinv
  have hnotin : ∀ e ∈ m, ¬(e.1 == fd.tag) := (mlookup_eq_none m fd.tag).mp hfresh
  have hfind : (m.find? (fun e => e.1 == fd.tag)).isSome = false := by
    cases hf : m.find? (fun e => e.1 == fd.tag) with
    | none => rfl
    | some e =>
        have hmem := List.mem_of_find?_eq_some hf
        have hp := List.find?_some hf
        exact absurd hp (by simpa using hnotin e hmem)
  have hmins : minsert m fd.tag fd.name = (fd.tag, fd.name) :: m := by
    unfold minsert
    simp [hfind]
  refine ⟨?_, ?_, ?_⟩
  · rw [hmins, hm]
    simp [toKV]
  · rw [List.map_append, List.nodup_append]
    refine ⟨hnd, by simp, ?_⟩
    intro t ht ht2
    simp only [List.map_cons, List.map_nil, List.mem_singleton] at ht2
    subst ht2
    obtain ⟨fd2, hfd2, htag⟩ := List.mem_map.mp ht
    have : (fd2.tag, fd2.name) ∈ m := by
      rw [hm]
      apply List.mem_append_left
      apply List.mem_reverse.mpr
      exact List.mem_map.mpr ⟨fd2, hfd2, rfl⟩
    have := hnotin _ this
    simp [htag] at this
  · intro fd2 hfd2
    rcases List.mem_append.mp hfd2 with h | h
    · exact hbase fd2 h
    · simp only [List.mem_singleton] at h
      subst h
      rw [mlookup_eq_none]
      intro e he
      apply hnotin e
      rw [hm]
      exact List.mem_append_right _ he

theorem regInv_delete_head (m0 : List (String × String)) (fd : funcdesc)
    (rest : List funcdesc) (m : List (String × String))
    (hinv : regInv m0 (fd :: rest) m) :
    regInv m0 rest (mdelete m fd.tag) := by
  obtain ⟨hm, hnd, hbase⟩ := hinv
  have hnd' := hnd
  rw [List.map_cons, List.nodup_cons] at hnd'
  obtain ⟨hhead, htail⟩ := hnd'
  refine ⟨?_, htail, fun fd2 h => hbase fd2 (List.mem_cons_of_mem fd h)⟩
  rw [hm]
  unfold mdelete
  rw [List.filter_append]
  have h1 : (toKV (fd :: rest)).reverse.filter (fun e => e.1 != fd.tag) =
      (toKV rest).reverse := by
    simp only [toKV, List.map_cons]
    rw [List.filter_reverse]
    congr 1
    rw [List.filter_cons]
    have : ((fd.tag, fd.name).1 != fd.tag) = false := by simp
    rw [this]
    simp only [Bool.false_eq_true, if_false]
    apply List.filter_eq_self.mpr
    intro e he
    obtain ⟨fd2, hfd2, he2⟩ := List.mem_map.mp he
    subst he2
    simp only [bne_iff_ne, ne_eq]
    intro hEq
    apply hhead
    rw [← hEq]
    exact List.mem_map.mpr ⟨fd2, hfd2, rfl⟩
  have h2 : m0.filter (fun e => e.1 != fd.tag) = m0 := by
    apply List.filter_eq_self.mpr
    intro e he
    have := (mlookup_eq_none m0 fd.tag).mp
      (hbase fd (List.mem_cons_self fd rest)) e he
    simpa using this
  rw [h1, h2]

theorem emitAgree_refl (s : genstate) : emitAgree s s :=
  ⟨rfl, fun _ h => h, fun _ h => h, fun _ h => h, fun _ h => h, fun _ h => h⟩

theorem emitAgree_trans {s1 s2 s3 : genstate}
    (h12 : emitAgree s1 s2) (h23 : emitAgree s2 s3) : emitAgree s1 s3 := by
  obtain ⟨e12, d12, a12, l12, g12, v12⟩ := h12
  obtain ⟨e23, d23, a23, l23, g23, v23⟩ := h23
  exact ⟨e23.trans e12, fun m h => d23 m (d12 m h), fun m h => a23 m (a12 m h),
    fun m h => l23 m (l12 m h), fun m h => g23 m (g12 m h),
    fun m h => v23 m (v12 m h)⟩

theorem emitAgree_wr (s : genstate) (w : wraprand) :
    emitAgree s { s with wr := w } := emitAgree_refl s

theorem onlyWr_refl (s : genstate) : onlyWr s s := rfl

theorem onlyWr_set (s : genstate) (w : wraprand) :
    onlyWr s { s with wr := w } := rfl

theorem onlyWr_trans {s1 s2 s3 : genstate}
    (h12 : onlyWr s1 s2) (h23 : onlyWr s2 s3) : onlyWr s1 s3 := by
  unfold onlyWr at *
  rw [h23, h12]

theorem onlyWr_emitAgree {s s' : genstate} (h : onlyWr s s') :
    emitAgree s s' := by
  unfold onlyWr at h
  rw [h]
  exact emitAgree_refl s

/-! ## genRandNum characterization -/

theorem genRandFloat_char (s : genstate) (w v : Nat) :
    onlyWr s (s.genRandFloat w v).2.2 ∧
    (s.genRandFloat w v).2.2.wr =
      (if w == 32 then s.wr.Float32.2
       else if w == 64 then s.wr.NormFloat64.2 else s.wr) ∧
    (s.genRandFloat w v).2.1 =
      v + (if w == 32 then 1 else if w == 64 then 1 else 0) := by
  unfold genstate.genRandFloat
  split_ifs <;>
    simp_all [genstate.Float32, genstate.NormFloat64, onlyWr,
      wraprand.Float32, wraprand.NormFloat64]

theorem genRandNum_char (s : genstate) (tag : String) (w v : Nat) :
    onlyWr s (s.genRandNum tag w v).2.2 ∧
    (s.genRandNum tag w v).2.2.wr = drawNum tag w s.wr ∧
    (s.genRandNum tag w v).2.1 = v + vadvNum tag w := by
  unfold genstate.genRandNum drawNum vadvNum
  obtain ⟨which, s1, hI⟩ : ∃ a b, s.Intn 100 = (a, b) := ⟨_, _, rfl⟩
  have hOW1 : onlyWr s s1 := by
    have : s1 = (s.Intn 100).2 := by rw [hI]
    rw [this, genstate_Intn_eta]
    exact onlyWr_set s _
  have hW : s.wr.Intn 100 = (which, s1.wr) := by
    have h1 : (s.wr.Intn 100).1 = which := by
      have : (s.Intn 100).1 = which := by rw [hI]
      simpa using this
    have h2 : (s.wr.Intn 100).2 = s1.wr := by
      have : (s.Intn 100).2 = s1 := by rw [hI]
      rw [← this]
      rfl
    rw [← h1, ← h2]
  simp only [hI, hW]
  split_ifs with hInt h3 h5 hVI hUB hByte hFl h32 h64f hCx hc64 hc128
  · exact ⟨hOW1, rfl, rfl⟩
  · exact ⟨hOW1, rfl, rfl⟩
  · obtain ⟨v2, s2, hI2⟩ : ∃ a b, s1.Intn (2 ^ (w - 2)) = (a, b) := ⟨_, _, rfl⟩
    have hOW2 : onlyWr s1 s2 := by
      have : s2 = (s1.Intn (2 ^ (w - 2))).2 := by rw [hI2]
      rw [this, genstate_Intn_eta]
      exact onlyWr_set s1 _
    have hW2 : s1.wr.Intn (2 ^ (w - 2)) = (v2, s2.wr) := by
      have h1 : (s1.wr.Intn (2 ^ (w - 2))).1 = v2 := by
        have : (s1.Intn (2 ^ (w - 2))).1 = v2 := by rw [hI2]
        simpa using this
      have h2 : (s1.wr.Intn (2 ^ (w - 2))).2 = s2.wr := by
        have : (s1.Intn (2 ^ (w - 2))).2 = s2 := by rw [hI2]
        rw [← this]
        rfl
      rw [← h1, ← h2]
    simp only [hI2, hW2]
    exact ⟨onlyWr_trans hOW1 hOW2, by trivial, by trivial⟩
  · obtain ⟨v2, s2, hI2⟩ : ∃ a b, s1.Intn (2 ^ (w - 2)) = (a, b) := ⟨_, _, rfl⟩
    have hOW2 : onlyWr s1 s2 := by
      have : s2 = (s1.Intn (2 ^ (w - 2))).2 := by rw [hI2]
      rw [this, genstate_Intn_eta]
      exact onlyWr_set s1 _
    have hW2 : s1.wr.Intn (2 ^ (w - 2)) = (v2, s2.wr) := by
      have h1 : (s1.wr.Intn (2 ^ (w - 2))).1 = v2 := by
        have : (s1.Intn (2 ^ (w - 2))).1 = v2 := by rw [hI2]
        simpa using this
      have h2 : (s1.wr.Intn (2 ^ (w - 2))).2 = s2.wr := by
        have : (s1.Intn (2 ^ (w - 2))).2 = s2 := by rw [hI2]
        rw [← this]
        rfl
      rw [← h1, ← h2]
    simp only [hI2, hW2]
    exact ⟨onlyWr_trans hOW1 hOW2, by trivial, by trivial⟩
  · obtain ⟨v2, s2, hI2⟩ : ∃ a b, s1.Intn (2 ^ (w - 2)) = (a, b) := ⟨_, _, rfl⟩
    have hOW2 : onlyWr s1 s2 := by
      have : s2 = (s1.Intn (2 ^ (w - 2))).2 := by rw [hI2]
      rw [this, genstate_Intn_eta]
      exact onlyWr_set s1 _
    have hW2 : s1.wr.Intn (2 ^ (w - 2)) = (v2, s2.wr) := by
      have h1 : (s1.wr.Intn (2 ^ (w - 2))).1 = v2 := by
        have : (s1.Intn (2 ^ (w - 2))).1 = v2 := by rw [hI2]
        simpa using this
      have h2 : (s1.wr.Intn (2 ^ (w - 2))).2 = s2.wr := by
        have : (s1.Intn (2 ^ (w - 2))).2 = s2 := by rw [hI2]
        rw [← this]
        rfl
      rw [← h1, ← h2]
    simp only [hI2, hW2]
    exact ⟨onlyWr_trans hOW1 hOW2, by trivial, by trivial⟩
  · obtain ⟨v2, s2, hI2⟩ : ∃ a b, s1.Intn (2 ^ (w - 2)) = (a, b) := ⟨_, _, rfl⟩
    have hOW2 : onlyWr s1 s2 := by
      have : s2 = (s1.Intn (2 ^ (w - 2))).2 := by rw [hI2]
      rw [this, genstate_Intn_eta]
      exact onlyWr_set s1 _
    have hW2 : s1.wr.Intn (2 ^ (w - 2)) = (v2, s2.wr) := by
      have h1 : (s1.wr.Intn (2 ^ (w - 2))).1 = v2 := by
        have : (s1.Intn (2 ^ (w - 2))).1 = v2 := by rw [hI2]
        simpa using this
      have h2 : (s1.wr.Intn (2 ^ (w - 2))).2 = s2.wr := by
        have : (s1.Intn (2 ^ (w - 2))).2 = s2 := by rw [hI2]
        rw [← this]
        rfl
      rw [← h1, ← h2]
    simp only [hI2, hW2]
    exact ⟨onlyWr_trans hOW1 hOW2, by trivial, by trivial⟩
  · obtain ⟨hf, hfw, hfv⟩ := genRandFloat_char s1 w v
    refine ⟨onlyWr_trans hOW1 hf, ?_, ?_⟩
    · rw [hfw]
      simp only [h32, if_true, if_false, Bool.false_eq_true]
    · rw [hfv]
      simp only [h32, if_true, if_false, Bool.false_eq_true]
  · obtain ⟨hf, hfw, hfv⟩ := genRandFloat_char s1 w v
    refine ⟨onlyWr_trans hOW1 hf, ?_, ?_⟩
    · rw [hfw]
      simp only [h32, h64f, if_true, if_false, Bool.false_eq_true]
    · rw [hfv]
      simp only [h32, h64f, if_true, if_false, Bool.false_eq_true]
  · obtain ⟨hf, hfw, hfv⟩ := genRandFloat_char s1 w v
    refine ⟨onlyWr_trans hOW1 hf, ?_, ?_⟩
    · rw [hfw]
      simp only [h32, h64f, if_true, if_false, Bool.false_eq_true]
    · rw [hfv]
      simp only [h32, h64f, if_true, if_false, Bool.false_eq_true]
  · obtain ⟨w1, sA, hA⟩ : ∃ a b, s1.Intn 100 = (a, b) := ⟨_, _, rfl⟩
    have hOWA : onlyWr s1 sA := by
      have : sA = (s1.Intn 100).2 := by rw [hA]
      rw [this, genstate_Intn_eta]
      exact onlyWr_set s1 _
    have hWA : (s1.wr.Intn 100).2 = sA.wr := by
      have : (s1.Intn 100).2 = sA := by rw [hA]
      rw [← this]
      rfl
    obtain ⟨hf1, hf1w, hf1v⟩ := genRandFloat_char sA 32 v
    obtain ⟨w2, sB, hBp⟩ : ∃ a b,
        (sA.genRandFloat 32 v).2.2.Intn 100 = (a, b) := ⟨_, _, rfl⟩
    have hOWB : onlyWr (sA.genRandFloat 32 v).2.2 sB := by
      have : sB = ((sA.genRandFloat 32 v).2.2.Intn 100).2 := by rw [hBp]
      rw [this, genstate_Intn_eta]
      exact onlyWr_set _ _
    have hWB : ((sA.genRandFloat 32 v).2.2.wr.Intn 100).2 = sB.wr := by
      have : ((sA.genRandFloat 32 v).2.2.Intn 100).2 = sB := by rw [hBp]
      rw [← this]
      rfl
    obtain ⟨hf2, hf2w, hf2v⟩ :=
      genRandFloat_char sB 32 (sA.genRandFloat 32 v).2.1
    simp only [hA, hBp]
    refine ⟨onlyWr_trans hOW1 (onlyWr_trans hOWA
      (onlyWr_trans hf1 (onlyWr_trans hOWB hf2))), ?_, ?_⟩
    · rw [hf2w]
      simp only [show ((32 : Nat) == 32) = true from rfl,
        show ((32 : Nat) == 64) = false from rfl,
        if_true, if_false, Bool.false_eq_true]
      rw [← hWB, hf1w]
      simp only [show ((32 : Nat) == 32) = true from rfl,
        show ((32 : Nat) == 64) = false from rfl,
        if_true, if_false, Bool.false_eq_true]
      rw [← hWA]
    · rw [hf2v, hf1v]
      simp only [show ((32 : Nat) == 32) = true from rfl,
        show ((32 : Nat) == 64) = false from rfl,
        if_true, if_false, Bool.false_eq_true]
  · obtain ⟨w1, sA, hA⟩ : ∃ a b, s1.Intn 100 = (a, b) := ⟨_, _, rfl⟩
    have hOWA : onlyWr s1 sA := by
      have : sA = (s1.Intn 100).2 := by rw [hA]
      rw [this, genstate_Intn_eta]
      exact onlyWr_set s1 _
    have hWA : (s1.wr.Intn 100).2 = sA.wr := by
      have : (s1.Intn 100).2 = sA := by rw [hA]
      rw [← this]
      rfl
    obtain ⟨hf1, hf1w, hf1v⟩ := genRandFloat_char sA 64 v
    obtain ⟨w2, sB, hBp⟩ : ∃ a b,
        (sA.genRandFloat 64 v).2.2.Intn 100 = (a, b) := ⟨_, _, rfl⟩
    have hOWB : onlyWr (sA.genRandFloat 64 v).2.2 sB := by
      have : sB = ((sA.genRandFloat 64 v).2.2.Intn 100).2 := by rw [hBp]
      rw [this, genstate_Intn_eta]
      exact onlyWr_set _ _
    have hWB : ((sA.genRandFloat 64 v).2.2.wr.Intn 100).2 = sB.wr := by
      have : ((sA.genRandFloat 64 v).2.2.Intn 100).2 = sB := by rw [hBp]
      rw [← this]
      rfl
    obtain ⟨hf2, hf2w, hf2v⟩ :=
      genRandFloat_char sB 64 (sA.genRandFloat 64 v).2.1
    simp only [hA, hBp]
    refine ⟨onlyWr_trans hOW1 (onlyWr_trans hOWA
      (onlyWr_trans hf1 (onlyWr_trans hOWB hf2))), ?_, ?_⟩
    · rw [hf2w]
      simp only [show ((64 : Nat) == 32) = false from rfl,
        show ((64 : Nat) == 64) = true from rfl,
        if_true, if_false, Bool.false_eq_true]
      rw [← hWB, hf1w]
      simp only [show ((64 : Nat) == 32) = false from rfl,
        show ((64 : Nat) == 64) = true from rfl,
        if_true, if_false, Bool.false_eq_true]
      rw [← hWA]
    · rw [hf2v, hf1v]
      simp only [show ((64 : Nat) == 32) = false from rfl,
        show ((64 : Nat) == 64) = true from rfl,
        if_true, if_false, Bool.false_eq_true]
  · exact ⟨hOW1, rfl, rfl⟩
  · exact ⟨hOW1, rfl, rfl⟩

/-! ## Registration-helper characterizations -/

theorem genvalWrap_char (f : funcdef) (p : Parm) (c : Bool)
    (res : String × Nat × genstate) :
    emitAgree res.2.2 (genstate.genvalWrap f p c res).2.2 ∧
    (genstate.genvalWrap f p c res).2.2.wr = res.2.2.wr ∧
    (genstate.genvalWrap f p c res).2.1 = res.2.1 := by
  obtain ⟨vs, v2, s2⟩ := res
  by_cases h : (!s2.tunables.doFuncCallValues || !p.IsGenVal || c) = true
  · simp only [genstate.genvalWrap, h, if_true]
    exact ⟨emitAgree_refl s2, by trivial, by trivial⟩
  · simp only [genstate.genvalWrap]
    rw [if_neg h]
    generalize p.Declare "x" "" false ++ sha1hex (vs ++ p.Declare "x" "" false ++
      (if f.mapkeyts != "" then f.mapkeyts else "") ++
      p.Declare "x" "" false) = tg
    cases hl : mlookup s2.genvalFuncs tg with
    | some fname =>
        simp only [hl]
        exact ⟨emitAgree_refl s2, by trivial, by trivial⟩
    | none =>
        simp only [hl]
        refine ⟨⟨rfl, fun m h => h, fun m h => h, fun m h => h, ?_, fun m h => h⟩,
          by trivial, by trivial⟩
        intro m0 hinv
        exact regInv_register _ _ _ _ hinv hl

theorem genAllocFunc_char (s : genstate) (p : Parm) :
    emitAgree s (s.genAllocFunc p).2 ∧ (s.genAllocFunc p).2.wr = s.wr := by
  unfold genstate.genAllocFunc
  cases hl : mlookup s.allocFuncs (Parm.Declare (mkPointerParm p) "x" "" false) with
  | some fn =>
      simp only [hl]
      exact ⟨emitAgree_refl s, by trivial⟩
  | none =>
      simp only [hl]
      refine ⟨⟨rfl, fun m h => h, fun m h => h, ?_, fun m h => h, fun m h => h⟩, by trivial⟩
      intro m0 hinv
      exact regInv_register _ _ _ _ hinv hl

theorem genParamDerefFunc_char (s : genstate) (p : Parm) :
    emitAgree s (s.genParamDerefFunc p).2 ∧ (s.genParamDerefFunc p).2.wr = s.wr := by
  unfold genstate.genParamDerefFunc
  cases hl : mlookup s.derefFuncs (Parm.Declare (mkPointerParm p) "x" "" false) with
  | some fn =>
      simp only [hl]
      exact ⟨emitAgree_refl s, by trivial⟩
  | none =>
      simp only [hl]
      refine ⟨⟨rfl, ?_, fun m h => h, fun m h => h, fun m h => h, fun m h => h⟩, by trivial⟩
      intro m0 hinv
      exact regInv_register _ _ _ _ hinv hl

theorem genAssignFunc_char (s : genstate) (p : Parm) :
    emitAgree s (s.genAssignFunc p).2 ∧ (s.genAssignFunc p).2.wr = s.wr := by
  unfold genstate.genAssignFunc
  cases hl : mlookup s.assignFuncs (Parm.Declare (mkPointerParm p) "x" "" false) with
  | some fn =>
      simp only [hl]
      exact ⟨emitAgree_refl s, by trivial⟩
  | none =>
      simp only [hl]
      refine ⟨⟨rfl, fun m h => h, ?_, fun m h => h, fun m h => h, fun m h => h⟩, by trivial⟩
      intro m0 hinv
      exact regInv_register _ _ _ _ hinv hl

theorem genGlobVar_char (s : genstate) (p : Parm) :
    emitAgree s (s.genGlobVar p).2 ∧ (s.genGlobVar p).2.wr = s.wr := by
  unfold genstate.genGlobVar
  cases hl : mlookup s.globVars (Parm.Declare (mkPointerParm p) "gv" "" false) with
  | some fn =>
      simp only [hl]
      exact ⟨emitAgree_refl s, by trivial⟩
  | none =>
      simp only [hl]
      refine ⟨⟨rfl, fun m h => h, fun m h => h, fun m h => h, fun m h => h, ?_⟩, by trivial⟩
      intro m0 hinv
      exact regInv_register _ _ _ _ hinv hl

theorem genParamRef_char (s : genstate) (p : Parm) (idx : Nat) :
    emitAgree s (s.genParamRef p idx).2 ∧ (s.genParamRef p idx).2.wr = s.wr := by
  unfold genstate.genParamRef
  cases p.AddrTaken with
  | notAddrTaken => exact ⟨emitAgree_refl s, rfl⟩
  | addrTakenSimple => exact ⟨emitAgree_refl s, rfl⟩
  | addrTakenHeap => exact ⟨emitAgree_refl s, rfl⟩
  | addrTakenPassed =>
      obtain ⟨ha, hw⟩ := genParamDerefFunc_char s p
      exact ⟨ha, hw⟩

theorem genReturnAssign_char (s : genstate) (b : List String) (r : Parm)
    (idx : Nat) (val : String) :
    emitAgree s (s.genReturnAssign b r idx val).2 ∧
    (s.genReturnAssign b r idx val).2.wr = s.wr := by
  unfold genstate.genReturnAssign
  cases r.AddrTaken with
  | notAddrTaken => exact ⟨emitAgree_refl s, rfl⟩
  | addrTakenSimple => exact ⟨emitAgree_refl s, rfl⟩
  | addrTakenHeap => exact ⟨emitAgree_refl s, rfl⟩
  | addrTakenPassed =>
      obtain ⟨ha, hw⟩ := genAssignFunc_char s r
      exact ⟨ha, hw⟩

/-! ## GenValue unfolding lemmas -/

theorem GenValue_num (s : genstate) (f : funcdef) (tag : String)
    (w : Nat) (ctl : Bool) (fl : PFlags) (v : Nat) (c : Bool) :
    s.GenValue f (.numparm tag w ctl fl) v c =
      genstate.genvalWrap f (.numparm tag w ctl fl) c (s.genRandNum tag w v) := by
  rw [genstate.GenValue]

theorem GenValue_string (s : genstate) (f : funcdef) (fl : PFlags)
    (v : Nat) (c : Bool) :
    s.GenValue f (.stringparm fl) v c =
      genstate.genvalWrap f (.stringparm fl) c
        (("\"s" ++ toString ((s.Intn 8).2.Intn stringparmNS).1 ++ "e" ++
          toString (min (((s.Intn 8).2.Intn stringparmNS).1 + (s.Intn 8).1)
            stringparmNS) ++ "\"",
          v + 1, ((s.Intn 8).2.Intn stringparmNS).2)) := by
  rw [genstate.GenValue]

theorem GenValue_ptr (s : genstate) (f : funcdef) (tp : Parm) (fl : PFlags)
    (v : Nat) (c : Bool) :
    s.GenValue f (.pointerparm tp fl) v c =
      genstate.genvalWrap f (.pointerparm tp fl) c
        ((if c then s.checkerPkg s.pkidx ++ "." else "") ++
          ((s.GenValue f tp v c).2.2.genAllocFunc tp).1 ++ "(" ++
          (s.GenValue f tp v c).1 ++ ")",
         (s.GenValue f tp v c).2.1,
         ((s.GenValue f tp v c).2.2.genAllocFunc tp).2) := by
  rw [genstate.GenValue]

theorem GenValue_array (s : genstate) (f : funcdef) (a q : String)
    (nel : Nat) (sl : Bool) (el : Parm) (fl : PFlags) (v : Nat) (c : Bool) :
    s.GenValue f (.arrayparm a q nel sl el fl) v c =
      genstate.genvalWrap f (.arrayparm a q nel sl el fl) c
        ((if c then q else a) ++ lb ++
          commaJoin (s.genValueRepeat f nel el v c).1 ++ rb,
         (s.genValueRepeat f nel el v c).2.1,
         (s.genValueRepeat f nel el v c).2.2) := by
  rw [genstate.GenValue]

theorem GenValue_struct (s : genstate) (f : funcdef) (sn q : String)
    (fs : List Parm) (fl : PFlags) (v : Nat) (c : Bool) :
    s.GenValue f (.structparm sn q fs fl) v c =
      genstate.genvalWrap f (.structparm sn q fs fl) c
        ((if c then q else sn) ++ lb ++
          structLiteralBody fs (s.genValueList f fs v c).1 0 0 ++ rb,
         (s.genValueList f fs v c).2.1,
         (s.genValueList f fs v c).2.2) := by
  rw [genstate.GenValue]

theorem GenValue_map (s : genstate) (f : funcdef) (a q keytmp : String)
    (kt vt : Parm) (fl : PFlags) (v : Nat) (c : Bool) :
    s.GenValue f (.mapparm a q keytmp kt vt fl) v c =
      genstate.genvalWrap f (.mapparm a q keytmp kt vt fl) c
        ((if c then q else a) ++ lb ++ "mkt." ++ keytmp ++ ": " ++
          (s.GenValue f vt v c).1 ++ rb,
         (s.GenValue f vt v c).2.1, (s.GenValue f vt v c).2.2) := by
  rw [genstate.GenValue]

theorem GenValue_typedef (s : genstate) (f : funcdef) (a q : String)
    (t : Parm) (fl : PFlags) (v : Nat) (c : Bool) :
    s.GenValue f (.typedefparm a q t fl) v c =
      genstate.genvalWrap f (.typedefparm a q t fl) c
        ((if c then q else a) ++ "(" ++ (s.GenValue f t v c).1 ++ ")",
         (s.GenValue f t v c).2.1, (s.GenValue f t v c).2.2) := by
  rw [genstate.GenValue]

theorem genValueList_nil (s : genstate) (f : funcdef) (v : Nat) (c : Bool) :
    s.genValueList f [] v c = ([], v, s) := by
  rw [genstate.genValueList]

theorem genValueList_cons (s : genstate) (f : funcdef) (p : Parm)
    (ps : List Parm) (v : Nat) (c : Bool) :
    s.genValueList f (p :: ps) v c =
      ((s.GenValue f p v c).1 ::
        ((s.GenValue f p v c).2.2.genValueList f ps (s.GenValue f p v c).2.1 c).1,
       ((s.GenValue f p v c).2.2.genValueList f ps (s.GenValue f p v c).2.1 c).2.1,
       ((s.GenValue f p v c).2.2.genValueList f ps (s.GenValue f p v c).2.1 c).2.2) := by
  rw [genstate.genValueList]

theorem genValueRepeat_zero (s : genstate) (f : funcdef) (el : Parm)
    (v : Nat) (c : Bool) :
    s.genValueRepeat f 0 el v c = ([], v, s) := by
  rw [genstate.genValueRepeat]

theorem genValueRepeat_succ (s : genstate) (f : funcdef) (n : Nat)
    (el : Parm) (v : Nat) (c : Bool) :
    s.genValueRepeat f (n + 1) el v c =
      ((s.GenValue f el v c).1 ::
        ((s.GenValue f el v c).2.2.genValueRepeat f n el (s.GenValue f el v c).2.1 c).1,
       ((s.GenValue f el v c).2.2.genValueRepeat f n el (s.GenValue f el v c).2.1 c).2.1,
       ((s.GenValue f el v c).2.2.genValueRepeat f n el (s.GenValue f el v c).2.1 c).2.2) := by
  rw [genstate.genValueRepeat]

/-! ## drawTrace and vadv unfolding lemmas -/

theorem drawTrace_num (tag : String) (w : Nat) (ctl : Bool) (fl : PFlags)
    (wr : wraprand) : drawTrace (.numparm tag w ctl fl) wr = drawNum tag w wr := by
  rw [drawTrace]

theorem drawTrace_string (fl : PFlags) (wr : wraprand) :
    drawTrace (.stringparm fl) wr = ((wr.Intn 8).2.Intn stringparmNS).2 := by
  rw [drawTrace]

theorem drawTrace_ptr (tp : Parm) (fl : PFlags) (wr : wraprand) :
    drawTrace (.pointerparm tp fl) wr = drawTrace tp wr := by
  rw [drawTrace]

theorem drawTrace_array (a q : String) (nel : Nat) (sl : Bool) (el : Parm)
    (fl : PFlags) (wr : wraprand) :
    drawTrace (.arrayparm a q nel sl el fl) wr = drawRepeat nel el wr := by
  rw [drawTrace]

theorem drawTrace_struct (sn q : String) (fs : List Parm) (fl : PFlags)
    (wr : wraprand) :
    drawTrace (.structparm sn q fs fl) wr = drawList fs wr := by
  rw [drawTrace]

theorem drawTrace_map (a q k : String) (kt vt : Parm) (fl : PFlags)
    (wr : wraprand) :
    drawTrace (.mapparm a q k kt vt fl) wr = drawTrace vt wr := by
  rw [drawTrace]

theorem drawTrace_typedef (a q : String) (t : Parm) (fl : PFlags)
    (wr : wraprand) :
    drawTrace (.typedefparm a q t fl) wr = drawTrace t wr := by
  rw [drawTrace]

theorem drawList_nil (wr : wraprand) : drawList [] wr = wr := by
  rw [drawList]

theorem drawList_cons (p : Parm) (ps : List Parm) (wr : wraprand) :
    drawList (p :: ps) wr = drawList ps (drawTrace p wr) := by
  rw [drawList]

theorem drawRepeat_zero (el : Parm) (wr : wraprand) :
    drawRepeat 0 el wr = wr := by
  rw [drawRepeat]

theorem drawRepeat_succ (n : Nat) (el : Parm) (wr : wraprand) :
    drawRepeat (n + 1) el wr = drawRepeat n el (drawTrace el wr) := by
  rw [drawRepeat]

theorem vadv_num (tag : String) (w : Nat) (ctl : Bool) (fl : PFlags) :
    vadv (.numparm tag w ctl fl) = vadvNum tag w := rfl

theorem vadv_string (fl : PFlags) : vadv (.stringparm fl) = 1 := rfl

theorem vadv_ptr (tp : Parm) (fl : PFlags) :
    vadv (.pointerparm tp fl) = vadv tp := rfl

theorem vadv_array (a q : String) (nel : Nat) (sl : Bool) (el : Parm)
    (fl : PFlags) : vadv (.arrayparm a q nel sl el fl) = nel * vadv el := rfl

theorem vadv_struct (sn q : String) (fs : List Parm) (fl : PFlags) :
    vadv (.structparm sn q fs fl) = vadvList fs := rfl

theorem vadv_map (a q k : String) (kt vt : Parm) (fl : PFlags) :
    vadv (.mapparm a q k kt vt fl) = vadv vt := rfl

theorem vadv_typedef (a q : String) (t : Parm) (fl : PFlags) :
    vadv (.typedefparm a q t fl) = vadv t := rfl

theorem vadvList_nil : vadvList [] = 0 := rfl

theorem vadvList_cons (p : Parm) (ps : List Parm) :
    vadvList (p :: ps) = vadv p + vadvList ps := rfl

/-! ## The GenValue characterization: the stream effect of one value
walk is drawTrace, the value counter advances by vadv, and the state
change is an emission step (registries grow by fresh registrations
only, errs untouched). -/

theorem GenValue_char (s : genstate) (f : funcdef) (p : Parm) (v : Nat)
    (c : Bool) :
    emitAgree s (s.GenValue f p v c).2.2 ∧
    (s.GenValue f p v c).2.2.wr = drawTrace p s.wr ∧
    (s.GenValue f p v c).2.1 = v + vadv p := by
  refine genstate.GenValue.induct
    (fun s f p v c => emitAgree s (s.GenValue f p v c).2.2 ∧
      (s.GenValue f p v c).2.2.wr = drawTrace p s.wr ∧
      (s.GenValue f p v c).2.1 = v + vadv p)
    (fun s f ps v c => emitAgree s (s.genValueList f ps v c).2.2 ∧
      (s.genValueList f ps v c).2.2.wr = drawList ps s.wr ∧
      (s.genValueList f ps v c).2.1 = v + vadvList ps)
    (fun s f n el v c => emitAgree s (s.genValueRepeat f n el v c).2.2 ∧
      (s.genValueRepeat f n el v c).2.2.wr = drawRepeat n el s.wr ∧
      (s.genValueRepeat f n el v c).2.1 = v + n * vadv el)
    ?_ ?_ ?_ ?_ ?_ s f p v c
  · intro s f p v c ih
    cases p with
      | numparm tag w ctl fl =>
          rw [GenValue_num]
          obtain ⟨ha, hw, hv⟩ := genRandNum_char s tag w v
          obtain ⟨wa, ww, wv⟩ :=
            genvalWrap_char f (.numparm tag w ctl fl) c (s.genRandNum tag w v)
          refine ⟨emitAgree_trans (onlyWr_emitAgree ha) wa, ?_, ?_⟩
          · rw [ww, hw, drawTrace_num]
          · rw [wv, hv, vadv_num]
      | stringparm fl =>
          rw [GenValue_string]
          obtain ⟨wa, ww, wv⟩ := genvalWrap_char f (.stringparm fl) c _
          have hOW : onlyWr s ((s.Intn 8).2.Intn stringparmNS).2 := rfl
          refine ⟨emitAgree_trans (onlyWr_emitAgree hOW) wa, ?_, ?_⟩
          · rw [ww, drawTrace_string]
            rfl
          · rw [wv, vadv_string]
      | pointerparm tp fl =>
          have ihp : emitAgree s (s.GenValue f tp v c).2.2 ∧
              (s.GenValue f tp v c).2.2.wr = drawTrace tp s.wr ∧
              (s.GenValue f tp v c).2.1 = v + vadv tp := ih
          obtain ⟨ia, iw, iv⟩ := ihp
          rw [GenValue_ptr]
          obtain ⟨aa, aw⟩ := genAllocFunc_char (s.GenValue f tp v c).2.2 tp
          obtain ⟨wa, ww, wv⟩ := genvalWrap_char f (.pointerparm tp fl) c _
          refine ⟨emitAgree_trans ia (emitAgree_trans aa wa), ?_, ?_⟩
          · rw [ww]
            show ((s.GenValue f tp v c).2.2.genAllocFunc tp).2.wr = _
            rw [aw, iw, drawTrace_ptr]
          · rw [wv]
            show (s.GenValue f tp v c).2.1 = _
            rw [iv, vadv_ptr]
      | arrayparm a q nel sl el fl =>
          have ihr : emitAgree s (s.genValueRepeat f nel el v c).2.2 ∧
              (s.genValueRepeat f nel el v c).2.2.wr = drawRepeat nel el s.wr ∧
              (s.genValueRepeat f nel el v c).2.1 = v + nel * vadv el := ih
          obtain ⟨ia, iw, iv⟩ := ihr
          rw [GenValue_array]
          obtain ⟨wa, ww, wv⟩ := genvalWrap_char f (.arrayparm a q nel sl el fl) c _
          refine ⟨emitAgree_trans ia wa, ?_, ?_⟩
          · rw [ww]
            show (s.genValueRepeat f nel el v c).2.2.wr = _
            rw [iw, drawTrace_array]
          · rw [wv]
            show (s.genValueRepeat f nel el v c).2.1 = _
            rw [iv, vadv_array]
      | structparm sn q fs fl =>
          have ihl : emitAgree s (s.genValueList f fs v c).2.2 ∧
              (s.genValueList f fs v c).2.2.wr = drawList fs s.wr ∧
              (s.genValueList f fs v c).2.1 = v + vadvList fs := ih
          obtain ⟨ia, iw, iv⟩ := ihl
          rw [GenValue_struct]
          obtain ⟨wa, ww, wv⟩ := genvalWrap_char f (.structparm sn q fs fl) c _
          refine ⟨emitAgree_trans ia wa, ?_, ?_⟩
          · rw [ww]
            show (s.genValueList f fs v c).2.2.wr = _
            rw [iw, drawTrace_struct]
          · rw [wv]
            show (s.genValueList f fs v c).2.1 = _
            rw [iv, vadv_struct]
      | mapparm a q keytmp kt vt fl =>
          have ihv : emitAgree s (s.GenValue f vt v c).2.2 ∧
              (s.GenValue f vt v c).2.2.wr = drawTrace vt s.wr ∧
              (s.GenValue f vt v c).2.1 = v + vadv vt := ih
          obtain ⟨ia, iw, iv⟩ := ihv
          rw [GenValue_map]
          obtain ⟨wa, ww, wv⟩ := genvalWrap_char f (.mapparm a q keytmp kt vt fl) c _
          refine ⟨emitAgree_trans ia wa, ?_, ?_⟩
          · rw [ww]
            show (s.GenValue f vt v c).2.2.wr = _
            rw [iw, drawTrace_map]
          · rw [wv]
            show (s.GenValue f vt v c).2.1 = _
            rw [iv, vadv_map]
      | typedefparm a q t fl =>
          have iht : emitAgree s (s.GenValue f t v c).2.2 ∧
              (s.GenValue f t v c).2.2.wr = drawTrace t s.wr ∧
              (s.GenValue f t v c).2.1 = v + vadv t := ih
          obtain ⟨ia, iw, iv⟩ := iht
          rw [GenValue_typedef]
          obtain ⟨wa, ww, wv⟩ := genvalWrap_char f (.typedefparm a q t fl) c _
          refine ⟨emitAgree_trans ia wa, ?_, ?_⟩
          · rw [ww]
            show (s.GenValue f t v c).2.2.wr = _
            rw [iw, drawTrace_typedef]
          · rw [wv]
            show (s.GenValue f t v c).2.1 = _
            rw [iv, vadv_typedef]
  · intro s f v c
    rw [genValueList_nil]
    exact ⟨emitAgree_refl s, by rw [drawList_nil], by simp [vadvList_nil]⟩
  · intro s f v c p ps valstr v1 s1 hGV strs v2 s2 hGL ih1 ih2
    rw [genValueList_cons]
    simp only [hGV] at ih1 ⊢
    simp only [hGL] at ih2 ⊢
    obtain ⟨a1, w1, v1e⟩ := ih1
    obtain ⟨a2, w2, v2e⟩ := ih2
    refine ⟨emitAgree_trans a1 a2, ?_, ?_⟩
    · rw [drawList_cons, w2, w1]
    · rw [vadvList_cons, v2e, v1e]
      omega
  · intro s f el v c
    rw [genValueRepeat_zero]
    refine ⟨emitAgree_refl s, by rw [drawRepeat_zero], by simp⟩
  · intro s f el v c n valstr v1 s1 hGV strs v2 s2 hGR ih1 ih2
    rw [genValueRepeat_succ]
    simp only [hGV] at ih1 ⊢
    simp only [hGR] at ih2 ⊢
    obtain ⟨a1, w1, v1e⟩ := ih1
    obtain ⟨a2, w2, v2e⟩ := ih2
    refine ⟨emitAgree_trans a1 a2, ?_, ?_⟩
    · rw [drawRepeat_succ, w2, w1]
    · rw [v2e, v1e, Nat.succ_mul]
      omega


/-! ## Emitter loop characterizations (caller side) -/

theorem vaDraws_eq (r : Parm) (wr : wraprand) :
    vaDraws r wr = drawTrace r (wr.Intn 100).2 := rfl

theorem emitVarAssign_char (s : genstate) (f : funcdef) (r : Parm)
    (rn : String) (v : Nat) (c : Bool) (b : List String) :
    emitAgree s (s.emitVarAssign f r rn v c b).2.2 ∧
    (s.emitVarAssign f r rn v c b).2.2.wr = vaDraws r s.wr ∧
    (s.emitVarAssign f r rn v c b).2.1 = v + vadv r := by
  obtain ⟨d, s1, hI⟩ : ∃ a b', s.Intn 100 = (a, b') := ⟨_, _, rfl⟩
  have hs1 : s1 = { s with wr := (s.wr.Intn 100).2 } := by
    rw [← genstate_Intn_eta, hI]
  have hwr1 : s1.wr = (s.wr.Intn 100).2 := by rw [hs1]
  cases r with
  | mapparm aq qq keytmp kt vt fl =>
      simp only [genstate.emitVarAssign, hI]
      by_cases hda : d < 50
      · simp only [hda, if_true]
        obtain ⟨ga, gw, gv⟩ := GenValue_char s1 f vt v c
        refine ⟨emitAgree_trans (onlyWr_emitAgree
          (by rw [hs1]; exact onlyWr_set s _)) ga, ?_, ?_⟩
        · rw [vaDraws_eq, drawTrace_map]
          show (s1.GenValue f vt v c).2.2.wr = _
          rw [gw, hwr1]
        · show (s1.GenValue f vt v c).2.1 = _
          rw [gv, vadv_map]
      · simp only [hda, if_false, Bool.false_eq_true]
        obtain ⟨ga, gw, gv⟩ := GenValue_char s1 f (.mapparm aq qq keytmp kt vt fl) v c
        refine ⟨emitAgree_trans (onlyWr_emitAgree
          (by rw [hs1]; exact onlyWr_set s _)) ga, ?_, ?_⟩
        · rw [vaDraws_eq, drawTrace_map]
          show (s1.GenValue f (.mapparm aq qq keytmp kt vt fl) v c).2.2.wr = _
          rw [gw, hwr1, drawTrace_map]
        · show (s1.GenValue f (.mapparm aq qq keytmp kt vt fl) v c).2.1 = _
          rw [gv]
  | numparm t1 t2 t3 t4 =>
      simp only [genstate.emitVarAssign, hI]
      obtain ⟨ga, gw, gv⟩ := GenValue_char s1 f (.numparm t1 t2 t3 t4) v c
      refine ⟨emitAgree_trans (onlyWr_emitAgree
        (by rw [hs1]; exact onlyWr_set s _)) ga, ?_, ?_⟩
      · rw [vaDraws_eq]
        show (s1.GenValue f (.numparm t1 t2 t3 t4) v c).2.2.wr = _
        rw [gw, hwr1]
      · show (s1.GenValue f (.numparm t1 t2 t3 t4) v c).2.1 = _
        rw [gv]
  | stringparm t1 =>
      simp only [genstate.emitVarAssign, hI]
      obtain ⟨ga, gw, gv⟩ := GenValue_char s1 f (.stringparm t1) v c
      refine ⟨emitAgree_trans (onlyWr_emitAgree
        (by rw [hs1]; exact onlyWr_set s _)) ga, ?_, ?_⟩
      · rw [vaDraws_eq]
        show (s1.GenValue f (.stringparm t1) v c).2.2.wr = _
        rw [gw, hwr1]
      · show (s1.GenValue f (.stringparm t1) v c).2.1 = _
        rw [gv]
  | pointerparm t1 t2 =>
      simp only [genstate.emitVarAssign, hI]
      obtain ⟨ga, gw, gv⟩ := GenValue_char s1 f (.pointerparm t1 t2) v c
      refine ⟨emitAgree_trans (onlyWr_emitAgree
        (by rw [hs1]; exact onlyWr_set s _)) ga, ?_, ?_⟩
      · rw [vaDraws_eq]
        show (s1.GenValue f (.pointerparm t1 t2) v c).2.2.wr = _
        rw [gw, hwr1]
      · show (s1.GenValue f (.pointerparm t1 t2) v c).2.1 = _
        rw [gv]
  | arrayparm t1 t2 t3 t4 t5 t6 =>
      simp only [genstate.emitVarAssign, hI]
      obtain ⟨ga, gw, gv⟩ := GenValue_char s1 f (.arrayparm t1 t2 t3 t4 t5 t6) v c
      refine ⟨emitAgree_trans (onlyWr_emitAgree
        (by rw [hs1]; exact onlyWr_set s _)) ga, ?_, ?_⟩
      · rw [vaDraws_eq]
        show (s1.GenValue f (.arrayparm t1 t2 t3 t4 t5 t6) v c).2.2.wr = _
        rw [gw, hwr1]
      · show (s1.GenValue f (.arrayparm t1 t2 t3 t4 t5 t6) v c).2.1 = _
        rw [gv]
  | structparm t1 t2 t3 t4 =>
      simp only [genstate.emitVarAssign, hI]
      obtain ⟨ga, gw, gv⟩ := GenValue_char s1 f (.structparm t1 t2 t3 t4) v c
      refine ⟨emitAgree_trans (onlyWr_emitAgree
        (by rw [hs1]; exact onlyWr_set s _)) ga, ?_, ?_⟩
      · rw [vaDraws_eq]
        show (s1.GenValue f (.structparm t1 t2 t3 t4) v c).2.2.wr = _
        rw [gw, hwr1]
      · show (s1.GenValue f (.structparm t1 t2 t3 t4) v c).2.1 = _
        rw [gv]
  | typedefparm t1 t2 t3 t4 =>
      simp only [genstate.emitVarAssign, hI]
      obtain ⟨ga, gw, gv⟩ := GenValue_char s1 f (.typedefparm t1 t2 t3 t4) v c
      refine ⟨emitAgree_trans (onlyWr_emitAgree
        (by rw [hs1]; exact onlyWr_set s _)) ga, ?_, ?_⟩
      · rw [vaDraws_eq]
        show (s1.GenValue f (.typedefparm t1 t2 t3 t4) v c).2.2.wr = _
        rw [gw, hwr1]
      · show (s1.GenValue f (.typedefparm t1 t2 t3 t4) v c).2.1 = _
        rw [gv]

theorem emitMapKeyTmpsLoop_char (f : funcdef) (c : Bool) :
    ∀ (ts : List Parm) (tmps : List String) (s : genstate) (v : Nat)
      (b : List String),
    emitAgree s (s.emitMapKeyTmpsLoop f ts tmps v c b).2.2 ∧
    (s.emitMapKeyTmpsLoop f ts tmps v c b).2.2.wr = mkeysDraws ts tmps s.wr ∧
    (s.emitMapKeyTmpsLoop f ts tmps v c b).2.1 = v + mkeysVadv ts tmps := by
  intro ts
  induction ts with
  | nil =>
      intro tmps s v b
      cases tmps <;>
        simp only [genstate.emitMapKeyTmpsLoop, mkeysDraws, mkeysVadv] <;>
        exact ⟨emitAgree_refl s, by trivial, by omega⟩
  | cons t tr ihts =>
      intro tmps s v b
      cases tmps with
      | nil =>
          simp only [genstate.emitMapKeyTmpsLoop, mkeysDraws, mkeysVadv]
          exact ⟨emitAgree_refl s, by trivial, by omega⟩
      | cons tname nr =>
          simp only [genstate.emitMapKeyTmpsLoop, mkeysDraws, mkeysVadv]
          obtain ⟨ga, gw, gv⟩ := GenValue_char s f t v c
          obtain ⟨la, lw, lv⟩ := ihts nr (s.GenValue f t v c).2.2
            (s.GenValue f t v c).2.1 _
          refine ⟨emitAgree_trans ga la, ?_, ?_⟩
          · rw [lw, gw]
          · rw [lv, gv]
            omega

theorem emitMapKeyTmps_char (s : genstate) (f : funcdef) (pidx : Nat)
    (v : Nat) (c : Bool) (b : List String) :
    emitAgree s (s.emitMapKeyTmps f pidx v c b).2.2 ∧
    (s.emitMapKeyTmps f pidx v c b).2.2.wr =
      (if f.mapkeyts == "" then s.wr
       else mkeysDraws f.mapkeytypes f.mapkeytmps s.wr) ∧
    (s.emitMapKeyTmps f pidx v c b).2.1 =
      (if f.mapkeyts == "" then v
       else v + mkeysVadv f.mapkeytypes f.mapkeytmps) := by
  unfold genstate.emitMapKeyTmps
  by_cases h : (f.mapkeyts == "") = true
  · simp only [h, if_true]
    exact ⟨emitAgree_refl s, by trivial, by trivial⟩
  · simp only [h, if_false, Bool.false_eq_true]
    exact emitMapKeyTmpsLoop_char f c f.mapkeytypes f.mapkeytmps s v _

theorem callerReturnsLoop_char (f : funcdef) :
    ∀ (rs : List Parm) (s : genstate) (ri v : Nat) (b : List String),
    emitAgree s (s.callerReturnsLoop f rs ri v b).2.2 ∧
    (s.callerReturnsLoop f rs ri v b).2.2.wr = returnsDraws rs s.wr ∧
    (s.callerReturnsLoop f rs ri v b).2.1 = v + vadvList rs := by
  intro rs
  induction rs with
  | nil =>
      intro s ri v b
      simp only [genstate.callerReturnsLoop, returnsDraws]
      exact ⟨emitAgree_refl s, by trivial, by simp [vadvList_nil]⟩
  | cons r rest ih =>
      intro s ri v b
      simp only [genstate.callerReturnsLoop, returnsDraws]
      obtain ⟨ea, ew, ev⟩ := emitVarAssign_char s f r ("c" ++ toString ri) v true b
      obtain ⟨la, lw, lv⟩ := ih (s.emitVarAssign f r ("c" ++ toString ri) v true b).2.2
        (ri + 1) (s.emitVarAssign f r ("c" ++ toString ri) v true b).2.1
        (s.emitVarAssign f r ("c" ++ toString ri) v true b).1
      refine ⟨emitAgree_trans ea la, ?_, ?_⟩
      · rw [lw, ew]
      · rw [lv, ev, vadvList_cons]
        omega

theorem checkerReturnsLoop_char (f : funcdef) :
    ∀ (rs : List Parm) (s : genstate) (ri v : Nat) (b : List String),
    emitAgree s (s.checkerReturnsLoop f rs ri v b).2.2 ∧
    (s.checkerReturnsLoop f rs ri v b).2.2.wr = returnsDraws rs s.wr ∧
    (s.checkerReturnsLoop f rs ri v b).2.1 = v + vadvList rs := by
  intro rs
  induction rs with
  | nil =>
      intro s ri v b
      simp only [genstate.checkerReturnsLoop, returnsDraws]
      exact ⟨emitAgree_refl s, by trivial, by simp [vadvList_nil]⟩
  | cons r rest ih =>
      intro s ri v b
      simp only [genstate.checkerReturnsLoop, returnsDraws]
      obtain ⟨ea, ew, ev⟩ := emitVarAssign_char s f r ("rc" ++ toString ri) v false b
      obtain ⟨la, lw, lv⟩ := ih (s.emitVarAssign f r ("rc" ++ toString ri) v false b).2.2
        (ri + 1) (s.emitVarAssign f r ("rc" ++ toString ri) v false b).2.1
        (s.emitVarAssign f r ("rc" ++ toString ri) v false b).1
      refine ⟨emitAgree_trans ea la, ?_, ?_⟩
      · rw [lw, ew]
      · rw [lv, ev, vadvList_cons]
        omega

theorem callerParamsLoop_char (f : funcdef) :
    ∀ (ps : List Parm) (s : genstate) (pi v : Nat) (vals : List Nat)
      (b : List String),
    emitAgree s (s.callerParamsLoop f ps pi v vals b).2.2.2 ∧
    (s.callerParamsLoop f ps pi v vals b).2.2.2.wr = paramsDraws ps s.wr ∧
    (s.callerParamsLoop f ps pi v vals b).2.1 = valEnd ps v ∧
    (s.callerParamsLoop f ps pi v vals b).2.2.1 = vals ++ valSeq ps v := by
  intro ps
  induction ps with
  | nil =>
      intro s pi v vals b
      simp only [genstate.callerParamsLoop, paramsDraws, valEnd, valSeq]
      exact ⟨emitAgree_refl s, by trivial, by trivial, by simp⟩
  | cons p rest ih =>
      intro s pi v vals b
      by_cases hc : p.IsControl = true
      · simp only [genstate.callerParamsLoop, paramsDraws, valEnd, valSeq, hc,
          if_true]
        obtain ⟨d, s1, hI⟩ : ∃ a b', s.Intn 100 = (a, b') := ⟨_, _, rfl⟩
        have hs1 : s1 = { s with wr := (s.wr.Intn 100).2 } := by
          rw [← genstate_Intn_eta, hI]
        have hwr1 : s1.wr = (s.wr.Intn 100).2 := by rw [hs1]
        simp only [hI]
        obtain ⟨la, lw, lv, lvals⟩ := ih s1 (pi + 1) v (vals ++ [v]) _
        refine ⟨emitAgree_trans (onlyWr_emitAgree
          (by rw [hs1]; exact onlyWr_set s _)) la, ?_, lv, ?_⟩
        · rw [lw, hwr1]
        · rw [lvals]
          simp
      · simp only [genstate.callerParamsLoop, paramsDraws, valEnd, valSeq, hc,
          if_false, Bool.false_eq_true]
        obtain ⟨ea, ew, ev⟩ :=
          emitVarAssign_char s f p ("p" ++ toString pi) v true b
        obtain ⟨la, lw, lv, lvals⟩ :=
          ih (s.emitVarAssign f p ("p" ++ toString pi) v true b).2.2 (pi + 1)
            (s.emitVarAssign f p ("p" ++ toString pi) v true b).2.1
            (vals ++ [(s.emitVarAssign f p ("p" ++ toString pi) v true b).2.1])
            (s.emitVarAssign f p ("p" ++ toString pi) v true b).1
        refine ⟨emitAgree_trans ea la, ?_, ?_, ?_⟩
        · rw [lw, ew, vaDraws_eq]
        · rw [lv, ev]
        · rw [lvals, ev]
          simp


/-! ## Projection forms of the characterizations, for direct rewriting -/

theorem genstate_eta (s : genstate) : ({ s with wr := s.wr } : genstate) = s := rfl

theorem GenValue_wr (s : genstate) (f : funcdef) (p : Parm) (v : Nat)
    (c : Bool) : (s.GenValue f p v c).2.2.wr = drawTrace p s.wr :=
  (GenValue_char s f p v c).2.1

theorem GenValue_value (s : genstate) (f : funcdef) (p : Parm) (v : Nat)
    (c : Bool) : (s.GenValue f p v c).2.1 = v + vadv p :=
  (GenValue_char s f p v c).2.2

theorem GenValue_agree_acc {s0 : genstate} (s : genstate) (f : funcdef)
    (p : Parm) (v : Nat) (c : Bool) (h : emitAgree s0 s) :
    emitAgree s0 (s.GenValue f p v c).2.2 :=
  emitAgree_trans h (GenValue_char s f p v c).1

theorem emitMapKeyTmps_wr (s : genstate) (f : funcdef) (pidx v : Nat)
    (c : Bool) (b : List String) :
    (s.emitMapKeyTmps f pidx v c b).2.2.wr =
      (if f.mapkeyts == "" then s.wr
       else mkeysDraws f.mapkeytypes f.mapkeytmps s.wr) :=
  (emitMapKeyTmps_char s f pidx v c b).2.1

theorem emitMapKeyTmps_value (s : genstate) (f : funcdef) (pidx v : Nat)
    (c : Bool) (b : List String) :
    (s.emitMapKeyTmps f pidx v c b).2.1 =
      (if f.mapkeyts == "" then v
       else v + mkeysVadv f.mapkeytypes f.mapkeytmps) :=
  (emitMapKeyTmps_char s f pidx v c b).2.2

theorem emitMapKeyTmps_agree_acc {s0 : genstate} (s : genstate) (f : funcdef)
    (pidx v : Nat) (c : Bool) (b : List String) (h : emitAgree s0 s) :
    emitAgree s0 (s.emitMapKeyTmps f pidx v c b).2.2 :=
  emitAgree_trans h (emitMapKeyTmps_char s f pidx v c b).1

theorem callerReturnsLoop_wr (s : genstate) (f : funcdef) (rs : List Parm)
    (ri v : Nat) (b : List String) :
    (s.callerReturnsLoop f rs ri v b).2.2.wr = returnsDraws rs s.wr :=
  (callerReturnsLoop_char f rs s ri v b).2.1

theorem callerReturnsLoop_value (s : genstate) (f : funcdef) (rs : List Parm)
    (ri v : Nat) (b : List String) :
    (s.callerReturnsLoop f rs ri v b).2.1 = v + vadvList rs :=
  (callerReturnsLoop_char f rs s ri v b).2.2

theorem callerReturnsLoop_agree_acc {s0 : genstate} (s : genstate)
    (f : funcdef) (rs : List Parm) (ri v : Nat) (b : List String)
    (h : emitAgree s0 s) :
    emitAgree s0 (s.callerReturnsLoop f rs ri v b).2.2 :=
  emitAgree_trans h (callerReturnsLoop_char f rs s ri v b).1

theorem checkerReturnsLoop_wr (s : genstate) (f : funcdef) (rs : List Parm)
    (ri v : Nat) (b : List String) :
    (s.checkerReturnsLoop f rs ri v b).2.2.wr = returnsDraws rs s.wr :=
  (checkerReturnsLoop_char f rs s ri v b).2.1

theorem checkerReturnsLoop_value (s : genstate) (f : funcdef) (rs : List Parm)
    (ri v : Nat) (b : List String) :
    (s.checkerReturnsLoop f rs ri v b).2.1 = v + vadvList rs :=
  (checkerReturnsLoop_char f rs s ri v b).2.2

theorem checkerReturnsLoop_agree_acc {s0 : genstate} (s : genstate)
    (f : funcdef) (rs : List Parm) (ri v : Nat) (b : List String)
    (h : emitAgree s0 s) :
    emitAgree s0 (s.checkerReturnsLoop f rs ri v b).2.2 :=
  emitAgree_trans h (checkerReturnsLoop_char f rs s ri v b).1

theorem callerParamsLoop_wr (s : genstate) (f : funcdef) (ps : List Parm)
    (pi v : Nat) (vals : List Nat) (b : List String) :
    (s.callerParamsLoop f ps pi v vals b).2.2.2.wr = paramsDraws ps s.wr :=
  (callerParamsLoop_char f ps s pi v vals b).2.1

theorem callerParamsLoop_value (s : genstate) (f : funcdef) (ps : List Parm)
    (pi v : Nat) (vals : List Nat) (b : List String) :
    (s.callerParamsLoop f ps pi v vals b).2.1 = valEnd ps v :=
  (callerParamsLoop_char f ps s pi v vals b).2.2.1

theorem callerParamsLoop_vals (s : genstate) (f : funcdef) (ps : List Parm)
    (pi v : Nat) (vals : List Nat) (b : List String) :
    (s.callerParamsLoop f ps pi v vals b).2.2.1 = vals ++ valSeq ps v :=
  (callerParamsLoop_char f ps s pi v vals b).2.2.2

theorem callerParamsLoop_agree_acc {s0 : genstate} (s : genstate)
    (f : funcdef) (ps : List Parm) (pi v : Nat) (vals : List Nat)
    (b : List String) (h : emitAgree s0 s) :
    emitAgree s0 (s.callerParamsLoop f ps pi v vals b).2.2.2 :=
  emitAgree_trans h (callerParamsLoop_char f ps s pi v vals b).1

/-! ## The caller emitter characterization -/

theorem emitCaller_char (s : genstate) (f : funcdef) (pidx : Nat)
    (b : List String) :
    emitAgree s (s.emitCaller f pidx b).2.2 ∧
    (s.emitCaller f pidx b).2.2.wr = pairDraws f s.wr ∧
    (s.emitCaller f pidx b).1 =
      { f with values := f.values ++ valSeq f.params (valueAtParams f) ++
          rcvrVals f (valEnd f.params (valueAtParams f)) } := by
  unfold genstate.emitCaller
  simp only [wraprand.Checkpoint, genstate_eta]
  by_cases hm : f.method = true
  · cases hr : f.receiver with
    | some r =>
        simp only [hm, hr, if_true]
        refine ⟨?_, ?_, ?_⟩
        · exact GenValue_agree_acc _ _ _ _ _
            (callerParamsLoop_agree_acc _ _ _ _ _ _ _
              (callerReturnsLoop_agree_acc _ _ _ _ _ _
                (emitMapKeyTmps_agree_acc _ _ _ _ _ _ (emitAgree_refl s))))
        · simp only [GenValue_wr, callerParamsLoop_wr, callerReturnsLoop_wr,
            emitMapKeyTmps_wr]
          unfold pairDraws
          simp only [hm, hr, if_true]
        · simp only [callerParamsLoop_vals, callerParamsLoop_value,
            GenValue_value, callerReturnsLoop_value, emitMapKeyTmps_value]
          unfold valueAtParams rcvrVals
          simp only [hm, hr, if_true, List.append_assoc]
    | none =>
        simp only [hm, hr, if_true]
        refine ⟨?_, ?_, ?_⟩
        · exact callerParamsLoop_agree_acc _ _ _ _ _ _ _
            (callerReturnsLoop_agree_acc _ _ _ _ _ _
              (emitMapKeyTmps_agree_acc _ _ _ _ _ _ (emitAgree_refl s)))
        · simp only [callerParamsLoop_wr, callerReturnsLoop_wr,
            emitMapKeyTmps_wr]
          unfold pairDraws
          simp only [hm, hr, if_true]
        · simp only [callerParamsLoop_vals, callerParamsLoop_value,
            GenValue_value, callerReturnsLoop_value, emitMapKeyTmps_value]
          unfold valueAtParams rcvrVals
          simp only [hm, hr, if_true, List.append_assoc, List.append_nil]
  · simp only [hm, if_false, Bool.false_eq_true]
    refine ⟨?_, ?_, ?_⟩
    · exact callerParamsLoop_agree_acc _ _ _ _ _ _ _
        (callerReturnsLoop_agree_acc _ _ _ _ _ _
          (emitMapKeyTmps_agree_acc _ _ _ _ _ _ (emitAgree_refl s)))
    · simp only [callerParamsLoop_wr, callerReturnsLoop_wr, emitMapKeyTmps_wr]
      unfold pairDraws
      simp only [hm, if_false, Bool.false_eq_true]
    · simp only [callerParamsLoop_vals, callerParamsLoop_value,
        GenValue_value, callerReturnsLoop_value, emitMapKeyTmps_value]
      unfold valueAtParams rcvrVals
      simp only [hm, if_false, Bool.false_eq_true, List.append_assoc,
        List.append_nil]


/-! ## Leaf-list lemmas: lengths, draws and value advances -/

theorem drawList_append (l1 l2 : List Parm) (wr : wraprand) :
    drawList (l1 ++ l2) wr = drawList l2 (drawList l1 wr) := by
  induction l1 generalizing wr with
  | nil => rw [List.nil_append, drawList_nil]
  | cons p ps ih => rw [List.cons_append, drawList_cons, drawList_cons, ih]

theorem vadvList_append (l1 l2 : List Parm) :
    vadvList (l1 ++ l2) = vadvList l1 + vadvList l2 := by
  induction l1 with
  | nil => rw [List.nil_append, vadvList_nil]; omega
  | cons p ps ih => rw [List.cons_append, vadvList_cons, vadvList_cons, ih]; omega

theorem NumElements_num (tag : String) (w : Nat) (ctl : Bool) (fl : PFlags) :
    (Parm.numparm tag w ctl fl).NumElements = 1 := rfl

theorem NumElements_string (fl : PFlags) :
    (Parm.stringparm fl).NumElements = 1 := rfl

theorem NumElements_ptr (tp : Parm) (fl : PFlags) :
    (Parm.pointerparm tp fl).NumElements = 1 := rfl

theorem NumElements_map (a q k : String) (kt vt : Parm) (fl : PFlags) :
    (Parm.mapparm a q k kt vt fl).NumElements = 1 := rfl

theorem NumElements_array (a q : String) (n : Nat) (sl : Bool) (el : Parm)
    (fl : PFlags) :
    (Parm.arrayparm a q n sl el fl).NumElements = el.NumElements * n := rfl

theorem NumElements_struct (sn q : String) (fs : List Parm) (fl : PFlags) :
    (Parm.structparm sn q fs fl).NumElements = Parm.numElementsList fs := rfl

theorem NumElements_typedef (a q : String) (t : Parm) (fl : PFlags) :
    (Parm.typedefparm a q t fl).NumElements = t.NumElements := rfl

theorem numElementsList_nil : Parm.numElementsList [] = 0 := rfl

theorem numElementsList_cons (p : Parm) (ps : List Parm) :
    Parm.numElementsList (p :: ps) = p.NumElements + Parm.numElementsList ps := rfl

theorem noTd_ptr (tp : Parm) (fl : PFlags) :
    noTd (.pointerparm tp fl) = noTd tp := rfl

theorem noTd_array (a q : String) (n : Nat) (sl : Bool) (el : Parm)
    (fl : PFlags) : noTd (.arrayparm a q n sl el fl) = noTd el := rfl

theorem noTd_struct (sn q : String) (fs : List Parm) (fl : PFlags) :
    noTd (.structparm sn q fs fl) = noTdList fs := rfl

theorem noTd_map (a q k : String) (kt vt : Parm) (fl : PFlags) :
    noTd (.mapparm a q k kt vt fl) = (noTd kt && noTd vt) := rfl

theorem noTd_typedef (a q : String) (t : Parm) (fl : PFlags) :
    noTd (.typedefparm a q t fl) = false := rfl

theorem noTdList_cons (p : Parm) (ps : List Parm) :
    noTdList (p :: ps) = (noTd p && noTdList ps) := rfl

theorem elemLeaves_num (tag : String) (w : Nat) (ctl : Bool) (fl : PFlags) :
    elemLeaves (.numparm tag w ctl fl) = [.numparm tag w ctl fl] := by
  rw [elemLeaves]

theorem elemLeaves_string (fl : PFlags) :
    elemLeaves (.stringparm fl) = [.stringparm fl] := by
  rw [elemLeaves]

theorem elemLeaves_ptr (tp : Parm) (fl : PFlags) :
    elemLeaves (.pointerparm tp fl) = [.pointerparm tp fl] := by
  rw [elemLeaves]

theorem elemLeaves_map (a q k : String) (kt vt : Parm) (fl : PFlags) :
    elemLeaves (.mapparm a q k kt vt fl) = [.mapparm a q k kt vt fl] := by
  rw [elemLeaves]

theorem elemLeaves_array (a q : String) (n : Nat) (sl : Bool) (el : Parm)
    (fl : PFlags) :
    elemLeaves (.arrayparm a q n sl el fl) = elemLeavesRep n el := by
  rw [elemLeaves]

theorem elemLeaves_struct (sn q : String) (fs : List Parm) (fl : PFlags) :
    elemLeaves (.structparm sn q fs fl) = elemLeavesFields fs := by
  rw [elemLeaves]

theorem elemLeaves_td_array (a q a2 q2 : String) (n : Nat) (sl : Bool)
    (el : Parm) (f2 fl : PFlags) :
    elemLeaves (.typedefparm a q (.arrayparm a2 q2 n sl el f2) fl) =
      elemLeaves (.arrayparm a2 q2 n sl el f2) := by
  simp only [elemLeaves]

theorem elemLeaves_td_struct (a q sn q2 : String) (fs : List Parm)
    (f2 fl : PFlags) :
    elemLeaves (.typedefparm a q (.structparm sn q2 fs f2) fl) =
      elemLeaves (.structparm sn q2 fs f2) := by
  simp only [elemLeaves]

theorem elemLeavesCut_eq (q : Parm) :
    elemLeavesCut q = if q.NumElements == 1 then [q] else elemLeaves q := by
  rw [elemLeavesCut]

theorem elemLeavesRep_zero (el : Parm) : elemLeavesRep 0 el = [] := by
  rw [elemLeavesRep]

theorem elemLeavesRep_succ (n : Nat) (el : Parm) :
    elemLeavesRep (n + 1) el = elemLeavesCut el ++ elemLeavesRep n el := by
  rw [elemLeavesRep]

theorem elemLeavesFields_nil : elemLeavesFields [] = [] := by
  rw [elemLeavesFields]

theorem elemLeavesFields_cons (f : Parm) (fs : List Parm) :
    elemLeavesFields (f :: fs) = elemLeavesCut f ++ elemLeavesFields fs := by
  rw [elemLeavesFields]

theorem elemLeaves_noTd_char :
    ∀ (p : Parm), noTd p = true →
      (elemLeaves p).length = p.NumElements ∧
      (∀ wr, drawList (elemLeaves p) wr = drawTrace p wr) ∧
      vadvList (elemLeaves p) = vadv p := by
  refine elemLeaves.induct
    (fun p => noTd p = true →
      (elemLeaves p).length = p.NumElements ∧
      (∀ wr, drawList (elemLeaves p) wr = drawTrace p wr) ∧
      vadvList (elemLeaves p) = vadv p)
    (fun fs => noTdList fs = true →
      (elemLeavesFields fs).length = Parm.numElementsList fs ∧
      (∀ wr, drawList (elemLeavesFields fs) wr = drawList fs wr) ∧
      vadvList (elemLeavesFields fs) = vadvList fs)
    (fun q => noTd q = true →
      (elemLeavesCut q).length = q.NumElements ∧
      (∀ wr, drawList (elemLeavesCut q) wr = drawTrace q wr) ∧
      vadvList (elemLeavesCut q) = vadv q)
    (fun n el => noTd el = true →
      (elemLeavesRep n el).length = n * el.NumElements ∧
      (∀ wr, drawList (elemLeavesRep n el) wr = drawRepeat n el wr) ∧
      vadvList (elemLeavesRep n el) = n * vadv el)
    ?_ ?_ ?_ ?_ ?_ ?_ ?_ ?_ ?_ ?_ ?_ ?_ ?_ ?_ ?_
  · intro tag w ctl fl h
    rw [elemLeaves_num]
    refine ⟨rfl, fun wr => ?_, ?_⟩
    · simp [drawList_cons, drawList_nil]
    · simp [vadvList_cons, vadvList_nil]
  · intro fl h
    rw [elemLeaves_string]
    refine ⟨rfl, fun wr => ?_, ?_⟩
    · simp [drawList_cons, drawList_nil]
    · simp [vadvList_cons, vadvList_nil]
  · intro tp fl h
    rw [elemLeaves_ptr]
    refine ⟨rfl, fun wr => ?_, ?_⟩
    · simp [drawList_cons, drawList_nil]
    · simp [vadvList_cons, vadvList_nil]
  · intro a q k kt vt fl h
    rw [elemLeaves_map]
    refine ⟨rfl, fun wr => ?_, ?_⟩
    · simp [drawList_cons, drawList_nil]
    · simp [vadvList_cons, vadvList_nil]
  · intro a q nel sl el fl ih h
    have hel : noTd el = true := by rw [noTd_array] at h; exact h
    obtain ⟨l4, d4, v4⟩ := ih hel
    rw [elemLeaves_array]
    refine ⟨?_, fun wr => ?_, ?_⟩
    · rw [l4, NumElements_array, Nat.mul_comm]
    · rw [d4, drawTrace_array]
    · rw [v4, vadv_array]
  · intro sn q fs fl ih h
    have hfs : noTdList fs = true := by rw [noTd_struct] at h; exact h
    obtain ⟨l2, d2, v2⟩ := ih hfs
    rw [elemLeaves_struct]
    refine ⟨?_, fun wr => ?_, ?_⟩
    · rw [l2, NumElements_struct]
    · rw [d2, drawTrace_struct]
    · rw [v2, vadv_struct]
  · intro a q a2 q2 n sl el f2 fl ih h
    rw [noTd_typedef] at h
    exact absurd h (by simp)
  · intro a q sn q2 fs f2 fl ih h
    rw [noTd_typedef] at h
    exact absurd h (by simp)
  · intro a q t fl h1 h2 h
    rw [noTd_typedef] at h
    exact absurd h (by simp)
  · intro h
    rw [elemLeavesFields_nil]
    refine ⟨by rw [numElementsList_nil]; rfl, fun wr => ?_, ?_⟩
    · rw [drawList_nil]
    · rw [vadvList_nil]
  · intro p ps ih3 ih2 h
    rw [noTdList_cons, Bool.and_eq_true] at h
    obtain ⟨l3, d3, v3⟩ := ih3 h.1
    obtain ⟨l2, d2, v2⟩ := ih2 h.2
    rw [elemLeavesFields_cons]
    refine ⟨?_, fun wr => ?_, ?_⟩
    · rw [List.length_append, l3, l2, numElementsList_cons]
    · rw [drawList_append, d3, d2, drawList_cons]
    · rw [vadvList_append, v3, v2, vadvList_cons]
  · intro q hq h
    have h1 : q.NumElements = 1 := by simpa using hq
    rw [elemLeavesCut_eq, if_pos hq]
    refine ⟨by rw [h1]; rfl, fun wr => ?_, ?_⟩
    · simp [drawList_cons, drawList_nil]
    · simp [vadvList_cons, vadvList_nil]
  · intro q hq ih h
    rw [elemLeavesCut_eq, if_neg hq]
    exact ih h
  · intro el h
    rw [elemLeavesRep_zero]
    refine ⟨by rw [Nat.zero_mul]; rfl, fun wr => ?_, ?_⟩
    · rw [drawList_nil, drawRepeat_zero]
    · rw [vadvList_nil, Nat.zero_mul]
  · intro el n ih3 ih4 h
    obtain ⟨l3, d3, v3⟩ := ih3 h
    obtain ⟨l4, d4, v4⟩ := ih4 h
    rw [elemLeavesRep_succ]
    refine ⟨?_, fun wr => ?_, ?_⟩
    · rw [List.length_append, l3, l4, Nat.succ_mul]
      omega
    · rw [drawList_append, d3, d4, drawRepeat_succ]
    · rw [vadvList_append, v3, v4, Nat.succ_mul]
      omega


/-! ## Cut characterization and tdOK corollaries -/

theorem elemLeavesCut_char (q : Parm) (h : noTd q = true) :
    (elemLeavesCut q).length = q.NumElements ∧
    (∀ wr, drawList (elemLeavesCut q) wr = drawTrace q wr) ∧
    vadvList (elemLeavesCut q) = vadv q := by
  by_cases h1 : (q.NumElements == 1) = true
  · rw [elemLeavesCut_eq, if_pos h1]
    have he : q.NumElements = 1 := by simpa using h1
    refine ⟨by rw [he]; rfl, fun wr => ?_, ?_⟩
    · simp [drawList_cons, drawList_nil]
    · simp [vadvList_cons, vadvList_nil]
  · rw [elemLeavesCut_eq, if_neg h1]
    exact elemLeaves_noTd_char q h

theorem tdOK_of_noTd (p : Parm) (h : noTd p = true) : tdOK p = true := by
  cases p with
  | typedefparm a q t fl => rw [noTd_typedef] at h; exact absurd h (by simp)
  | numparm tag w ctl fl => exact h
  | stringparm fl => exact h
  | pointerparm tp fl => exact h
  | arrayparm a q n sl el fl => exact h
  | structparm sn q fs fl => exact h
  | mapparm a q k kt vt fl => exact h

theorem elemLeaves_tdOK_char (p : Parm) (h : tdOK p = true) :
    (elemLeaves p).length = p.NumElements ∧
    (∀ wr, drawList (elemLeaves p) wr = drawTrace p wr) ∧
    vadvList (elemLeaves p) = vadv p := by
  cases p with
  | typedefparm a q t fl =>
      have ht : noTd t = true := h
      cases t with
      | arrayparm a2 q2 n sl el f2 =>
          obtain ⟨l1, d1, v1⟩ :=
            elemLeaves_noTd_char (.arrayparm a2 q2 n sl el f2) ht
          rw [elemLeaves_td_array]
          refine ⟨?_, fun wr => ?_, ?_⟩
          · rw [l1, NumElements_typedef]
          · rw [d1 wr, drawTrace_typedef]
          · rw [v1, vadv_typedef]
      | structparm sn q2 fs f2 =>
          obtain ⟨l1, d1, v1⟩ :=
            elemLeaves_noTd_char (.structparm sn q2 fs f2) ht
          rw [elemLeaves_td_struct]
          refine ⟨?_, fun wr => ?_, ?_⟩
          · rw [l1, NumElements_typedef]
          · rw [d1 wr, drawTrace_typedef]
          · rw [v1, vadv_typedef]
      | typedefparm a2 q2 t2 f2 =>
          rw [noTd_typedef] at ht
          exact absurd ht (by simp)
      | numparm tag w ctl f2 =>
          simp only [elemLeaves]
          refine ⟨rfl, fun wr => ?_, ?_⟩
          · simp [NumElements_num, drawList_cons, drawList_nil, List.replicate]
          · simp [NumElements_num, vadvList_cons, vadvList_nil, List.replicate]
      | stringparm f2 =>
          simp only [elemLeaves]
          refine ⟨rfl, fun wr => ?_, ?_⟩
          · simp [NumElements_string, drawList_cons, drawList_nil, List.replicate]
          · simp [NumElements_string, vadvList_cons, vadvList_nil, List.replicate]
      | pointerparm tp f2 =>
          simp only [elemLeaves]
          refine ⟨rfl, fun wr => ?_, ?_⟩
          · simp [NumElements_ptr, drawList_cons, drawList_nil, List.replicate]
          · simp [NumElements_ptr, vadvList_cons, vadvList_nil, List.replicate]
      | mapparm a2 q2 k2 kt vt f2 =>
          simp only [elemLeaves]
          refine ⟨rfl, fun wr => ?_, ?_⟩
          · simp [NumElements_map, drawList_cons, drawList_nil, List.replicate]
          · simp [NumElements_map, vadvList_cons, vadvList_nil, List.replicate]
  | numparm tag w ctl fl => exact elemLeaves_noTd_char _ h
  | stringparm fl => exact elemLeaves_noTd_char _ h
  | pointerparm tp fl => exact elemLeaves_noTd_char _ h
  | arrayparm a q n sl el fl => exact elemLeaves_noTd_char _ h
  | structparm sn q fs fl => exact elemLeaves_noTd_char _ h
  | mapparm a q k kt vt fl => exact elemLeaves_noTd_char _ h

/-! ## Indexed access into the leaf lists -/

theorem replicate_getD (n : Nat) (a : Parm) (d : Parm) :
    ∀ i, i < n → (List.replicate n a).getD i d = a := by
  induction n with
  | zero => intro i hi; exact absurd hi (Nat.not_lt_zero i)
  | succ m ih =>
      intro i hi
      rw [List.replicate_succ]
      cases i with
      | zero => rfl
      | succ j =>
          have : j < m := by omega
          simpa using ih j this

theorem elemLeavesRep_replicate (n : Nat) (el : Parm)
    (h : (el.NumElements == 1) = true) :
    elemLeavesRep n el = List.replicate n el := by
  induction n with
  | zero => rw [elemLeavesRep_zero]; rfl
  | succ m ih =>
      rw [elemLeavesRep_succ, elemLeavesCut_eq, if_pos h, ih,
        List.replicate_succ]
      rfl

theorem elemLeavesRep_getD (el : Parm) (d : Parm)
    (hne1 : ¬((el.NumElements == 1) = true))
    (hlen : (elemLeaves el).length = el.NumElements) :
    ∀ (n i : Nat), i < n * el.NumElements →
      (elemLeavesRep n el).getD i d =
        (elemLeaves el).getD (i % el.NumElements) d := by
  intro n
  induction n with
  | zero =>
      intro i hi
      rw [Nat.zero_mul] at hi
      exact absurd hi (Nat.not_lt_zero i)
  | succ m ih =>
      intro i hi
      rw [Nat.succ_mul] at hi
      rw [elemLeavesRep_succ, elemLeavesCut_eq, if_neg hne1]
      by_cases hlt : i < el.NumElements
      · rw [List.getD_append _ _ _ _ (by rw [hlen]; exact hlt),
          Nat.mod_eq_of_lt hlt]
      · have hge : el.NumElements ≤ i := Nat.le_of_not_lt hlt
        rw [List.getD_append_right _ _ _ _ (by rw [hlen]; exact hge), hlen]
        rw [ih (i - el.NumElements) (by omega)]
        rw [← Nat.mod_eq_sub_mod hge]


/-! ## GenElemRef agrees with the leaf list -/

theorem GenElemRef_get :
    ∀ (p : Parm) (elidx : Nat) (path : String), noTd p = true →
      elidx < p.NumElements → ∀ d : Parm,
      (p.GenElemRef elidx path).2 = (elemLeaves p).getD elidx d := by
  refine Parm.GenElemRef.induct
    (fun p elidx path => noTd p = true → elidx < p.NumElements →
      ∀ d : Parm, (p.GenElemRef elidx path).2 = (elemLeaves p).getD elidx d)
    (fun orig fs fi ct elidx path pblank => noTdList fs = true →
      ct ≤ elidx → elidx < ct + Parm.numElementsList fs → ∀ d : Parm,
      (structElemWalk orig fs fi ct elidx path pblank).2 =
        (elemLeavesFields fs).getD (elidx - ct) d)
    ?_ ?_ ?_ ?_ ?_ ?_ ?_ ?_ ?_ ?_ ?_ ?_ ?_ ?_ ?_ ?_
  · intro elidx path tag w ctl fl h hb d
    rw [NumElements_num] at hb
    have h0 : elidx = 0 := by omega
    subst h0
    rw [Parm.GenElemRef, elemLeaves_num]
    rfl
  · intro elidx path fl h hb d
    rw [NumElements_string] at hb
    have h0 : elidx = 0 := by omega
    subst h0
    rw [Parm.GenElemRef, elemLeaves_string]
    rfl
  · intro elidx path tp fl h hb d
    rw [NumElements_ptr] at hb
    have h0 : elidx = 0 := by omega
    subst h0
    rw [Parm.GenElemRef, elemLeaves_ptr]
    rfl
  · intro elidx path a q k kt vt fl h hb d
    rw [NumElements_map] at hb
    have h0 : elidx = 0 := by omega
    subst h0
    rw [Parm.GenElemRef, elemLeaves_map]
    rfl
  · intro elidx path a q nel sl el fl ene hcond h hb d
    have hee : ene = el.NumElements := rfl
    rw [hee] at hcond
    have he : el.NumElements = 0 := by simpa using hcond
    rw [NumElements_array, he, Nat.zero_mul] at hb
    exact absurd hb (Nat.not_lt_zero _)
  · intro elidx path a q nel sl el fl ene hne0 hne1 h hb d
    have hee : ene = el.NumElements := rfl
    rw [hee] at hne0 hne1
    have he : el.NumElements = 1 := by simpa using hne1
    rw [NumElements_array, he, Nat.one_mul] at hb
    rw [Parm.GenElemRef, elemLeaves_array, elemLeavesRep_replicate nel el hne1]
    rw [Bool.not_eq_true] at hne0
    simp only [hne0, hne1, Bool.false_eq_true, if_false, if_true]
    rw [replicate_getD nel _ d elidx hb]
  · intro elidx path a q nel sl el fl ene hne0 slot hne1 ppath ih h hb d
    have hee : ene = el.NumElements := rfl
    have hsl : slot = elidx / el.NumElements := by rw [← hee]
    rw [hee] at hne0 hne1
    have hel : noTd el = true := by rw [noTd_array] at h; exact h
    have hpos : 0 < el.NumElements := Nat.pos_of_ne_zero (by simpa using hne0)
    obtain ⟨hlen, hdw, hvv⟩ := elemLeaves_noTd_char el hel
    have hmod : elidx - elidx / el.NumElements * el.NumElements =
        elidx % el.NumElements := by
      rw [Nat.mod_def, Nat.mul_comm]
    rw [Parm.GenElemRef, elemLeaves_array]
    rw [Bool.not_eq_true] at hne0 hne1
    simp only [hne0, hne1, Bool.false_eq_true, if_false]
    rw [ih hel (by rw [hmod]; exact Nat.mod_lt _ hpos) d]
    rw [hmod]
    rw [NumElements_array] at hb
    rw [elemLeavesRep_getD el d (by simp [hne1]) hlen nel elidx
      (by rw [Nat.mul_comm]; exact hb)]
  · intro elidx path sn q fs fl ihW h hb d
    have hfs : noTdList fs = true := by rw [noTd_struct] at h; exact h
    rw [NumElements_struct] at hb
    rw [Parm.GenElemRef, elemLeaves_struct]
    have := ihW hfs (Nat.zero_le elidx) (by omega) d
    rw [Nat.sub_zero] at this
    exact this
  · intro elidx path a q fl a2 q2 n sl el f2 ih h hb d
    rw [noTd_typedef] at h
    exact absurd h (by simp)
  · intro elidx path a q fl sn q2 fs f2 ih h hb d
    rw [noTd_typedef] at h
    exact absurd h (by simp)
  · intro elidx path a q t fl hna hns ih h hb d
    rw [noTd_typedef] at h
    exact absurd h (by simp)
  · intro orig fi ct elidx path pblank h hle hb d
    rw [numElementsList_nil] at hb
    omega
  · intro orig fi ct elidx path pblank p ps fne hcond ihW h hle hb d
    have hfe : fne = p.NumElements := rfl
    rw [hfe] at hcond
    rw [noTdList_cons, Bool.and_eq_true] at h
    have hc : elidx = ct ∧ p.NumElements = 0 := by simpa using hcond
    rw [structElemWalk]
    simp only [hcond, if_true]
    rw [numElementsList_cons] at hb
    rw [ihW h.2 hle (by omega) d]
    rw [elemLeavesFields_cons]
    have hcut : elemLeavesCut p = [] := by
      have := (elemLeavesCut_char p h.1).1
      rw [hc.2] at this
      exact List.length_eq_zero.mp this
    rw [hcut, List.nil_append]
  · intro orig fi ct elidx path pblank p ps fne hc1 hc2 h hle hb d
    have hfe : fne = p.NumElements := rfl
    rw [hfe] at hc1 hc2
    have hc : p.NumElements = 1 ∧ elidx = ct := by simpa using hc2
    rw [structElemWalk]
    rw [Bool.not_eq_true] at hc1
    simp only [hc1, hc2, Bool.false_eq_true, if_false, if_true]
    rw [elemLeavesFields_cons, elemLeavesCut_eq,
      if_pos (show (p.NumElements == 1) = true by simp [hc.1])]
    rw [hc.2, Nat.sub_self]
    rfl
  · intro orig fi ct elidx path pblank p ps fne hc1 hc2 hc3 ppath ih h hle hb d
    have hfe : fne = p.NumElements := rfl
    rw [hfe] at hc1 hc2 hc3
    rw [noTdList_cons, Bool.and_eq_true] at h
    have hr : (1 < p.NumElements ∧ ct ≤ elidx) ∧ elidx < ct + p.NumElements := by
      simpa using hc3
    obtain ⟨hlenp, hdp, hvp⟩ := elemLeaves_noTd_char p h.1
    rw [structElemWalk]
    rw [Bool.not_eq_true] at hc1 hc2
    simp only [hc1, hc2, hc3, Bool.false_eq_true, if_false, if_true]
    rw [ih h.1 (by omega) d]
    rw [elemLeavesFields_cons, elemLeavesCut_eq,
      if_neg (show ¬((p.NumElements == 1) = true) by simp; omega)]
    rw [List.getD_append _ _ _ _ (by rw [hlenp]; omega)]
  · intro orig fi ct elidx path pblank p ps fne hc1 hc2 hc3 ihW h hle hb d
    have hfe : fne = p.NumElements := rfl
    rw [hfe] at hc1 hc2 hc3
    rw [noTdList_cons, Bool.and_eq_true] at h
    have ha1 : ¬(elidx = ct ∧ p.NumElements = 0) := by
      intro hx
      apply hc1
      simp [hx.1, hx.2]
    have ha2 : ¬(p.NumElements = 1 ∧ elidx = ct) := by
      intro hx
      apply hc2
      simp [hx.1, hx.2]
    have ha3 : ¬(1 < p.NumElements ∧ ct ≤ elidx ∧ elidx < ct + p.NumElements) := by
      intro hx
      apply hc3
      simp [hx.1, hx.2.1, hx.2.2]
    have hge : ct + p.NumElements ≤ elidx := by omega
    rw [numElementsList_cons] at hb
    rw [structElemWalk]
    rw [Bool.not_eq_true] at hc1 hc2 hc3
    simp only [hc1, hc2, hc3, Bool.false_eq_true, if_false]
    rw [ihW h.2 hge (by omega) d]
    rw [elemLeavesFields_cons]
    rw [List.getD_append_right _ _ _ _ (by rw [(elemLeavesCut_char p h.1).1]; omega),
      (elemLeavesCut_char p h.1).1]
    congr 1
    omega


/-! ## regAgree and onlyRegs basics -/

theorem regAgree_refl (s : genstate) : regAgree s s :=
  ⟨fun _ h => h, fun _ h => h, fun _ h => h, fun _ h => h, fun _ h => h⟩

theorem regAgree_trans {s1 s2 s3 : genstate}
    (h12 : regAgree s1 s2) (h23 : regAgree s2 s3) : regAgree s1 s3 := by
  obtain ⟨d12, a12, l12, g12, v12⟩ := h12
  obtain ⟨d23, a23, l23, g23, v23⟩ := h23
  exact ⟨fun m h => d23 m (d12 m h), fun m h => a23 m (a12 m h),
    fun m h => l23 m (l12 m h), fun m h => g23 m (g12 m h),
    fun m h => v23 m (v12 m h)⟩

theorem emitAgree_regAgree {s s' : genstate} (h : emitAgree s s') :
    regAgree s s' :=
  ⟨h.2.1, h.2.2.1, h.2.2.2.1, h.2.2.2.2.1, h.2.2.2.2.2⟩

theorem valSeq_nil (v : Nat) : valSeq [] v = [] := rfl

theorem valSeq_cons (p : Parm) (ps : List Parm) (v : Nat) :
    valSeq (p :: ps) v =
      (if p.IsControl then v else v + vadv p) ::
        valSeq ps (if p.IsControl then v else v + vadv p) := rfl

theorem valEnd_nil (v : Nat) : valEnd [] v = v := rfl

theorem valEnd_cons (p : Parm) (ps : List Parm) (v : Nat) :
    valEnd (p :: ps) v = valEnd ps (if p.IsControl then v else v + vadv p) := rfl

theorem getD_middle (pre : List Nat) (x : Nat) (tail : List Nat) :
    (pre ++ x :: tail).getD pre.length 0 = x := by
  rw [List.getD_append_right _ _ _ _ (Nat.le_refl _), Nat.sub_self]
  rfl

/-! ## tdOK version of the element-reference lemma -/

theorem GenElemRef_get_tdOK (p : Parm) (h : tdOK p = true) (elidx : Nat)
    (path : String) (hb : elidx < p.NumElements) (d : Parm) :
    (p.GenElemRef elidx path).2 = (elemLeaves p).getD elidx d := by
  cases p with
  | typedefparm a q t fl =>
      have ht : noTd t = true := h
      rw [NumElements_typedef] at hb
      cases t with
      | arrayparm a2 q2 n sl el f2 =>
          rw [Parm.GenElemRef, elemLeaves_td_array]
          exact GenElemRef_get _ elidx path ht hb d
      | structparm sn q2 fs f2 =>
          rw [Parm.GenElemRef, elemLeaves_td_struct]
          exact GenElemRef_get _ elidx path ht hb d
      | typedefparm a2 q2 t2 f2 =>
          rw [noTd_typedef] at ht
          exact absurd ht (by simp)
      | numparm tag w ctl f2 =>
          rw [Parm.GenElemRef]
          · simp only [elemLeaves]
            rw [replicate_getD _ _ d elidx hb]
          · intros a1 a2 a3 a4 a5 a6 hx
            exact absurd hx (by simp)
          · intros a1 a2 a3 a4 hx
            exact absurd hx (by simp)
      | stringparm f2 =>
          rw [Parm.GenElemRef]
          · simp only [elemLeaves]
            rw [replicate_getD _ _ d elidx hb]
          · intros a1 a2 a3 a4 a5 a6 hx
            exact absurd hx (by simp)
          · intros a1 a2 a3 a4 hx
            exact absurd hx (by simp)
      | pointerparm tp f2 =>
          rw [Parm.GenElemRef]
          · simp only [elemLeaves]
            rw [replicate_getD _ _ d elidx hb]
          · intros a1 a2 a3 a4 a5 a6 hx
            exact absurd hx (by simp)
          · intros a1 a2 a3 a4 hx
            exact absurd hx (by simp)
      | mapparm a2 q2 k2 kt vt f2 =>
          rw [Parm.GenElemRef]
          · simp only [elemLeaves]
            rw [replicate_getD _ _ d elidx hb]
          · intros a1 a2 a3 a4 a5 a6 hx
            exact absurd hx (by simp)
          · intros a1 a2 a3 a4 hx
            exact absurd hx (by simp)
  | numparm tag w ctl fl => exact GenElemRef_get _ elidx path h hb d
  | stringparm fl => exact GenElemRef_get _ elidx path h hb d
  | pointerparm tp fl => exact GenElemRef_get _ elidx path h hb d
  | arrayparm a q n sl el fl => exact GenElemRef_get _ elidx path h hb d
  | structparm sn q fs fl => exact GenElemRef_get _ elidx path h hb d
  | mapparm a q k kt vt fl => exact GenElemRef_get _ elidx path h hb d

/-! ## Leaf-walk loops of the checker -/

theorem drawList_drop_step (L : List Parm) (i : Nat) (h : i < L.length)
    (wr : wraprand) (d : Parm) :
    drawList (L.drop i) wr = drawList (L.drop (i + 1)) (drawTrace (L.getD i d) wr) := by
  rw [List.drop_eq_getElem_cons h, drawList_cons, List.getD_eq_getElem L d h]

theorem vadvList_drop_step (L : List Parm) (i : Nat) (h : i < L.length)
    (d : Parm) :
    vadvList (L.drop i) = vadv (L.getD i d) + vadvList (L.drop (i + 1)) := by
  rw [List.drop_eq_getElem_cons h, vadvList_cons, List.getD_eq_getElem L d h]

theorem paramElemLoop_char (f : funcdef) (p : Parm) (pi : Nat)
    (htd : tdOK p = true) :
    ∀ (k i : Nat), i + k = p.NumElements →
    ∀ (cel : Nat) (s : genstate) (v : Nat) (b : List String),
    emitAgree s (s.paramElemLoop f p pi i p.NumElements cel v b).2.2 ∧
    (s.paramElemLoop f p pi i p.NumElements cel v b).2.2.wr =
      drawList ((elemLeaves p).drop i) s.wr ∧
    (s.paramElemLoop f p pi i p.NumElements cel v b).2.1 =
      v + vadvList ((elemLeaves p).drop i) := by
  obtain ⟨hlen, hdw, hvv⟩ := elemLeaves_tdOK_char p htd
  intro k
  induction k with
  | zero =>
      intro i hi cel s v b
      rw [genstate.paramElemLoop, if_pos (by omega : i ≥ p.NumElements)]
      have hdrop : (elemLeaves p).drop i = [] :=
        List.drop_eq_nil_of_le (by rw [hlen]; omega)
      rw [hdrop]
      exact ⟨emitAgree_refl s, by rw [drawList_nil], by simp [vadvList_nil]⟩
  | succ k ih =>
      intro i hi cel s v b
      have hlt : i < p.NumElements := by omega
      rw [genstate.paramElemLoop, if_neg (by omega : ¬ i ≥ p.NumElements)]
      obtain ⟨pref, s1, hP⟩ : ∃ a b', s.genParamRef p pi = (a, b') := ⟨_, _, rfl⟩
      obtain ⟨pa, pw⟩ := genParamRef_char s p pi
      simp only [hP] at pa pw
      obtain ⟨elref, elparm, hE⟩ : ∃ a b', p.GenElemRef i pref = (a, b') :=
        ⟨_, _, rfl⟩
      obtain ⟨valstr, v2, s2, hG⟩ :
          ∃ a b' c', s1.GenValue f elparm v false = (a, b', c') :=
        ⟨_, _, _, rfl⟩
      obtain ⟨ga, gw, gv⟩ := GenValue_char s1 f elparm v false
      simp only [hG] at ga gw gv
      have help : elparm = (elemLeaves p).getD i (Parm.stringparm {}) := by
        have h1 : elparm = (p.GenElemRef i pref).2 := by rw [hE]
        rw [h1]
        exact GenElemRef_get_tdOK p htd i pref hlt _
      have hs2w : s2.wr = drawTrace ((elemLeaves p).getD i (Parm.stringparm {})) s.wr := by
        rw [gw, pw, help]
      have hv2 : v2 = v + vadv ((elemLeaves p).getD i (Parm.stringparm {})) := by
        rw [gv, help]
      have key : ∀ b' : List String,
          emitAgree s (s2.paramElemLoop f p pi (i + 1) p.NumElements cel v2 b').2.2 ∧
          (s2.paramElemLoop f p pi (i + 1) p.NumElements cel v2 b').2.2.wr =
            drawList ((elemLeaves p).drop i) s.wr ∧
          (s2.paramElemLoop f p pi (i + 1) p.NumElements cel v2 b').2.1 =
            v + vadvList ((elemLeaves p).drop i) := by
        intro b'
        obtain ⟨ka, kw, kv⟩ := ih (i + 1) (by omega) cel s2 v2 b'
        refine ⟨emitAgree_trans pa (emitAgree_trans ga ka), ?_, ?_⟩
        · rw [kw, hs2w,
            ← drawList_drop_step _ i (by rw [hlen]; omega) s.wr _]
        · rw [kv, hv2,
            vadvList_drop_step _ i (by rw [hlen]; omega) (Parm.stringparm {})]
          omega
      simp only [hP, hE, hG]
      by_cases hsk : (elref == "" || elref == "_" || cel == 0) = true
      · simp only [hsk, if_true]
        exact key _
      · simp only [hsk, if_false, Bool.false_eq_true]
        by_cases hz : ((genDeref elparm).1.NumElements == 0) = true
        · simp only [hz, if_true]
          exact key _
        · simp only [hz, if_false, Bool.false_eq_true]
          exact key _

theorem rcvrElemLoop_char (f : funcdef) (r : Parm)
    (htd : tdOK r = true) :
    ∀ (k i : Nat), i + k = r.NumElements →
    ∀ (s : genstate) (v : Nat) (b : List String),
    emitAgree s (s.rcvrElemLoop f r i r.NumElements v b).2.2 ∧
    (s.rcvrElemLoop f r i r.NumElements v b).2.2.wr =
      drawList ((elemLeaves r).drop i) s.wr ∧
    (s.rcvrElemLoop f r i r.NumElements v b).2.1 =
      v + vadvList ((elemLeaves r).drop i) := by
  obtain ⟨hlen, hdw, hvv⟩ := elemLeaves_tdOK_char r htd
  intro k
  induction k with
  | zero =>
      intro i hi s v b
      rw [genstate.rcvrElemLoop, if_pos (by omega : i ≥ r.NumElements)]
      have hdrop : (elemLeaves r).drop i = [] :=
        List.drop_eq_nil_of_le (by rw [hlen]; omega)
      rw [hdrop]
      exact ⟨emitAgree_refl s, by rw [drawList_nil], by simp [vadvList_nil]⟩
  | succ k ih =>
      intro i hi s v b
      have hlt : i < r.NumElements := by omega
      rw [genstate.rcvrElemLoop, if_neg (by omega : ¬ i ≥ r.NumElements)]
      obtain ⟨elref, elparm, hE⟩ : ∃ a b', r.GenElemRef i "rcvr" = (a, b') :=
        ⟨_, _, rfl⟩
      obtain ⟨valstr, v2, s2, hG⟩ :
          ∃ a b' c', s.GenValue f elparm v false = (a, b', c') :=
        ⟨_, _, _, rfl⟩
      obtain ⟨ga, gw, gv⟩ := GenValue_char s f elparm v false
      simp only [hG] at ga gw gv
      have help : elparm = (elemLeaves r).getD i (Parm.stringparm {}) := by
        have h1 : elparm = (r.GenElemRef i "rcvr").2 := by rw [hE]
        rw [h1]
        exact GenElemRef_get_tdOK r htd i "rcvr" hlt _
      have hs2w : s2.wr = drawTrace ((elemLeaves r).getD i (Parm.stringparm {})) s.wr := by
        rw [gw, help]
      have hv2 : v2 = v + vadv ((elemLeaves r).getD i (Parm.stringparm {})) := by
        rw [gv, help]
      have key : ∀ b' : List String,
          emitAgree s (s2.rcvrElemLoop f r (i + 1) r.NumElements v2 b').2.2 ∧
          (s2.rcvrElemLoop f r (i + 1) r.NumElements v2 b').2.2.wr =
            drawList ((elemLeaves r).drop i) s.wr ∧
          (s2.rcvrElemLoop f r (i + 1) r.NumElements v2 b').2.1 =
            v + vadvList ((elemLeaves r).drop i) := by
        intro b'
        obtain ⟨ka, kw, kv⟩ := ih (i + 1) (by omega) s2 v2 b'
        refine ⟨emitAgree_trans ga ka, ?_, ?_⟩
        · rw [kw, hs2w,
            ← drawList_drop_step _ i (by rw [hlen]; omega) s.wr _]
        · rw [kv, hv2,
            vadvList_drop_step _ i (by rw [hlen]; omega) (Parm.stringparm {})]
          omega
      simp only [hE, hG]
      by_cases hsk : (elref == "" || elref.startsWith "_" || r.IsBlank) = true
      · simp only [hsk, if_true]
        exact key _
      · simp only [hsk, if_false, Bool.false_eq_true]
        by_cases hz : ((genDeref elparm).1.NumElements == 0) = true
        · simp only [hz, if_true]
          exact key _
        · simp only [hz, if_false, Bool.false_eq_true]
          exact key _


/-! ## Draw-free emitter stages -/

theorem emitRecursiveCallLoop_char (f : funcdef) :
    ∀ (ps : List Parm) (s : genstate) (pi : Nat) (acc : String),
    emitAgree s (s.emitRecursiveCallLoop f ps pi acc).2 ∧
    (s.emitRecursiveCallLoop f ps pi acc).2.wr = s.wr := by
  intro ps
  induction ps with
  | nil =>
      intro s pi acc
      exact ⟨emitAgree_refl s, rfl⟩
  | cons p rest ih =>
      intro s pi acc
      simp only [genstate.emitRecursiveCallLoop]
      obtain ⟨pa, pw⟩ := genParamRef_char s p pi
      by_cases hctl : p.IsControl = true
      · simp only [hctl, if_true]
        obtain ⟨la, lw⟩ := ih (s.genParamRef p pi).2 (pi + 1) _
        exact ⟨emitAgree_trans pa la, by rw [lw, pw]⟩
      · simp only [hctl, if_false, Bool.false_eq_true]
        by_cases hbl : p.IsBlank = true
        · simp only [hbl, if_false, Bool.true_eq_false, Bool.not_true,
            Bool.false_eq_true]
          obtain ⟨la, lw⟩ := ih s (pi + 1) _
          exact ⟨la, lw⟩
        · simp only [hbl, Bool.not_false, if_true, Bool.false_eq_true]
          obtain ⟨la, lw⟩ := ih (s.genParamRef p pi).2 (pi + 1) _
          exact ⟨emitAgree_trans pa la, by rw [lw, pw]⟩

theorem emitRecursiveCall_char (s : genstate) (f : funcdef) :
    emitAgree s (s.emitRecursiveCall f).2 ∧
    (s.emitRecursiveCall f).2.wr = s.wr := by
  unfold genstate.emitRecursiveCall
  obtain ⟨la, lw⟩ := emitRecursiveCallLoop_char f f.params s 0 ""
  exact ⟨la, lw⟩

theorem emitReturnIndirectLoop_char (s0 : genstate) :
    ∀ (rs : List Parm) (s : genstate) (ri : Nat) (doRec : Bool)
      (b : List String),
    emitAgree s (s.emitReturnIndirectLoop rs ri doRec b).2 ∧
    (s.emitReturnIndirectLoop rs ri doRec b).2.wr = s.wr := by
  intro rs
  induction rs with
  | nil =>
      intro s ri doRec b
      exact ⟨emitAgree_refl s, rfl⟩
  | cons r rest ih =>
      intro s ri doRec b
      simp only [genstate.emitReturnIndirectLoop]
      obtain ⟨ra, rw_⟩ := genReturnAssign_char s b r ri (retvalName doRec ri)
      obtain ⟨la, lw⟩ := ih (s.genReturnAssign b r ri (retvalName doRec ri)).2
        (ri + 1) doRec _
      exact ⟨emitAgree_trans ra la, by rw [lw, rw_]⟩

theorem emitReturn_char (s : genstate) (f : funcdef) (b : List String)
    (doRec : Bool) :
    emitAgree s (s.emitReturn f b doRec).2 ∧
    (s.emitReturn f b doRec).2.wr = s.wr := by
  unfold genstate.emitReturn
  by_cases hdr : doRec = true
  · simp only [hdr, if_true]
    obtain ⟨ca, cw⟩ := emitRecursiveCall_char
      ({ s with wr := s.wr } : genstate) f
    by_cases hind : (f.returns.any (fun r => r.AddrTaken != notAddrTaken)) = true
    · simp only [hind, if_true]
      obtain ⟨ca2, cw2⟩ := emitRecursiveCall_char
        (if s.sforce then s else s) f
      obtain ⟨ca3, cw3⟩ := emitRecursiveCall_char s f
      obtain ⟨la, lw⟩ := emitReturnIndirectLoop_char s f.returns
        (s.emitRecursiveCall f).2 0 true _
      exact ⟨emitAgree_trans ca3 la, by rw [lw, cw3]⟩
    · simp only [hind, if_false, Bool.false_eq_true]
      obtain ⟨ca3, cw3⟩ := emitRecursiveCall_char s f
      by_cases hz : (f.returns.length == 0) = true
      · simp only [hz, if_true]
        exact ⟨ca3, cw3⟩
      · simp only [hz, if_false, Bool.false_eq_true]
        exact ⟨ca3, cw3⟩
  · simp only [hdr, if_false, Bool.false_eq_true]
    by_cases hind : (f.returns.any (fun r => r.AddrTaken != notAddrTaken)) = true
    · simp only [hind, if_true]
      obtain ⟨la, lw⟩ := emitReturnIndirectLoop_char s f.returns s 0 false b
      exact ⟨la, lw⟩
    · simp only [hind, if_false, Bool.false_eq_true]
      exact ⟨emitAgree_refl s, by trivial⟩

theorem deferElemLoop_char (f : funcdef) (p : Parm) (pi : Nat) :
    ∀ (k i numel cel : Nat), numel ≤ i + k →
    ∀ (s : genstate) (b : List String),
    emitAgree s (s.deferElemLoop f p pi i numel cel b).2 ∧
    (s.deferElemLoop f p pi i numel cel b).2.wr = s.wr := by
  intro k
  induction k with
  | zero =>
      intro i numel cel hk s b
      rw [genstate.deferElemLoop, if_pos (by omega : i ≥ numel)]
      exact ⟨emitAgree_refl s, rfl⟩
  | succ k ih =>
      intro i numel cel hk s b
      by_cases hge : i ≥ numel
      · rw [genstate.deferElemLoop, if_pos hge]
        exact ⟨emitAgree_refl s, rfl⟩
      · rw [genstate.deferElemLoop, if_neg hge]
        obtain ⟨pref, s1, hP⟩ : ∃ a b', s.genParamRef p pi = (a, b') :=
          ⟨_, _, rfl⟩
        obtain ⟨pa, pw⟩ := genParamRef_char s p pi
        simp only [hP] at pa pw
        simp only [hP]
        have key : ∀ b' : List String,
            emitAgree s (s1.deferElemLoop f p pi (i + 1) numel cel b').2 ∧
            (s1.deferElemLoop f p pi (i + 1) numel cel b').2.wr = s.wr := by
          intro b'
          obtain ⟨la, lw⟩ := ih (i + 1) numel cel (by omega) s1 b'
          exact ⟨emitAgree_trans pa la, by rw [lw, pw]⟩
        by_cases hsk : (((p.GenElemRef i pref).1 == "" ||
            (p.GenElemRef i pref).1 == "_" || cel == 0)) = true
        · simp only [hsk, if_true]
          exact key _
        · simp only [hsk, if_false, Bool.false_eq_true]
          by_cases hz : ((genDeref (p.GenElemRef i pref).2).1.NumElements == 0) = true
          · simp only [hz, if_true]
            exact key _
          · simp only [hz, if_false, Bool.false_eq_true]
            exact key _

theorem deferChecksLoop_char (f : funcdef) :
    ∀ (ps : List Parm) (dodefp : List Nat) (s : genstate) (pi : Nat)
      (b : List String),
    emitAgree s (s.deferChecksLoop f ps dodefp pi b).2 ∧
    (s.deferChecksLoop f ps dodefp pi b).2.wr = s.wr := by
  intro ps
  induction ps with
  | nil =>
      intro dodefp s pi b
      exact ⟨emitAgree_refl s, rfl⟩
  | cons p rest ih =>
      intro dodefp s pi b
      simp only [genstate.deferChecksLoop]
      by_cases hcb : (p.IsControl || p.IsBlank) = true
      · simp only [hcb, if_true]
        exact ih dodefp s (pi + 1) b
      · simp only [hcb, if_false, Bool.false_eq_true]
        obtain ⟨ea, ew⟩ := deferElemLoop_char f p pi p.NumElements 0
          p.NumElements (checkableElements p) (by omega) s _
        obtain ⟨la, lw⟩ := ih dodefp
          (s.deferElemLoop f p pi 0 p.NumElements (checkableElements p) _).2
          (pi + 1) _
        exact ⟨emitAgree_trans ea la, by rw [lw, ew]⟩

theorem emitDeferChecks_char (s : genstate) (f : funcdef) (pidx v : Nat)
    (b : List String) :
    emitAgree s (s.emitDeferChecks f pidx v b).2.2 ∧
    (s.emitDeferChecks f pidx v b).2.2.wr = s.wr := by
  unfold genstate.emitDeferChecks
  by_cases hz : (f.params.length == 0) = true
  · simp only [hz, if_true]
    exact ⟨emitAgree_refl s, by trivial⟩
  · simp only [hz, if_false, Bool.false_eq_true]
    obtain ⟨la, lw⟩ := deferChecksLoop_char f f.params f.dodefp s 0 _
    exact ⟨la, lw⟩

theorem addrPrepLoop_char (n : String) :
    ∀ (lst : List Parm) (s : genstate) (pi count : Nat) (b : List String),
    emitAgree s (s.addrPrepLoop lst n pi count b).2.2 ∧
    (s.addrPrepLoop lst n pi count b).2.2.wr = s.wr := by
  intro lst
  induction lst with
  | nil =>
      intro s pi count b
      exact ⟨emitAgree_refl s, rfl⟩
  | cons p rest ih =>
      intro s pi count b
      simp only [genstate.addrPrepLoop]
      by_cases hna : (p.AddrTaken == notAddrTaken) = true
      · simp only [hna, if_true]
        exact ih s (pi + 1) count b
      · simp only [hna, if_false, Bool.false_eq_true]
        obtain ⟨ga, gw⟩ := genGlobVar_char s p
        by_cases hh : (p.AddrTaken == addrTakenHeap) = true
        · simp only [hh, if_true]
          obtain ⟨la, lw⟩ := ih (s.genGlobVar p).2 (pi + 1) (count + 1) _
          exact ⟨emitAgree_trans ga la, by rw [lw, gw]⟩
        · simp only [hh, if_false, Bool.false_eq_true]
          obtain ⟨la, lw⟩ := ih s (pi + 1) (count + 1) _
          exact ⟨la, lw⟩


/-! ## The checker parameter pass -/

theorem paramsDraws_nil (wr : wraprand) : paramsDraws [] wr = wr := rfl

theorem paramsDraws_cons (p : Parm) (rest : List Parm) (wr : wraprand) :
    paramsDraws (p :: rest) wr =
      paramsDraws rest
        (if p.IsControl then (wr.Intn 100).2
         else drawTrace p (wr.Intn 100).2) := rfl

theorem regAgree_wrset (s : genstate) (w : wraprand) :
    regAgree s { s with wr := w } :=
  ⟨fun _ h => h, fun _ h => h, fun _ h => h, fun _ h => h, fun _ h => h⟩

theorem regAgree_errsset (s : genstate) (e : Nat) :
    regAgree s { s with errs := e } :=
  ⟨fun _ h => h, fun _ h => h, fun _ h => h, fun _ h => h, fun _ h => h⟩

theorem genParamRef_wr (s : genstate) (p : Parm) (i : Nat) :
    (s.genParamRef p i).2.wr = s.wr := (genParamRef_char s p i).2

theorem genParamRef_errs (s : genstate) (p : Parm) (i : Nat) :
    (s.genParamRef p i).2.errs = s.errs := (genParamRef_char s p i).1.1

theorem emitReturn_wr (s : genstate) (f : funcdef) (b : List String)
    (dr : Bool) : (s.emitReturn f b dr).2.wr = s.wr :=
  (emitReturn_char s f b dr).2

theorem emitReturn_errs (s : genstate) (f : funcdef) (b : List String)
    (dr : Bool) : (s.emitReturn f b dr).2.errs = s.errs :=
  (emitReturn_char s f b dr).1.1

theorem GenValue_errs (s : genstate) (f : funcdef) (p : Parm) (v : Nat)
    (c : Bool) : (s.GenValue f p v c).2.2.errs = s.errs :=
  (GenValue_char s f p v c).1.1

theorem paramElemLoop0_char (f : funcdef) (p : Parm) (pi : Nat)
    (htd : tdOK p = true) (cel : Nat) (s : genstate) (v : Nat)
    (b : List String) :
    emitAgree s (s.paramElemLoop f p pi 0 p.NumElements cel v b).2.2 ∧
    (s.paramElemLoop f p pi 0 p.NumElements cel v b).2.2.wr =
      drawTrace p s.wr ∧
    (s.paramElemLoop f p pi 0 p.NumElements cel v b).2.1 = v + vadv p := by
  obtain ⟨ha, hw, hv⟩ :=
    paramElemLoop_char f p pi htd p.NumElements 0 (by omega) cel s v b
  obtain ⟨hlen, hdw, hvv⟩ := elemLeaves_tdOK_char p htd
  refine ⟨ha, ?_, ?_⟩
  · rw [hw, List.drop_zero, hdw]
  · rw [hv, List.drop_zero, hvv]

theorem paramElemLoop0_wr (f : funcdef) (p : Parm) (pi : Nat)
    (htd : tdOK p = true) (cel : Nat) (s : genstate) (v : Nat)
    (b : List String) :
    (s.paramElemLoop f p pi 0 p.NumElements cel v b).2.2.wr =
      drawTrace p s.wr := (paramElemLoop0_char f p pi htd cel s v b).2.1

theorem paramElemLoop0_value (f : funcdef) (p : Parm) (pi : Nat)
    (htd : tdOK p = true) (cel : Nat) (s : genstate) (v : Nat)
    (b : List String) :
    (s.paramElemLoop f p pi 0 p.NumElements cel v b).2.1 = v + vadv p :=
  (paramElemLoop0_char f p pi htd cel s v b).2.2

theorem paramElemLoop0_errs (f : funcdef) (p : Parm) (pi : Nat)
    (htd : tdOK p = true) (cel : Nat) (s : genstate) (v : Nat)
    (b : List String) :
    (s.paramElemLoop f p pi 0 p.NumElements cel v b).2.2.errs = s.errs :=
  (paramElemLoop0_char f p pi htd cel s v b).1.1

set_option maxHeartbeats 2000000 in
theorem emitParamChecksLoop_char (f : funcdef) :
    ∀ (ps : List Parm), (∀ p ∈ ps, tdOK p = true) →
    ∀ (s : genstate) (pi v : Nat) (hcf : Bool) (dang : List Nat)
      (b : List String),
    regAgree s (s.emitParamChecksLoop f ps pi v hcf dang b).2.2.1 ∧
    (s.emitParamChecksLoop f ps pi v hcf dang b).2.2.1.wr =
      paramsDraws ps s.wr ∧
    (s.emitParamChecksLoop f ps pi v hcf dang b).2.1 = valEnd ps v ∧
    (∀ pre suf, f.values = pre ++ (valSeq ps v ++ suf) → pre.length = pi →
      (s.emitParamChecksLoop f ps pi v hcf dang b).2.2.1.errs = s.errs) := by
  intro ps
  induction ps with
  | nil =>
      intro htd s pi v hcf dang b
      simp only [genstate.emitParamChecksLoop]
      exact ⟨regAgree_refl s, by rw [paramsDraws_nil], by rw [valEnd_nil],
        fun pre suf hv hl => by trivial⟩
  | cons p rest ih =>
      intro htd s pi v hcf dang b
      have htdp : tdOK p = true := htd p (by simp)
      have htdr : ∀ q ∈ rest, tdOK q = true :=
        fun q hq => htd q (List.mem_cons_of_mem p hq)
      simp only [genstate.emitParamChecksLoop]
      obtain ⟨d0, s1, hI⟩ : ∃ a b', s.Intn 100 = (a, b') := ⟨_, _, rfl⟩
      have hs1 : s1 = { s with wr := (s.wr.Intn 100).2 } := by
        rw [← genstate_Intn_eta, hI]
      have hs1w : s1.wr = (s.wr.Intn 100).2 := by rw [hs1]
      have hs1r : regAgree s s1 := by rw [hs1]; exact regAgree_wrset s _
      have hs1e : s1.errs = s.errs := by rw [hs1]
      simp only [hI, paramsDraws_cons, valEnd_cons, valSeq_cons]
      have step : ∀ (SB : genstate) (v2 : Nat) (hcf2 : Bool)
          (dang2 : List Nat) (b2 : List String) (W : wraprand) (V : Nat),
          regAgree s SB → SB.wr = W → SB.errs = s.errs → v2 = V →
          regAgree s ((if (v2 != f.values.getD pi 0) = true
              then { SB with errs := SB.errs + 1 } else SB).emitParamChecksLoop
              f rest (pi + 1) v2 hcf2 dang2 b2).2.2.1 ∧
          ((if (v2 != f.values.getD pi 0) = true
              then { SB with errs := SB.errs + 1 } else SB).emitParamChecksLoop
              f rest (pi + 1) v2 hcf2 dang2 b2).2.2.1.wr = paramsDraws rest W ∧
          ((if (v2 != f.values.getD pi 0) = true
              then { SB with errs := SB.errs + 1 } else SB).emitParamChecksLoop
              f rest (pi + 1) v2 hcf2 dang2 b2).2.1 = valEnd rest V ∧
          (∀ pre suf, f.values = pre ++ ((V :: valSeq rest V) ++ suf) →
            pre.length = pi →
            ((if (v2 != f.values.getD pi 0) = true
                then { SB with errs := SB.errs + 1 } else SB).emitParamChecksLoop
                f rest (pi + 1) v2 hcf2 dang2 b2).2.2.1.errs = s.errs) := by
        intro SB v2 hcf2 dang2 b2 W V hr hw he hv2
        subst hv2
        by_cases hchk : (v2 != f.values.getD pi 0) = true
        · simp only [hchk, if_true]
          obtain ⟨ra, rwr, rv, rerrs⟩ :=
            ih htdr { SB with errs := SB.errs + 1 } (pi + 1) v2 hcf2 dang2 b2
          refine ⟨regAgree_trans (regAgree_trans hr (regAgree_errsset SB _)) ra,
            ?_, rv, ?_⟩
          · rw [rwr]
            rw [show ({ SB with errs := SB.errs + 1 } : genstate).wr = SB.wr
              from rfl, hw]
          · intro pre suf hvv hl
            exfalso
            rw [List.cons_append] at hvv
            rw [hvv, ← hl, getD_middle] at hchk
            simp at hchk
        · simp only [hchk, if_false, Bool.false_eq_true]
          obtain ⟨ra, rwr, rv, rerrs⟩ := ih htdr SB (pi + 1) v2 hcf2 dang2 b2
          refine ⟨regAgree_trans hr ra, ?_, rv, ?_⟩
          · rw [rwr, hw]
          · intro pre suf hvv hl
            rw [rerrs (pre ++ [v2]) suf ?hv2c ?hl2c, he]
            case hv2c =>
              rw [hvv]
              simp [List.append_assoc]
            case hl2c =>
              rw [List.length_append, hl]
              rfl
      by_cases hctl : p.IsControl = true
      · simp only [hctl, if_true]
        refine step _ _ _ _ _ _ _ ?_ ?_ ?_ rfl
        · exact regAgree_trans (regAgree_trans hs1r
            (emitAgree_regAgree (genParamRef_char s1 p pi).1))
            (emitAgree_regAgree (emitReturn_char _ f _ false).1)
        · rw [emitReturn_wr, genParamRef_wr, hs1w]
        · rw [emitReturn_errs, genParamRef_errs, hs1e]
      · simp only [hctl, if_false, Bool.false_eq_true]
        by_cases hbl : p.IsBlank = true
        · simp only [hbl, if_true]
          refine step _ _ _ _ _ _ _ ?_ ?_ ?_ ?_
          · exact regAgree_trans hs1r
              (emitAgree_regAgree (GenValue_char s1 f p v false).1)
          · rw [GenValue_wr, hs1w]
          · rw [GenValue_errs, hs1e]
          · exact GenValue_value s1 f p v false
        · simp only [hbl, if_false, Bool.false_eq_true]
          refine step _ _ _ _ _ _ _ ?_ ?_ ?_ ?_
          · exact regAgree_trans hs1r
              (emitAgree_regAgree (paramElemLoop0_char f p pi htdp _ s1 v b).1)
          · rw [paramElemLoop0_wr f p pi htdp, hs1w]
          · rw [paramElemLoop0_errs f p pi htdp]
            exact hs1e
          · exact paramElemLoop0_value f p pi htdp _ s1 v b


theorem emitParamChecksLoop_wr (f : funcdef) (ps : List Parm)
    (htd : ∀ p ∈ ps, tdOK p = true) (s : genstate) (pi v : Nat) (hcf : Bool)
    (dang : List Nat) (b : List String) :
    (s.emitParamChecksLoop f ps pi v hcf dang b).2.2.1.wr =
      paramsDraws ps s.wr :=
  (emitParamChecksLoop_char f ps htd s pi v hcf dang b).2.1

theorem emitParamChecksLoop_agree (f : funcdef) (ps : List Parm)
    (htd : ∀ p ∈ ps, tdOK p = true) (s : genstate) (pi v : Nat) (hcf : Bool)
    (dang : List Nat) (b : List String) :
    regAgree s (s.emitParamChecksLoop f ps pi v hcf dang b).2.2.1 :=
  (emitParamChecksLoop_char f ps htd s pi v hcf dang b).1

theorem rcvrElemLoop0_char (f : funcdef) (r : Parm) (htd : tdOK r = true)
    (s : genstate) (v : Nat) (b : List String) :
    emitAgree s (s.rcvrElemLoop f r 0 r.NumElements v b).2.2 ∧
    (s.rcvrElemLoop f r 0 r.NumElements v b).2.2.wr = drawTrace r s.wr := by
  obtain ⟨ha, hw, hv⟩ :=
    rcvrElemLoop_char f r htd r.NumElements 0 (by omega) s v b
  obtain ⟨hlen, hdw, hvv⟩ := elemLeaves_tdOK_char r htd
  exact ⟨ha, by rw [hw, List.drop_zero, hdw]⟩

theorem rcvrElemLoop0_wr (f : funcdef) (r : Parm) (htd : tdOK r = true)
    (s : genstate) (v : Nat) (b : List String) :
    (s.rcvrElemLoop f r 0 r.NumElements v b).2.2.wr = drawTrace r s.wr :=
  (rcvrElemLoop0_char f r htd s v b).2

theorem rcvrElemLoop0_errs (f : funcdef) (r : Parm) (htd : tdOK r = true)
    (s : genstate) (v : Nat) (b : List String) :
    (s.rcvrElemLoop f r 0 r.NumElements v b).2.2.errs = s.errs :=
  (rcvrElemLoop0_char f r htd s v b).1.1

theorem emitParamChecks_char (s : genstate) (f : funcdef) (pidx v : Nat)
    (b : List String)
    (htd : ∀ p ∈ f.params, tdOK p = true)
    (htr : ∀ r, f.receiver = some r → tdOK r = true) :
    regAgree s (s.emitParamChecks f pidx v b).2.2.1 ∧
    (s.emitParamChecks f pidx v b).2.2.1.wr =
      (if f.method then
        match f.receiver with
        | some r => drawTrace r (paramsDraws f.params s.wr)
        | none => paramsDraws f.params s.wr
       else paramsDraws f.params s.wr) ∧
    (∀ suf, f.values = valSeq f.params v ++ suf →
      (s.emitParamChecks f pidx v b).2.2.1.errs = s.errs) := by
  unfold genstate.emitParamChecks
  by_cases hm : f.method = true
  · cases hrv : f.receiver with
    | some r =>
        have htdr : tdOK r = true := htr r hrv
        simp only [hm, hrv, if_true]
        refine ⟨?_, ?_, ?_⟩
        · exact regAgree_trans
            (emitParamChecksLoop_agree f f.params htd s 0 v false [] _)
            (emitAgree_regAgree (rcvrElemLoop0_char f r htdr _ _ _).1)
        · rw [rcvrElemLoop0_wr f r htdr, emitParamChecksLoop_wr f f.params htd]
        · intro suf hv
          rw [rcvrElemLoop0_errs f r htdr,
            (emitParamChecksLoop_char f f.params htd s 0 v false [] _).2.2.2
              [] suf (by simpa using hv) rfl]
    | none =>
        simp only [hm, hrv, if_true]
        refine ⟨?_, ?_, ?_⟩
        · exact emitParamChecksLoop_agree f f.params htd s 0 v false [] _
        · rw [emitParamChecksLoop_wr f f.params htd]
        · intro suf hv
          exact (emitParamChecksLoop_char f f.params htd s 0 v false [] _).2.2.2
            [] suf (by simpa using hv) rfl
  · simp only [hm, if_false, Bool.false_eq_true]
    refine ⟨?_, ?_, ?_⟩
    · exact emitParamChecksLoop_agree f f.params htd s 0 v false [] _
    · rw [emitParamChecksLoop_wr f f.params htd]
    · intro suf hv
      exact (emitParamChecksLoop_char f f.params htd s 0 v false [] _).2.2.2
        [] suf (by simpa using hv) rfl


/-! ## The helper-flush stage: only the registries change -/

theorem onlyRegs_refl (s : genstate) : onlyRegs s s := rfl

theorem onlyRegs_wr {s s' : genstate} (h : onlyRegs s s') : s'.wr = s.wr := by
  rw [h]

theorem onlyRegs_errs {s s' : genstate} (h : onlyRegs s s') : s'.errs = s.errs := by
  rw [h]

theorem onlyRegs_tunables {s s' : genstate} (h : onlyRegs s s') :
    s'.tunables = s.tunables := by
  rw [h]

theorem onlyRegs_trans {s1 s2 s3 : genstate} (h12 : onlyRegs s1 s2)
    (h23 : onlyRegs s2 s3) : onlyRegs s1 s3 := by
  unfold onlyRegs at h12 h23 ⊢
  rw [h23, h12]

theorem onlyRegs_derefSet (s : genstate) (m : List (String × String)) :
    onlyRegs s { s with derefFuncs := m } := rfl

theorem onlyRegs_assignSet (s : genstate) (m : List (String × String)) :
    onlyRegs s { s with assignFuncs := m } := rfl

theorem onlyRegs_allocSet (s : genstate) (m : List (String × String)) :
    onlyRegs s { s with allocFuncs := m } := rfl

theorem onlyRegs_genvalSet (s : genstate) (m : List (String × String)) :
    onlyRegs s { s with genvalFuncs := m } := rfl

theorem onlyRegs_globSet (s : genstate) (m : List (String × String)) :
    onlyRegs s { s with globVars := m } := rfl

theorem onlyRegs_newDerefSet (s : genstate) (l : List funcdesc) :
    onlyRegs s { s with newDerefFuncs := l } := rfl

theorem onlyRegs_newAssignSet (s : genstate) (l : List funcdesc) :
    onlyRegs s { s with newAssignFuncs := l } := rfl

theorem onlyRegs_newAllocSet (s : genstate) (l : List funcdesc) :
    onlyRegs s { s with newAllocFuncs := l } := rfl

theorem onlyRegs_newGenvalSet (s : genstate) (l : List funcdesc) :
    onlyRegs s { s with newGenvalFuncs := l } := rfl

theorem onlyRegs_newGlobSet (s : genstate) (l : List funcdesc) :
    onlyRegs s { s with newGlobVars := l } := rfl

theorem emitDerefFuncsLoop_onlyRegs (fds : List funcdesc) :
    ∀ (emit : Bool) (s : genstate) (b : List String),
    onlyRegs s (s.emitDerefFuncsLoop fds emit b).2 := by
  induction fds with
  | nil => intro emit s b; exact onlyRegs_refl s
  | cons fd rest ih =>
      intro emit s b
      simp only [genstate.emitDerefFuncsLoop]
      by_cases he : (!emit) = true
      · simp only [he, if_true]
        exact onlyRegs_trans (onlyRegs_derefSet s _) (ih emit _ _)
      · simp only [he, if_false, Bool.false_eq_true]
        exact ih emit s _

theorem emitAssignFuncsLoop_onlyRegs (fds : List funcdesc) :
    ∀ (emit : Bool) (s : genstate) (b : List String),
    onlyRegs s (s.emitAssignFuncsLoop fds emit b).2 := by
  induction fds with
  | nil => intro emit s b; exact onlyRegs_refl s
  | cons fd rest ih =>
      intro emit s b
      simp only [genstate.emitAssignFuncsLoop]
      by_cases he : (!emit) = true
      · simp only [he, if_true]
        exact onlyRegs_trans (onlyRegs_assignSet s _) (ih emit _ _)
      · simp only [he, if_false, Bool.false_eq_true]
        exact ih emit s _

theorem emitNewFuncsLoop_onlyRegs (fds : List funcdesc) :
    ∀ (emit : Bool) (s : genstate) (b : List String),
    onlyRegs s (s.emitNewFuncsLoop fds emit b).2 := by
  induction fds with
  | nil => intro emit s b; exact onlyRegs_refl s
  | cons fd rest ih =>
      intro emit s b
      simp only [genstate.emitNewFuncsLoop]
      by_cases he : (!emit) = true
      · simp only [he, if_true]
        exact onlyRegs_trans (onlyRegs_allocSet s _) (ih emit _ _)
      · simp only [he, if_false, Bool.false_eq_true]
        exact ih emit s _

theorem emitGlobalVarsLoop_onlyRegs (fds : List funcdesc) :
    ∀ (emit : Bool) (s : genstate) (b : List String),
    onlyRegs s (s.emitGlobalVarsLoop fds emit b).2 := by
  induction fds with
  | nil => intro emit s b; exact onlyRegs_refl s
  | cons fd rest ih =>
      intro emit s b
      simp only [genstate.emitGlobalVarsLoop]
      by_cases he : (!emit) = true
      · simp only [he, if_true]
        exact onlyRegs_trans (onlyRegs_globSet s _) (ih emit _ _)
      · simp only [he, if_false, Bool.false_eq_true]
        exact ih emit s _

theorem emitGenValFuncsLoop_onlyRegs (σ : List Parm → List Parm) (fuel : Nat)
    (f : funcdef) (fds : List funcdesc) :
    ∀ (emit : Bool) (s : genstate) (b : List String),
    onlyRegs s (s.emitGenValFuncsLoop σ fuel f fds emit b).2 := by
  induction fds with
  | nil => intro emit s b; exact onlyRegs_refl s
  | cons fd rest ih =>
      intro emit s b
      simp only [genstate.emitGenValFuncsLoop]
      by_cases he : (!emit) = true
      · simp only [he, if_true]
        exact onlyRegs_trans (onlyRegs_genvalSet s _) (ih emit _ _)
      · simp only [he, if_false, Bool.false_eq_true]
        exact ih emit s _

theorem emitDerefFuncs_onlyRegs (s : genstate) (emit : Bool)
    (b : List String) : onlyRegs s (s.emitDerefFuncs emit b).2 := by
  obtain ⟨b1, s1, hE⟩ : ∃ x y,
      s.emitDerefFuncsLoop s.newDerefFuncs emit
        (b ++ ["// dereference helpers\n"]) = (x, y) := ⟨_, _, rfl⟩
  have h1 := emitDerefFuncsLoop_onlyRegs s.newDerefFuncs emit s
    (b ++ ["// dereference helpers\n"])
  simp only [hE] at h1
  simp only [genstate.emitDerefFuncs, hE]
  exact onlyRegs_trans h1 (onlyRegs_newDerefSet s1 [])

theorem emitAssignFuncs_onlyRegs (s : genstate) (emit : Bool)
    (b : List String) : onlyRegs s (s.emitAssignFuncs emit b).2 := by
  obtain ⟨b1, s1, hE⟩ : ∃ x y,
      s.emitAssignFuncsLoop s.newAssignFuncs emit
        (b ++ ["// assign helpers\n"]) = (x, y) := ⟨_, _, rfl⟩
  have h1 := emitAssignFuncsLoop_onlyRegs s.newAssignFuncs emit s
    (b ++ ["// assign helpers\n"])
  simp only [hE] at h1
  simp only [genstate.emitAssignFuncs, hE]
  exact onlyRegs_trans h1 (onlyRegs_newAssignSet s1 [])

theorem emitNewFuncs_onlyRegs (s : genstate) (emit : Bool)
    (b : List String) : onlyRegs s (s.emitNewFuncs emit b).2 := by
  obtain ⟨b1, s1, hE⟩ : ∃ x y,
      s.emitNewFuncsLoop s.newAllocFuncs emit
        (b ++ ["// 'new' funcs\n"]) = (x, y) := ⟨_, _, rfl⟩
  have h1 := emitNewFuncsLoop_onlyRegs s.newAllocFuncs emit s
    (b ++ ["// 'new' funcs\n"])
  simp only [hE] at h1
  simp only [genstate.emitNewFuncs, hE]
  exact onlyRegs_trans h1 (onlyRegs_newAllocSet s1 [])

theorem emitGlobalVars_onlyRegs (s : genstate) (emit : Bool)
    (b : List String) : onlyRegs s (s.emitGlobalVars emit b).2 := by
  obtain ⟨b1, s1, hE⟩ : ∃ x y,
      s.emitGlobalVarsLoop s.newGlobVars emit
        (b ++ ["// global vars\n"]) = (x, y) := ⟨_, _, rfl⟩
  have h1 := emitGlobalVarsLoop_onlyRegs s.newGlobVars emit s
    (b ++ ["// global vars\n"])
  simp only [hE] at h1
  simp only [genstate.emitGlobalVars, hE]
  exact onlyRegs_trans h1 (onlyRegs_newGlobSet s1 [])

theorem emitGenValFuncs_onlyRegs (σ : List Parm → List Parm) (fuel : Nat)
    (s : genstate) (f : funcdef) (emit : Bool) (b : List String) :
    onlyRegs s (s.emitGenValFuncs σ fuel f emit b).2 := by
  obtain ⟨b1, s1, hE⟩ : ∃ x y,
      s.emitGenValFuncsLoop σ fuel f s.newGenvalFuncs emit
        (b ++ ["// genval helpers\n"]) = (x, y) := ⟨_, _, rfl⟩
  have h1 := emitGenValFuncsLoop_onlyRegs σ fuel f s.newGenvalFuncs emit s
    (b ++ ["// genval helpers\n"])
  simp only [hE] at h1
  simp only [genstate.emitGenValFuncs, hE]
  exact onlyRegs_trans h1 (onlyRegs_newGenvalSet s1 [])

theorem emitAddrTakenHelpers_onlyRegs (σ : List Parm → List Parm)
    (fuel : Nat) (s : genstate) (f : funcdef) (emit : Bool)
    (b : List String) :
    onlyRegs s (s.emitAddrTakenHelpers σ fuel f emit b).2 := by
  obtain ⟨b1, s1, hE1⟩ : ∃ x y,
      s.emitDerefFuncs emit (b ++ ["// begin addr taken helpers\n"]) =
        (x, y) := ⟨_, _, rfl⟩
  obtain ⟨b2, s2, hE2⟩ : ∃ x y, s1.emitAssignFuncs emit b1 = (x, y) :=
    ⟨_, _, rfl⟩
  obtain ⟨b3, s3, hE3⟩ : ∃ x y, s2.emitNewFuncs emit b2 = (x, y) :=
    ⟨_, _, rfl⟩
  obtain ⟨b4, s4, hE4⟩ : ∃ x y, s3.emitGlobalVars emit b3 = (x, y) :=
    ⟨_, _, rfl⟩
  have h1 := emitDerefFuncs_onlyRegs s emit
    (b ++ ["// begin addr taken helpers\n"])
  have h2 := emitAssignFuncs_onlyRegs s1 emit b1
  have h3 := emitNewFuncs_onlyRegs s2 emit b2
  have h4 := emitGlobalVars_onlyRegs s3 emit b3
  have h5 := emitGenValFuncs_onlyRegs σ fuel s4 f emit b4
  simp only [hE1] at h1
  simp only [hE2] at h2
  simp only [hE3] at h3
  simp only [hE4] at h4
  simp only [genstate.emitAddrTakenHelpers, hE1, hE2, hE3, hE4]
  exact onlyRegs_trans h1 (onlyRegs_trans h2 (onlyRegs_trans h3
    (onlyRegs_trans h4 h5)))


/-! ## The checker emitter: stream and error characterization -/

theorem addrPrepLoop_wr (s : genstate) (lst : List Parm) (n : String)
    (pi count : Nat) (b : List String) :
    (s.addrPrepLoop lst n pi count b).2.2.wr = s.wr :=
  (addrPrepLoop_char n lst s pi count b).2

theorem addrPrepLoop_errs (s : genstate) (lst : List Parm) (n : String)
    (pi count : Nat) (b : List String) :
    (s.addrPrepLoop lst n pi count b).2.2.errs = s.errs :=
  (addrPrepLoop_char n lst s pi count b).1.1

theorem emitMapKeyTmps_errs (s : genstate) (f : funcdef) (pidx v : Nat)
    (c : Bool) (b : List String) :
    (s.emitMapKeyTmps f pidx v c b).2.2.errs = s.errs :=
  (emitMapKeyTmps_char s f pidx v c b).1.1

theorem checkerReturnsLoop_errs (s : genstate) (f : funcdef) (rs : List Parm)
    (ri v : Nat) (b : List String) :
    (s.checkerReturnsLoop f rs ri v b).2.2.errs = s.errs :=
  (checkerReturnsLoop_char f rs s ri v b).1.1

theorem emitDeferChecks_wr (s : genstate) (f : funcdef) (pidx v : Nat)
    (b : List String) :
    (s.emitDeferChecks f pidx v b).2.2.wr = s.wr :=
  (emitDeferChecks_char s f pidx v b).2

theorem emitDeferChecks_errs (s : genstate) (f : funcdef) (pidx v : Nat)
    (b : List String) :
    (s.emitDeferChecks f pidx v b).2.2.errs = s.errs :=
  (emitDeferChecks_char s f pidx v b).1.1

theorem emitAddrTakenHelpers_wr (σ : List Parm → List Parm) (fuel : Nat)
    (s : genstate) (f : funcdef) (emit : Bool) (b : List String) :
    (s.emitAddrTakenHelpers σ fuel f emit b).2.wr = s.wr :=
  onlyRegs_wr (emitAddrTakenHelpers_onlyRegs σ fuel s f emit b)

theorem emitAddrTakenHelpers_errs (σ : List Parm → List Parm) (fuel : Nat)
    (s : genstate) (f : funcdef) (emit : Bool) (b : List String) :
    (s.emitAddrTakenHelpers σ fuel f emit b).2.errs = s.errs :=
  onlyRegs_errs (emitAddrTakenHelpers_onlyRegs σ fuel s f emit b)

theorem emitParamChecks_wr (s : genstate) (f : funcdef) (pidx v : Nat)
    (b : List String)
    (htd : ∀ p ∈ f.params, tdOK p = true)
    (htr : ∀ r, f.receiver = some r → tdOK r = true) :
    (s.emitParamChecks f pidx v b).2.2.1.wr =
      (if f.method then
        match f.receiver with
        | some r => drawTrace r (paramsDraws f.params s.wr)
        | none => paramsDraws f.params s.wr
       else paramsDraws f.params s.wr) :=
  (emitParamChecks_char s f pidx v b htd htr).2.1

theorem emitParamChecks_errs (s : genstate) (f : funcdef) (pidx v : Nat)
    (b : List String)
    (htd : ∀ p ∈ f.params, tdOK p = true)
    (htr : ∀ r, f.receiver = some r → tdOK r = true)
    (suf : List Nat) (hv : f.values = valSeq f.params v ++ suf) :
    (s.emitParamChecks f pidx v b).2.2.1.errs = s.errs :=
  (emitParamChecks_char s f pidx v b htd htr).2.2 suf hv

theorem emitParamChecks_regAgree (s : genstate) (f : funcdef) (pidx v : Nat)
    (b : List String)
    (htd : ∀ p ∈ f.params, tdOK p = true)
    (htr : ∀ r, f.receiver = some r → tdOK r = true) :
    regAgree s (s.emitParamChecks f pidx v b).2.2.1 :=
  (emitParamChecks_char s f pidx v b htd htr).1

theorem ite_snd_wr {c : Prop} [Decidable c] {x y : List String × genstate}
    {w : wraprand} (hx : x.2.wr = w) (hy : y.2.wr = w) :
    (ite c x y).2.wr = w := by
  by_cases h : c
  · rw [if_pos h]; exact hx
  · rw [if_neg h]; exact hy

theorem ite_snd_errs {c : Prop} [Decidable c] {x y : List String × genstate}
    {e : Nat} (hx : x.2.errs = e) (hy : y.2.errs = e) :
    (ite c x y).2.errs = e := by
  by_cases h : c
  · rw [if_pos h]; exact hx
  · rw [if_neg h]; exact hy

theorem emitChecker_char (σ : List Parm → List Parm) (fuel : Nat)
    (s : genstate) (f : funcdef) (pidx : Nat) (emit : Bool)
    (b : List String)
    (htd : ∀ p ∈ f.params, tdOK p = true)
    (htr : ∀ r, f.receiver = some r → tdOK r = true) :
    (s.emitChecker σ fuel f pidx emit b).2.wr = pairDraws f s.wr ∧
    (∀ suf, f.values = valSeq f.params (valueAtParams f) ++ suf →
      (s.emitChecker σ fuel f pidx emit b).2.errs = s.errs) := by
  unfold genstate.emitChecker
  simp only [wraprand.Checkpoint, genstate_eta]
  constructor
  · simp only [emitAddrTakenHelpers_wr, emitReturn_wr]
    refine ite_snd_wr ?_ ?_
    · rw [emitDeferChecks_wr, emitParamChecks_wr _ f _ _ _ htd htr]
      simp only [addrPrepLoop_wr, checkerReturnsLoop_wr, emitMapKeyTmps_wr,
        pairDraws]
    · rw [emitParamChecks_wr _ f _ _ _ htd htr]
      simp only [addrPrepLoop_wr, checkerReturnsLoop_wr, emitMapKeyTmps_wr,
        pairDraws]
  · intro suf hv
    simp only [valueAtParams] at hv
    simp only [emitAddrTakenHelpers_errs, emitReturn_errs,
      checkerReturnsLoop_value, emitMapKeyTmps_value]
    refine ite_snd_errs ?_ ?_
    · rw [emitDeferChecks_errs, emitParamChecks_errs _ f _ _ _ htd htr suf hv,
        addrPrepLoop_errs, addrPrepLoop_errs, checkerReturnsLoop_errs,
        emitMapKeyTmps_errs]
    · rw [emitParamChecks_errs _ f _ _ _ htd htr suf hv,
        addrPrepLoop_errs, addrPrepLoop_errs, checkerReturnsLoop_errs,
        emitMapKeyTmps_errs]


/-! ## The generation frame and typedef-freedom of GenParm output -/

theorem genFrame_refl (s : genstate) : genFrame s s := rfl

theorem genFrame_trans {s1 s2 s3 : genstate} (h12 : genFrame s1 s2)
    (h23 : genFrame s2 s3) : genFrame s1 s3 := by
  unfold genFrame at h12 h23 ⊢
  rw [h23, h12]

theorem genFrame_errs {s s' : genstate} (h : genFrame s s') :
    s'.errs = s.errs := by rw [h]

theorem genFrame_regsId {s s' : genstate} (h : genFrame s s') :
    regsId s s' := by
  rw [h]
  exact ⟨rfl, rfl, rfl, rfl, rfl, rfl, rfl, rfl, rfl, rfl, rfl⟩

theorem genFrame_wrset (s : genstate) (w : wraprand) :
    genFrame s { s with wr := w } := rfl

theorem genFrame_tunset (s : genstate) (t : TunableParams) :
    genFrame s { s with tunables := t } := rfl

theorem genFrame_push (s : genstate) : genFrame s s.pushTunables := rfl

theorem genFrame_pop (s : genstate) : genFrame s s.popTunables := by
  unfold genstate.popTunables
  match h : s.tstack with
  | [] => exact genFrame_refl s
  | t :: rest => rfl

theorem genFrame_Intn (s : genstate) (n : Nat) :
    genFrame s (s.Intn n).2 := by
  rw [genstate_Intn_eta]
  exact genFrame_wrset s _

theorem redistributeFraction_genFrame (fuel : Nat) (s : genstate) (f : Nat)
    (avoid : List Nat) (s' : genstate)
    (h : s.redistributeFraction fuel f avoid = some s') : genFrame s s' := by
  unfold genstate.redistributeFraction at h
  match hd : doredisAux avoid fuel s.tunables.typeFractions (f % 256) 0 with
  | none => rw [hd] at h; exact absurd h (by simp)
  | some tf =>
      rw [hd] at h
      by_cases hc : checkTunablesOK
          { s.tunables with typeFractions := tf } = true
      · simp only [hc, if_true, Option.some.injEq] at h
        rw [← h]
        exact genFrame_tunset s _
      · simp only [hc, if_false, Bool.false_eq_true] at h
        exact absurd h (by simp)

theorem precludeSelectedTypes_genFrame (fuel : Nat) (s : genstate) (t : Nat)
    (t2 : List Nat) (s' : genstate)
    (h : s.precludeSelectedTypes fuel t t2 = some s') : genFrame s s' := by
  unfold genstate.precludeSelectedTypes at h
  exact genFrame_trans (genFrame_tunset s _)
    (redistributeFraction_genFrame fuel _ _ _ s' h)

theorem genFrame_intFlavor (s : genstate) : genFrame s (s.intFlavor).2 := by
  unfold genstate.intFlavor
  obtain ⟨d, s1, hE⟩ : ∃ x y, s.Intn 100 = (x, y) := ⟨_, _, rfl⟩
  have h1 := genFrame_Intn s 100
  rw [hE] at h1
  simp only [hE]
  by_cases hc : d < s1.tunables.unsignedRanges.getD 0 0
  · rw [if_pos hc]; exact h1
  · rw [if_neg hc]; exact h1

theorem genFrame_intBits (s : genstate) : genFrame s (s.intBits).2 := by
  unfold genstate.intBits
  obtain ⟨d, s1, hE⟩ : ∃ x y, s.Intn 100 = (x, y) := ⟨_, _, rfl⟩
  have h1 := genFrame_Intn s 100
  rw [hE] at h1
  simp only [hE]
  match hb : genstate.intBitsLoop d s1.tunables.intBitRanges 0 8 with
  | some bits => exact h1
  | none => exact h1

theorem genFrame_floatBits (s : genstate) : genFrame s (s.floatBits).2 := by
  unfold genstate.floatBits
  obtain ⟨d, s1, hE⟩ : ∃ x y, s.Intn 100 = (x, y) := ⟨_, _, rfl⟩
  have h1 := genFrame_Intn s 100
  rw [hE] at h1
  simp only [hE]
  by_cases hc : d < s1.tunables.floatBitRanges.getD 0 0
  · rw [if_pos hc]; exact h1
  · rw [if_neg hc]; exact h1

theorem genFrame_genAddrTaken (s : genstate) :
    genFrame s (s.genAddrTaken).2 := by
  unfold genstate.genAddrTaken
  obtain ⟨d, s1, hE⟩ : ∃ x y, s.Intn 100 = (x, y) := ⟨_, _, rfl⟩
  have h1 := genFrame_Intn s 100
  rw [hE] at h1
  simp only [hE]
  exact h1

theorem noTd_SetBlank (p : Parm) (v : Bool) :
    noTd (p.SetBlank v) = noTd p := by
  cases p <;> rfl

theorem noTd_SetAddrTaken (p : Parm) (v : addrTakenHow) :
    noTd (p.SetAddrTaken v) = noTd p := by
  cases p <;> rfl

theorem noTd_SetIsGenVal (p : Parm) (v : Bool) :
    noTd (p.SetIsGenVal v) = noTd p := by
  cases p <;> rfl

theorem noTd_mkPointerParm (t : Parm) : noTd (mkPointerParm t) = noTd t := rfl


theorem noTdList_append (l1 l2 : List Parm) :
    noTdList (l1 ++ l2) = (noTdList l1 && noTdList l2) := by
  induction l1 with
  | nil => simp [noTdList]
  | cons p ps ih => simp [noTdList, ih, Bool.and_assoc]

theorem genFrame_ite_snd {α : Type} {c : Prop} [Decidable c]
    {x y : α × genstate} {s : genstate} (hx : genFrame s x.2)
    (hy : genFrame s y.2) : genFrame s (ite c x y).2 := by
  by_cases h : c
  · rw [if_pos h]; exact hx
  · rw [if_neg h]; exact hy

theorem fdefGenFrame_refl (f : funcdef) : fdefGenFrame f f := rfl

theorem fdefGenFrame_trans {f1 f2 f3 : funcdef} (h12 : fdefGenFrame f1 f2)
    (h23 : fdefGenFrame f2 f3) : fdefGenFrame f1 f3 := by
  unfold fdefGenFrame at h12 h23 ⊢
  rw [h23, h12]

theorem fdefGenFrame_values {f f' : funcdef} (h : fdefGenFrame f f') :
    f'.values = f.values := by rw [h]

theorem fdefGenFrame_params {f f' : funcdef} (h : fdefGenFrame f f') :
    f'.params = f.params := by rw [h]

theorem fdefGenFrame_returns {f f' : funcdef} (h : fdefGenFrame f f') :
    f'.returns = f.returns := by rw [h]

theorem fdefGenFrame_receiver {f f' : funcdef} (h : fdefGenFrame f f') :
    f'.receiver = f.receiver := by rw [h]

theorem fdefGenFrame_method {f f' : funcdef} (h : fdefGenFrame f f') :
    f'.method = f.method := by rw [h]

theorem fdefGenFrame_recur {f f' : funcdef} (h : fdefGenFrame f f') :
    f'.recur = f.recur := by rw [h]

theorem fdefGenFrame_idx {f f' : funcdef} (h : fdefGenFrame f f') :
    f'.idx = f.idx := by rw [h]

theorem fdefGenFrame_dodefc {f f' : funcdef} (h : fdefGenFrame f f') :
    f'.dodefc = f.dodefc := by rw [h]

theorem fdefGenFrame_dodefp {f f' : funcdef} (h : fdefGenFrame f f') :
    f'.dodefp = f.dodefp := by rw [h]

theorem fdefGenFrame_rstack {f f' : funcdef} (h : fdefGenFrame f f') :
    f'.rstack = f.rstack := by rw [h]

theorem GenParmOK_zero (gt : TunableParams) : GenParmOK gt 0 := by
  intro s f depth mkctl pidx p f' s' h
  exact absurd h (by simp [genstate.GenParm])

theorem genParmFields_char (gt : TunableParams) (fuel : Nat)
    (hP : GenParmOK gt fuel) :
    ∀ (nf : Nat) (s : genstate) (f : funcdef) (depth pidx : Nat)
      (acc fields : List Parm) (f' : funcdef) (s' : genstate),
    genstate.genParmFields gt fuel s f depth pidx nf acc =
      some (fields, f', s') →
    (noTdList acc = true → noTdList fields = true) ∧ genFrame s s' ∧
      fdefGenFrame f f' := by
  intro nf
  induction nf with
  | zero =>
      intro s f depth pidx acc fields f' s' h
      simp only [genstate.genParmFields, Option.some.injEq, Prod.mk.injEq] at h
      obtain ⟨h1, h2, h3⟩ := h
      subst h1; subst h2; subst h3
      exact ⟨fun hx => hx, genFrame_refl s, rfl⟩
  | succ n ihn =>
      intro s f depth pidx acc fields f' s' h
      simp only [genstate.genParmFields] at h
      match hg : genstate.GenParm gt fuel s f depth false pidx with
      | none => rw [hg] at h; exact absurd h (by simp)
      | some (fp, f1, s1) =>
          simp only [hg] at h
          obtain ⟨h1td, h1fr, h1v⟩ := hP s f depth false pidx fp f1 s1 hg
          obtain ⟨h2td, h2fr, h2v⟩ :=
            ihn s1 f1 depth pidx (acc ++ [fp]) fields f' s' h
          refine ⟨?_, genFrame_trans h1fr h2fr, fdefGenFrame_trans h1v h2v⟩
          intro hacc
          apply h2td
          rw [noTdList_append, hacc]
          simp [noTdList, h1td]

theorem GenMapKeyType_char (gt : TunableParams) (fuel : Nat)
    (hP : GenParmOK gt fuel) :
    ∀ (s : genstate) (f : funcdef) (depth pidx : Nat) (p : Parm)
      (f' : funcdef) (s' : genstate),
    genstate.GenMapKeyType gt fuel s f depth pidx = some (p, f', s') →
    noTd p = true ∧ genFrame s s' ∧ fdefGenFrame f f' := by
  intro s f depth pidx p f' s' h
  simp only [genstate.GenMapKeyType] at h
  match hpre : genstate.precludeSelectedTypes redisFuel
      { s.pushTunables with
        tunables := { s.pushTunables.tunables with sliceFraction := 0 } }
      MapTfIdx [PointerTfIdx] with
  | none => rw [hpre] at h; exact absurd h (by simp)
  | some s1 =>
      simp only [hpre] at h
      have hfr1 : genFrame s s1 :=
        genFrame_trans (genFrame_push s)
          (genFrame_trans (genFrame_tunset _ _)
            (precludeSelectedTypes_genFrame _ _ _ _ _ hpre))
      match hg : genstate.GenParm gt fuel s1 f (depth + 1) false pidx with
      | none => rw [hg] at h; exact absurd h (by simp)
      | some (kp, f1, s2) =>
          simp only [hg] at h
          obtain ⟨h1td, h1fr, h1v⟩ := hP s1 f (depth + 1) false pidx kp f1 s2 hg
          simp only [Option.some.injEq, Prod.mk.injEq] at h
          obtain ⟨hp, hf, hs⟩ := h
          subst hp; subst hf; subst hs
          exact ⟨h1td, genFrame_trans hfr1 (genFrame_trans h1fr
            (genFrame_pop s2)), h1v⟩



theorem genFrame_pairStep {α : Type} (s0 : genstate) (c : Prop) [Decidable c]
    (x y : α × genstate) (r : α) (sC : genstate)
    (h : (if c then x else y) = (r, sC))
    (hx : genFrame s0 x.2) (hy : genFrame s0 y.2) : genFrame s0 sC := by
  by_cases hc : c
  · rw [if_pos hc] at h; rw [h] at hx; exact hx
  · rw [if_neg hc] at h; rw [h] at hy; exact hy

theorem noTd_wrap (r : Parm) (mk : Bool) (ib : Bool) (atk : addrTakenHow)
    (igv : Bool) :
    noTd (((if (!mk) = true then r.SetBlank ib else r).SetAddrTaken
      atk).SetIsGenVal igv) = noTd r := by
  by_cases h : (!mk) = true
  · rw [if_pos h, noTd_SetIsGenVal, noTd_SetAddrTaken, noTd_SetBlank]
  · rw [if_neg h, noTd_SetIsGenVal, noTd_SetAddrTaken]

set_option maxHeartbeats 4000000 in
theorem GenParmOK_succ (gt : TunableParams) (fuel : Nat)
    (hP : GenParmOK gt fuel) : GenParmOK gt (fuel + 1) := by
  intro s f depth mkctl pidx p f' s' h
  simp only [genstate.GenParm] at h
  by_cases htoo : depth ≥ s.tunables.structDepth
  · simp only [if_pos htoo] at h
    match hpre : genstate.precludeSelectedTypes redisFuel s.pushTunables
        StructTfIdx [ArrayTfIdx, MapTfIdx, PointerTfIdx] with
    | none => rw [hpre] at h; exact absurd h (by simp)
    | some s1 =>
        simp only [hpre] at h
        have gS : genFrame s s1 :=
          genFrame_trans (genFrame_push s)
            (precludeSelectedTypes_genFrame _ _ _ _ _ hpre)
        obtain ⟨ib, sA, hE1⟩ : ∃ x y, s1.Intn 100 = (x, y) := ⟨_, _, rfl⟩
        simp only [hE1] at h
        have gA : genFrame s1 sA := by
          have := genFrame_Intn s1 100
          rw [hE1] at this
          exact this
        obtain ⟨atk, sB, hE2⟩ : ∃ x y,
            (if (depth == 0 && gt.takeAddress &&
                !decide (ib < sA.tunables.blankPerc)) = true
             then sA.genAddrTaken else (notAddrTaken, sA)) = (x, y) :=
          ⟨_, _, rfl⟩
        simp only [hE2] at h
        have gB : genFrame sA sB :=
          genFrame_pairStep sA _ _ _ atk sB hE2
            (genFrame_genAddrTaken sA) (genFrame_refl sA)
        obtain ⟨dgv, sBp, hE3⟩ : ∃ x y, sB.Intn 100 = (x, y) := ⟨_, _, rfl⟩
        simp only [hE3] at h
        have gBp : genFrame sB sBp := by
          have := genFrame_Intn sB 100
          rw [hE3] at this
          exact this
        obtain ⟨igv, sC, hE4⟩ : ∃ x y,
            (if gt.doFuncCallValues = true
             then (decide (dgv < sBp.tunables.funcCallValFraction), sBp)
             else (false, sB)) = (x, y) := ⟨_, _, rfl⟩
        simp only [hE4] at h
        have gC : genFrame sB sC :=
          genFrame_pairStep sB _ _ _ igv sC hE4 gBp (genFrame_refl sB)
        obtain ⟨which, sD, hE5⟩ : ∃ x y, sC.Intn 100 = (x, y) := ⟨_, _, rfl⟩
        simp only [hE5] at h
        have gD : genFrame s sD := by
          have := genFrame_Intn sC 100
          rw [hE5] at this
          exact genFrame_trans gS (genFrame_trans gA (genFrame_trans gB
            (genFrame_trans gC this)))
        by_cases hb0 : which <
            (cumsumU8 s1.tunables.typeFractions).getD StructTfIdx 0
        · rw [if_pos hb0] at h; exact absurd h (by simp)
        rw [if_neg hb0] at h
        by_cases hb1 : which <
            (cumsumU8 s1.tunables.typeFractions).getD ArrayTfIdx 0
        · rw [if_pos hb1] at h; exact absurd h (by simp)
        rw [if_neg hb1] at h
        by_cases hb2 : which <
            (cumsumU8 s1.tunables.typeFractions).getD MapTfIdx 0
        · rw [if_pos hb2] at h; exact absurd h (by simp)
        rw [if_neg hb2] at h
        by_cases hb3 : which <
            (cumsumU8 s1.tunables.typeFractions).getD PointerTfIdx 0
        · rw [if_pos hb3] at h; exact absurd h (by simp)
        rw [if_neg hb3] at h
        by_cases hb4 : which <
            (cumsumU8 s1.tunables.typeFractions).getD NumericTfIdx 0
        · rw [if_pos hb4] at h
          simp only [Option.some.injEq, Prod.mk.injEq] at h
          obtain ⟨hp, hf, hs⟩ := h
          refine ⟨?_, ?_, ?_⟩
          · rw [← hp, noTd_wrap]; rfl
          · rw [← hs]
            exact genFrame_trans gD (genFrame_trans (genFrame_intFlavor sD)
              (genFrame_trans (genFrame_intBits _) (genFrame_pop _)))
          · rw [← hf]
            exact fdefGenFrame_refl f
        rw [if_neg hb4] at h
        by_cases hb5 : which <
            (cumsumU8 s1.tunables.typeFractions).getD FloatTfIdx 0
        · rw [if_pos hb5] at h
          simp only [Option.some.injEq, Prod.mk.injEq] at h
          obtain ⟨hp, hf, hs⟩ := h
          refine ⟨?_, ?_, ?_⟩
          · rw [← hp, noTd_wrap]; rfl
          · rw [← hs]
            exact genFrame_trans gD (genFrame_trans (genFrame_floatBits sD)
              (genFrame_pop _))
          · rw [← hf]
            exact fdefGenFrame_refl f
        rw [if_neg hb5] at h
        by_cases hb6 : which <
            (cumsumU8 s1.tunables.typeFractions).getD ComplexTfIdx 0
        · rw [if_pos hb6] at h
          simp only [Option.some.injEq, Prod.mk.injEq] at h
          obtain ⟨hp, hf, hs⟩ := h
          refine ⟨?_, ?_, ?_⟩
          · rw [← hp, noTd_wrap]; rfl
          · rw [← hs]
            exact genFrame_trans gD (genFrame_trans (genFrame_floatBits sD)
              (genFrame_pop _))
          · rw [← hf]
            exact fdefGenFrame_refl f
        rw [if_neg hb6] at h
        by_cases hb7 : which <
            (cumsumU8 s1.tunables.typeFractions).getD ByteTfIdx 0
        · rw [if_pos hb7] at h
          simp only [Option.some.injEq, Prod.mk.injEq] at h
          obtain ⟨hp, hf, hs⟩ := h
          refine ⟨?_, ?_, ?_⟩
          · rw [← hp, noTd_wrap]; rfl
          · rw [← hs]
            exact genFrame_trans gD (genFrame_pop _)
          · rw [← hf]
            exact fdefGenFrame_refl f
        rw [if_neg hb7] at h
        by_cases hb8 : which <
            (cumsumU8 s1.tunables.typeFractions).getD StringTfIdx 0
        · rw [if_pos hb8] at h
          simp only [Option.some.injEq, Prod.mk.injEq] at h
          obtain ⟨hp, hf, hs⟩ := h
          refine ⟨?_, ?_, ?_⟩
          · rw [← hp, noTd_wrap]; rfl
          · rw [← hs]
            exact genFrame_trans gD (genFrame_pop _)
          · rw [← hf]
            exact fdefGenFrame_refl f
        rw [if_neg hb8] at h
        simp only [Option.some.injEq, Prod.mk.injEq] at h
        obtain ⟨hp, hf, hs⟩ := h
        refine ⟨?_, ?_, ?_⟩
        · rw [← hp, noTd_wrap]; rfl
        · rw [← hs]
          exact genFrame_trans gD (genFrame_pop _)
        · rw [← hf]
          exact fdefGenFrame_refl f
  · simp only [if_neg htoo] at h
    obtain ⟨ib, sA, hE1⟩ : ∃ x y, s.Intn 100 = (x, y) := ⟨_, _, rfl⟩
    simp only [hE1] at h
    have gA : genFrame s sA := by
      have := genFrame_Intn s 100
      rw [hE1] at this
      exact this
    obtain ⟨atk, sB, hE2⟩ : ∃ x y,
        (if (depth == 0 && gt.takeAddress &&
            !decide (ib < sA.tunables.blankPerc)) = true
         then sA.genAddrTaken else (notAddrTaken, sA)) = (x, y) :=
      ⟨_, _, rfl⟩
    simp only [hE2] at h
    have gB : genFrame sA sB :=
      genFrame_pairStep sA _ _ _ atk sB hE2
        (genFrame_genAddrTaken sA) (genFrame_refl sA)
    obtain ⟨dgv, sBp, hE3⟩ : ∃ x y, sB.Intn 100 = (x, y) := ⟨_, _, rfl⟩
    simp only [hE3] at h
    have gBp : genFrame sB sBp := by
      have := genFrame_Intn sB 100
      rw [hE3] at this
      exact this
    obtain ⟨igv, sC, hE4⟩ : ∃ x y,
        (if gt.doFuncCallValues = true
         then (decide (dgv < sBp.tunables.funcCallValFraction), sBp)
         else (false, sB)) = (x, y) := ⟨_, _, rfl⟩
    simp only [hE4] at h
    have gC : genFrame sB sC :=
      genFrame_pairStep sB _ _ _ igv sC hE4 gBp (genFrame_refl sB)
    obtain ⟨which, sD, hE5⟩ : ∃ x y, sC.Intn 100 = (x, y) := ⟨_, _, rfl⟩
    simp only [hE5] at h
    have gD : genFrame s sD := by
      have := genFrame_Intn sC 100
      rw [hE5] at this
      exact genFrame_trans gA (genFrame_trans gB (genFrame_trans gC this))
    by_cases hb0 : which <
        (cumsumU8 s.tunables.typeFractions).getD StructTfIdx 0
    · rw [if_pos hb0] at h
      obtain ⟨nf, sE, hE6⟩ : ∃ x y,
          sD.Intn (sD.tunables.nStructFields / (depth + 1)) = (x, y) :=
        ⟨_, _, rfl⟩
      simp only [hE6] at h
      have gE : genFrame sD sE := by
        have := genFrame_Intn sD (sD.tunables.nStructFields / (depth + 1))
        rw [hE6] at this
        exact this
      match hgf : genstate.genParmFields gt fuel sE
          { f with structdefs := f.structdefs ++
            [Parm.structparm
              ("StructF" ++ toString f.idx ++ "S" ++
                toString f.structdefs.length)
              (sD.checkerPkg pidx ++ "." ++
                ("StructF" ++ toString f.idx ++ "S" ++
                  toString f.structdefs.length)) [] {}] }
          (depth + 1) pidx nf [] with
      | none => rw [hgf] at h; exact absurd h (by simp)
      | some (fields, f1, sF) =>
          simp only [hgf] at h
          obtain ⟨hfl, hfr, hfv⟩ := genParmFields_char gt fuel hP nf sE _
            (depth + 1) pidx [] fields f1 sF hgf
          simp only [Option.some.injEq, Prod.mk.injEq] at h
          obtain ⟨hp, hf, hs⟩ := h
          refine ⟨?_, ?_, ?_⟩
          · rw [← hp, noTd_wrap, noTd_struct]
            exact hfl rfl
          · rw [← hs]
            exact genFrame_trans gD (genFrame_trans gE hfr)
          · rw [← hf, show f1 = _ from hfv]
            exact rfl
    rw [if_neg hb0] at h
    by_cases hb1 : which <
        (cumsumU8 s.tunables.typeFractions).getD ArrayTfIdx 0
    · rw [if_pos hb1] at h
      obtain ⟨nel, sE, hE6⟩ : ∃ x y,
          sD.Intn sD.tunables.nArrayElements = (x, y) := ⟨_, _, rfl⟩
      simp only [hE6] at h
      have gE : genFrame sD sE := by
        have := genFrame_Intn sD sD.tunables.nArrayElements
        rw [hE6] at this
        exact this
      obtain ⟨dsl, sF, hE7⟩ : ∃ x y, sE.Intn 100 = (x, y) := ⟨_, _, rfl⟩
      simp only [hE7] at h
      have gF : genFrame sE sF := by
        have := genFrame_Intn sE 100
        rw [hE7] at this
        exact this
      match hgp : genstate.GenParm gt fuel sF
          { f with arraydefs := f.arraydefs ++
            [Parm.arrayparm
              ("ArrayF" ++ toString f.idx ++ "S" ++
                toString f.arraydefs.length ++ "E" ++ toString nel)
              (sF.checkerPkg pidx ++ "." ++
                ("ArrayF" ++ toString f.idx ++ "S" ++
                  toString f.arraydefs.length ++ "E" ++ toString nel))
              nel (decide (dsl < sF.tunables.sliceFraction))
              (Parm.stringparm {}) {}] }
          (depth + 1) false pidx with
      | none => rw [hgp] at h; exact absurd h (by simp)
      | some (el, f1, sG) =>
          simp only [hgp] at h
          obtain ⟨hel, hgr, hgv2⟩ := hP sF _ (depth + 1) false pidx el f1 sG hgp
          simp only [Option.some.injEq, Prod.mk.injEq] at h
          obtain ⟨hp, hf, hs⟩ := h
          refine ⟨?_, ?_, ?_⟩
          · rw [← hp, noTd_wrap, noTd_array, noTd_SetBlank]
            exact hel
          · rw [← hs]
            exact genFrame_trans gD (genFrame_trans gE
              (genFrame_trans gF hgr))
          · rw [← hf, show f1 = _ from hgv2]
            exact rfl
    rw [if_neg hb1] at h
    by_cases hb2 : which <
        (cumsumU8 s.tunables.typeFractions).getD MapTfIdx 0
    · rw [if_pos hb2] at h
      by_cases hmk : (f.mapkeyts == "") = true
      · simp only [if_pos hmk] at h
        match hgm : genstate.GenMapKeyType gt fuel sD
            { f with
              mapdefs := f.mapdefs ++
                [Parm.mapparm "" "" "" (Parm.stringparm {})
                  (Parm.stringparm {}) {}],
              mapkeytypes := f.mapkeytypes ++ [Parm.stringparm {}],
              mapkeytmps := f.mapkeytmps ++ [""],
              mapkeyts := "MapKeysF" ++ toString f.idx }
            (depth + 1) pidx with
        | none => rw [hgm] at h; exact absurd h (by simp)
        | some (mkp, f1, sE) =>
            simp only [hgm] at h
            obtain ⟨hmt, hmr, hmv⟩ := GenMapKeyType_char gt fuel hP sD _
              (depth + 1) pidx mkp f1 sE hgm
            match hgp2 : genstate.GenParm gt fuel sE f1
                (depth + 1) false pidx with
            | none => rw [hgp2] at h; exact absurd h (by simp)
            | some (vt, f2, sF) =>
                simp only [hgp2] at h
                obtain ⟨hvt, hvr, hvv⟩ := hP sE f1 (depth + 1) false pidx
                  vt f2 sF hgp2
                simp only [Option.some.injEq, Prod.mk.injEq] at h
                obtain ⟨hp, hf, hs⟩ := h
                refine ⟨?_, ?_, ?_⟩
                · rw [← hp, noTd_wrap, noTd_map, noTd_SetBlank,
                    noTd_SetBlank, hmt, hvt]
                  rfl
                · rw [← hs]
                  exact genFrame_trans gD (genFrame_trans hmr hvr)
                · rw [← hf, show f2 = _ from hvv, show f1 = _ from hmv]
                  exact rfl
      · simp only [if_neg hmk] at h
        match hgm : genstate.GenMapKeyType gt fuel sD
            { f with
              mapdefs := f.mapdefs ++
                [Parm.mapparm "" "" "" (Parm.stringparm {})
                  (Parm.stringparm {}) {}],
              mapkeytypes := f.mapkeytypes ++ [Parm.stringparm {}],
              mapkeytmps := f.mapkeytmps ++ [""] }
            (depth + 1) pidx with
        | none => rw [hgm] at h; exact absurd h (by simp)
        | some (mkp, f1, sE) =>
            simp only [hgm] at h
            obtain ⟨hmt, hmr, hmv⟩ := GenMapKeyType_char gt fuel hP sD _
              (depth + 1) pidx mkp f1 sE hgm
            match hgp2 : genstate.GenParm gt fuel sE f1
                (depth + 1) false pidx with
            | none => rw [hgp2] at h; exact absurd h (by simp)
            | some (vt, f2, sF) =>
                simp only [hgp2] at h
                obtain ⟨hvt, hvr, hvv⟩ := hP sE f1 (depth + 1) false pidx
                  vt f2 sF hgp2
                simp only [Option.some.injEq, Prod.mk.injEq] at h
                obtain ⟨hp, hf, hs⟩ := h
                refine ⟨?_, ?_, ?_⟩
                · rw [← hp, noTd_wrap, noTd_map, noTd_SetBlank,
                    noTd_SetBlank, hmt, hvt]
                  rfl
                · rw [← hs]
                  exact genFrame_trans gD (genFrame_trans hmr hvr)
                · rw [← hf, show f2 = _ from hvv, show f1 = _ from hmv]
                  exact rfl
    rw [if_neg hb2] at h
    by_cases hb3 : which <
        (cumsumU8 s.tunables.typeFractions).getD PointerTfIdx 0
    · rw [if_pos hb3] at h
      match hgp : genstate.GenParm gt fuel sD f (depth + 1) false pidx with
      | none => rw [hgp] at h; exact absurd h (by simp)
      | some (tp, f1, sE) =>
          simp only [hgp] at h
          obtain ⟨htp, hpr, hpv⟩ := hP sD f (depth + 1) false pidx tp f1 sE hgp
          simp only [Option.some.injEq, Prod.mk.injEq] at h
          obtain ⟨hp, hf, hs⟩ := h
          refine ⟨?_, ?_, ?_⟩
          · rw [← hp, noTd_wrap, noTd_mkPointerParm]
            exact htp
          · rw [← hs]
            exact genFrame_trans gD hpr
          · rw [← hf]
            exact hpv
    rw [if_neg hb3] at h
    by_cases hb4 : which <
        (cumsumU8 s.tunables.typeFractions).getD NumericTfIdx 0
    · rw [if_pos hb4] at h
      simp only [Option.some.injEq, Prod.mk.injEq] at h
      obtain ⟨hp, hf, hs⟩ := h
      refine ⟨?_, ?_, ?_⟩
      · rw [← hp, noTd_wrap]; rfl
      · rw [← hs]
        exact genFrame_trans gD (genFrame_trans (genFrame_intFlavor sD)
          (genFrame_intBits _))
      · rw [← hf]
        exact fdefGenFrame_refl f
    rw [if_neg hb4] at h
    by_cases hb5 : which <
        (cumsumU8 s.tunables.typeFractions).getD FloatTfIdx 0
    · rw [if_pos hb5] at h
      simp only [Option.some.injEq, Prod.mk.injEq] at h
      obtain ⟨hp, hf, hs⟩ := h
      refine ⟨?_, ?_, ?_⟩
      · rw [← hp, noTd_wrap]; rfl
      · rw [← hs]
        exact genFrame_trans gD (genFrame_floatBits sD)
      · rw [← hf]
        exact fdefGenFrame_refl f
    rw [if_neg hb5] at h
    by_cases hb6 : which <
        (cumsumU8 s.tunables.typeFractions).getD ComplexTfIdx 0
    · rw [if_pos hb6] at h
      simp only [Option.some.injEq, Prod.mk.injEq] at h
      obtain ⟨hp, hf, hs⟩ := h
      refine ⟨?_, ?_, ?_⟩
      · rw [← hp, noTd_wrap]; rfl
      · rw [← hs]
        exact genFrame_trans gD (genFrame_floatBits sD)
      · rw [← hf]
        exact fdefGenFrame_refl f
    rw [if_neg hb6] at h
    by_cases hb7 : which <
        (cumsumU8 s.tunables.typeFractions).getD ByteTfIdx 0
    · rw [if_pos hb7] at h
      simp only [Option.some.injEq, Prod.mk.injEq] at h
      obtain ⟨hp, hf, hs⟩ := h
      refine ⟨?_, ?_, ?_⟩
      · rw [← hp, noTd_wrap]; rfl
      · rw [← hs]; exact gD
      · rw [← hf]
        exact fdefGenFrame_refl f
    rw [if_neg hb7] at h
    by_cases hb8 : which <
        (cumsumU8 s.tunables.typeFractions).getD StringTfIdx 0
    · rw [if_pos hb8] at h
      simp only [Option.some.injEq, Prod.mk.injEq] at h
      obtain ⟨hp, hf, hs⟩ := h
      refine ⟨?_, ?_, ?_⟩
      · rw [← hp, noTd_wrap]; rfl
      · rw [← hs]; exact gD
      · rw [← hf]
        exact fdefGenFrame_refl f
    rw [if_neg hb8] at h
    simp only [Option.some.injEq, Prod.mk.injEq] at h
    obtain ⟨hp, hf, hs⟩ := h
    refine ⟨?_, ?_, ?_⟩
    · rw [← hp, noTd_wrap]; rfl
    · rw [← hs]; exact gD
    · rw [← hf]
      exact fdefGenFrame_refl f

theorem GenParmOK_all (gt : TunableParams) : ∀ fuel, GenParmOK gt fuel := by
  intro fuel
  induction fuel with
  | zero => exact GenParmOK_zero gt
  | succ n ih => exact GenParmOK_succ gt n ih



theorem noTdList_mem {l : List Parm} (h : noTdList l = true) :
    ∀ p ∈ l, noTd p = true := by
  induction l with
  | nil => intro p hp; exact absurd hp (by simp)
  | cons q qs ih =>
      intro p hp
      rw [noTdList, Bool.and_eq_true] at h
      rcases List.mem_cons.mp hp with h1 | h1
      · subst h1; exact h.1
      · exact ih h.2 p h1

theorem noTd_SetAddrTaken_ite (c : Prop) [Decidable c] (p : Parm)
    (a : addrTakenHow) :
    noTd (if c then p.SetAddrTaken a else p) = noTd p := by
  by_cases h : c
  · rw [if_pos h, noTd_SetAddrTaken]
  · rw [if_neg h]

theorem genFuncParamsLoop_char (gt : TunableParams) (fuel : Nat) :
    ∀ (n : Nat) (s : genstate) (f : funcdef) (pidx : Nat) (nc pt : Bool)
      (f' : funcdef) (s' : genstate) (nc' : Bool),
    genstate.genFuncParamsLoop gt fuel s f pidx n nc pt =
      some (f', s', nc') →
    (noTdList f.params = true → noTdList f'.params = true) ∧
    genFrame s s' ∧ f'.values = f.values ∧ f'.returns = f.returns ∧
    f'.receiver = f.receiver ∧ f'.method = f.method ∧ f'.recur = f.recur := by
  intro n
  induction n with
  | zero =>
      intro s f pidx nc pt f' s' nc' h
      simp only [genstate.genFuncParamsLoop, Option.some.injEq,
        Prod.mk.injEq] at h
      obtain ⟨h1, h2, h3⟩ := h
      subst h1; subst h2
      exact ⟨fun hx => hx, genFrame_refl s, rfl, rfl, rfl, rfl, rfl⟩
  | succ k ih =>
      intro s f pidx nc pt f' s' nc' h
      simp only [genstate.genFuncParamsLoop] at h
      match hg : genstate.GenParm gt fuel s f 0 nc pidx with
      | none => rw [hg] at h; exact absurd h (by simp)
      | some (np, f1, s1) =>
          simp only [hg] at h
          obtain ⟨hnp, hfr, hfd⟩ :=
            GenParmOK_all gt fuel s f 0 nc pidx np f1 s1 hg
          obtain ⟨d, s2, hE⟩ : ∃ x y, s1.Intn 100 = (x, y) := ⟨_, _, rfl⟩
          simp only [hE] at h
          have gs2 : genFrame s1 s2 := by
            have := genFrame_Intn s1 100
            rw [hE] at this
            exact this
          obtain ⟨ht, h2, hv, hr, hrc, hm, hcr⟩ :=
            ih s2 _ pidx _ pt f' s' nc' h
          refine ⟨?_, genFrame_trans hfr (genFrame_trans gs2 h2),
            ?_, ?_, ?_, ?_, ?_⟩
          · intro hps
            apply ht
            show noTdList (f1.params ++
              [if (!pt) = true then np.SetAddrTaken notAddrTaken else np]) =
              true
            rw [noTdList_append, fdefGenFrame_params hfd, hps]
            simp [noTdList, noTd_SetAddrTaken_ite, hnp]
          · rw [hv]
            show f1.values = f.values
            exact fdefGenFrame_values hfd
          · rw [hr]
            show f1.returns = f.returns
            exact fdefGenFrame_returns hfd
          · rw [hrc]
            show f1.receiver = f.receiver
            exact fdefGenFrame_receiver hfd
          · rw [hm]
            show f1.method = f.method
            exact fdefGenFrame_method hfd
          · rw [hcr]
            show f1.recur = f.recur
            exact fdefGenFrame_recur hfd

theorem genFuncReturnsLoop_char (gt : TunableParams) (fuel : Nat) :
    ∀ (n : Nat) (s : genstate) (f : funcdef) (pidx : Nat) (rt : Bool)
      (f' : funcdef) (s' : genstate),
    genstate.genFuncReturnsLoop gt fuel s f pidx n rt = some (f', s') →
    (noTdList f.returns = true → noTdList f'.returns = true) ∧
    genFrame s s' ∧ f'.values = f.values ∧ f'.params = f.params ∧
    f'.receiver = f.receiver ∧ f'.method = f.method ∧ f'.recur = f.recur ∧
    f'.dodefc = f.dodefc := by
  intro n
  induction n with
  | zero =>
      intro s f pidx rt f' s' h
      simp only [genstate.genFuncReturnsLoop, Option.some.injEq,
        Prod.mk.injEq] at h
      obtain ⟨h1, h2⟩ := h
      subst h1; subst h2
      exact ⟨fun hx => hx, genFrame_refl s, rfl, rfl, rfl, rfl, rfl, rfl⟩
  | succ k ih =>
      intro s f pidx rt f' s' h
      simp only [genstate.genFuncReturnsLoop] at h
      match hg : genstate.GenReturn gt fuel s f 0 pidx with
      | none => rw [hg] at h; exact absurd h (by simp)
      | some (r, f1, s1) =>
          simp only [hg] at h
          have hg' : genstate.GenParm gt fuel s f 0 false pidx =
              some (r, f1, s1) := hg
          obtain ⟨hnr, hfr, hfd⟩ :=
            GenParmOK_all gt fuel s f 0 false pidx r f1 s1 hg'
          obtain ⟨ht, h2, hv, hpp, hrc, hm, hcr, hdc⟩ :=
            ih s1 _ pidx rt f' s' h
          refine ⟨?_, genFrame_trans hfr h2, ?_, ?_, ?_, ?_, ?_, ?_⟩
          · intro hrs
            apply ht
            show noTdList (f1.returns ++
              [if (!rt) = true then r.SetAddrTaken notAddrTaken else r]) =
              true
            rw [noTdList_append, fdefGenFrame_returns hfd, hrs]
            simp [noTdList, noTd_SetAddrTaken_ite, hnr]
          · rw [hv]
            show f1.values = f.values
            exact fdefGenFrame_values hfd
          · rw [hpp]
            show f1.params = f.params
            exact fdefGenFrame_params hfd
          · rw [hrc]
            show f1.receiver = f.receiver
            exact fdefGenFrame_receiver hfd
          · rw [hm]
            show f1.method = f.method
            exact fdefGenFrame_method hfd
          · rw [hcr]
            show f1.recur = f.recur
            exact fdefGenFrame_recur hfd
          · rw [hdc]
            show f1.dodefc = f.dodefc
            exact fdefGenFrame_dodefc hfd

theorem makeTypedefParm_char (gt : TunableParams) (s : genstate)
    (f : funcdef) (t : Parm) (pidx : Nat) :
    tdOK (s.makeTypedefParm gt f t pidx).1 = noTd t ∧
    genFrame s (s.makeTypedefParm gt f t pidx).2.2 ∧
    (s.makeTypedefParm gt f t pidx).2.1 =
      { f with typedefs := f.typedefs ++
        [(s.makeTypedefParm gt f t pidx).1] } := by
  refine ⟨rfl, ?_, rfl⟩
  exact genFrame_Intn s 100




set_option maxHeartbeats 4000000 in
theorem GenFunc_char (gt : TunableParams) (fuel : Nat) (s : genstate)
    (fidx pidx : Nat) (fd : funcdef) (s' : genstate)
    (h : genstate.GenFunc gt fuel s fidx pidx = some (fd, s')) :
    (∀ p ∈ fd.params, tdOK p = true) ∧
    (∀ r, fd.receiver = some r → tdOK r = true) ∧
    fd.values = [] ∧ genFrame s s' := by
  simp only [genstate.GenFunc] at h
  obtain ⟨np, sA, hE1⟩ : ∃ x y, s.Intn (1 + s.tunables.nParmRange) = (x, y) :=
    ⟨_, _, rfl⟩
  simp only [hE1] at h
  have gA : genFrame s sA := by
    have := genFrame_Intn s (1 + s.tunables.nParmRange)
    rw [hE1] at this
    exact this
  obtain ⟨nr, sB, hE2⟩ : ∃ x y,
      sA.Intn (1 + sA.tunables.nReturnRange) = (x, y) := ⟨_, _, rfl⟩
  simp only [hE2] at h
  have gB : genFrame sA sB := by
    have := genFrame_Intn sA (1 + sA.tunables.nReturnRange)
    rw [hE2] at this
    exact this
  obtain ⟨d1, sC, hE3⟩ : ∃ x y, sB.Intn 100 = (x, y) := ⟨_, _, rfl⟩
  simp only [hE3] at h
  have gC0 : genFrame sB sC := by
    have := genFrame_Intn sB 100
    rw [hE3] at this
    exact this
  obtain ⟨d2, sD, hE4⟩ : ∃ x y, sC.Intn 100 = (x, y) := ⟨_, _, rfl⟩
  simp only [hE4] at h
  have gD0 : genFrame sC sD := by
    have := genFrame_Intn sC 100
    rw [hE4] at this
    exact this
  have gSD : genFrame s sD :=
    genFrame_trans gA (genFrame_trans gB (genFrame_trans gC0 gD0))
  by_cases hm : decide (d2 < sD.tunables.methodPerc) = true
  · simp only [if_pos hm] at h
    match hpre : genstate.precludeSelectedTypes redisFuel sD.pushTunables
        PointerTfIdx [] with
    | none => rw [hpre] at h; exact absurd h (by simp)
    | some s1 =>
        simp only [hpre] at h
        have gS1 : genFrame sD s1 :=
          genFrame_trans (genFrame_push sD)
            (precludeSelectedTypes_genFrame _ _ _ _ _ hpre)
        match hgp : genstate.GenParm gt fuel s1
            { idx := fidx, recur := decide (d1 < sC.tunables.recurPerc),
              method := decide (d2 < sD.tunables.methodPerc) }
            0 false pidx with
        | none => rw [hgp] at h; exact absurd h (by simp)
        | some (target, fA, s2) =>
            simp only [hgp] at h
            obtain ⟨hnt, gfr2, hfd2⟩ := GenParmOK_all gt fuel s1 _ 0 false
              pidx target fA s2 hgp
            obtain ⟨rcvr, fB, s3, hmk⟩ : ∃ x y z,
                genstate.makeTypedefParm gt s2.popTunables fA
                  (target.SetBlank false) pidx = (x, y, z) := ⟨_, _, _, rfl⟩
            simp only [hmk] at h
            have hmkc := makeTypedefParm_char gt s2.popTunables fA
              (target.SetBlank false) pidx
            simp only [hmk] at hmkc
            have htdr : tdOK rcvr = true := by
              rw [hmkc.1, noTd_SetBlank]
              exact hnt
            have gmk : genFrame s2.popTunables s3 := hmkc.2.1
            have hfBp : fB.params = [] := by
              rw [hmkc.2.2]
              exact (fdefGenFrame_params hfd2).trans rfl
            have hfBr : fB.returns = [] := by
              rw [hmkc.2.2]
              exact (fdefGenFrame_returns hfd2).trans rfl
            have hfBv : fB.values = [] := by
              rw [hmkc.2.2]
              exact (fdefGenFrame_values hfd2).trans rfl
            have gS3 : genFrame s s3 :=
              genFrame_trans gSD (genFrame_trans gS1 (genFrame_trans gfr2
                (genFrame_trans (genFrame_pop s2) gmk)))
            by_cases hbl : rcvr.IsBlank = true
            · simp only [if_pos hbl] at h

              obtain ⟨dc, s4, hEa⟩ : ∃ x y, s3.Intn 100 = (x, y) := ⟨_, _, rfl⟩
              simp only [hEa] at h
              obtain ⟨dp, s5, hEb⟩ : ∃ x y, s4.Intn 100 = (x, y) := ⟨_, _, rfl⟩
              simp only [hEb] at h
              match hpl : genstate.genFuncParamsLoop gt fuel s5
                  { fB with receiver := some rcvr, recur := false, dodefc := dc }
                  pidx np (false)
                  (decide (dp < s5.tunables.takenFraction)) with
              | none => rw [hpl] at h; exact absurd h (by simp)
              | some (fC, s6, nc2) =>
                  simp only [hpl] at h
                  obtain ⟨htC, gC, hvC, hrC, hrcC, hmC, hcrC⟩ :=
                    genFuncParamsLoop_char gt fuel np s5 _ pidx _ _ fC s6 nc2 hpl
                  have hcp : noTdList fC.params = true := htC (show noTdList fB.params = true by rw [hfBp]; rfl)
                  have hcv : fC.values = [] := hvC.trans (show fB.values = [] from hfBv)
                  have hcrcv : fC.receiver = some rcvr := hrcC.trans (rfl)
                  obtain ⟨dr, s7, hEc⟩ : ∃ x y, s6.Intn 100 = (x, y) := ⟨_, _, rfl⟩
                  simp only [hEc] at h
                  have hIte : (if (fC.recur && nc2) = true then
                      { fC with recur := false } else fC).returns = fC.returns ∧
                      (if (fC.recur && nc2) = true then
                      { fC with recur := false } else fC).params = fC.params ∧
                      (if (fC.recur && nc2) = true then
                      { fC with recur := false } else fC).values = fC.values ∧
                      (if (fC.recur && nc2) = true then
                      { fC with recur := false } else fC).receiver = fC.receiver := by
                    by_cases hx : (fC.recur && nc2) = true
                    · rw [if_pos hx]; exact ⟨rfl, rfl, rfl, rfl⟩
                    · rw [if_neg hx]; exact ⟨rfl, rfl, rfl, rfl⟩
                  match hrl : genstate.genFuncReturnsLoop gt fuel s7
                      (if (fC.recur && nc2) = true then { fC with recur := false }
                       else fC) pidx nr
                      (decide (dr < s7.tunables.takenFraction)) with
                  | none => rw [hrl] at h; exact absurd h (by simp)
                  | some (fD, s8) =>
                      simp only [hrl] at h
                      obtain ⟨htD, gD2, hvD, hppD, hrcD, hmD, hcrD, hdcD⟩ :=
                        genFuncReturnsLoop_char gt fuel nr s7 _ pidx _ fD s8 hrl
                      obtain ⟨spw, s9, hEd⟩ : ∃ x y, s8.Intn 11 = (x, y) := ⟨_, _, rfl⟩
                      simp only [hEd] at h
                      simp only [Option.some.injEq, Prod.mk.injEq] at h
                      obtain ⟨hfd1, hs1⟩ := h
                      have g1 : genFrame s3 s4 := by
                        have := genFrame_Intn s3 100
                        rw [hEa] at this
                        exact this
                      have g2 : genFrame s4 s5 := by
                        have := genFrame_Intn s4 100
                        rw [hEb] at this
                        exact this
                      have g3 : genFrame s6 s7 := by
                        have := genFrame_Intn s6 100
                        rw [hEc] at this
                        exact this
                      have g4 : genFrame s8 s9 := by
                        have := genFrame_Intn s8 11
                        rw [hEd] at this
                        exact this
                      have gtail : genFrame s3 s9 :=
                        genFrame_trans g1 (genFrame_trans g2 (genFrame_trans gC
                          (genFrame_trans g3 (genFrame_trans gD2 g4))))
                      have hfdp : fd.params = fC.params := by
                        rw [← hfd1]
                        exact hppD.trans hIte.2.1
                      have hfdrc : fd.receiver = some rcvr := by
                        rw [← hfd1]
                        exact hrcD.trans (hIte.2.2.2.trans hcrcv)
                      have hfdv : fd.values = [] := by
                        rw [← hfd1]
                        exact hvD.trans (hIte.2.2.1.trans hcv)
                      refine ⟨?_, ?_, hfdv, ?_⟩
                      · intro q hq
                        rw [hfdp] at hq
                        exact tdOK_of_noTd q (noTdList_mem hcp q hq)
                      · intro r hr
                        rw [hfdrc] at hr
                        have hre : rcvr = r := by simpa using hr
                        exact hre ▸ htdr
                      · rw [← hs1]
                        exact genFrame_trans (gS3) gtail
            · simp only [if_neg hbl] at h

              obtain ⟨dc, s4, hEa⟩ : ∃ x y, s3.Intn 100 = (x, y) := ⟨_, _, rfl⟩
              simp only [hEa] at h
              obtain ⟨dp, s5, hEb⟩ : ∃ x y, s4.Intn 100 = (x, y) := ⟨_, _, rfl⟩
              simp only [hEb] at h
              match hpl : genstate.genFuncParamsLoop gt fuel s5
                  { fB with receiver := some rcvr, dodefc := dc }
                  pidx np (fB.recur)
                  (decide (dp < s5.tunables.takenFraction)) with
              | none => rw [hpl] at h; exact absurd h (by simp)
              | some (fC, s6, nc2) =>
                  simp only [hpl] at h
                  obtain ⟨htC, gC, hvC, hrC, hrcC, hmC, hcrC⟩ :=
                    genFuncParamsLoop_char gt fuel np s5 _ pidx _ _ fC s6 nc2 hpl
                  have hcp : noTdList fC.params = true := htC (show noTdList fB.params = true by rw [hfBp]; rfl)
                  have hcv : fC.values = [] := hvC.trans (show fB.values = [] from hfBv)
                  have hcrcv : fC.receiver = some rcvr := hrcC.trans (rfl)
                  obtain ⟨dr, s7, hEc⟩ : ∃ x y, s6.Intn 100 = (x, y) := ⟨_, _, rfl⟩
                  simp only [hEc] at h
                  have hIte : (if (fC.recur && nc2) = true then
                      { fC with recur := false } else fC).returns = fC.returns ∧
                      (if (fC.recur && nc2) = true then
                      { fC with recur := false } else fC).params = fC.params ∧
                      (if (fC.recur && nc2) = true then
                      { fC with recur := false } else fC).values = fC.values ∧
                      (if (fC.recur && nc2) = true then
                      { fC with recur := false } else fC).receiver = fC.receiver := by
                    by_cases hx : (fC.recur && nc2) = true
                    · rw [if_pos hx]; exact ⟨rfl, rfl, rfl, rfl⟩
                    · rw [if_neg hx]; exact ⟨rfl, rfl, rfl, rfl⟩
                  match hrl : genstate.genFuncReturnsLoop gt fuel s7
                      (if (fC.recur && nc2) = true then { fC with recur := false }
                       else fC) pidx nr
                      (decide (dr < s7.tunables.takenFraction)) with
                  | none => rw [hrl] at h; exact absurd h (by simp)
                  | some (fD, s8) =>
                      simp only [hrl] at h
                      obtain ⟨htD, gD2, hvD, hppD, hrcD, hmD, hcrD, hdcD⟩ :=
                        genFuncReturnsLoop_char gt fuel nr s7 _ pidx _ fD s8 hrl
                      obtain ⟨spw, s9, hEd⟩ : ∃ x y, s8.Intn 11 = (x, y) := ⟨_, _, rfl⟩
                      simp only [hEd] at h
                      simp only [Option.some.injEq, Prod.mk.injEq] at h
                      obtain ⟨hfd1, hs1⟩ := h
                      have g1 : genFrame s3 s4 := by
                        have := genFrame_Intn s3 100
                        rw [hEa] at this
                        exact this
                      have g2 : genFrame s4 s5 := by
                        have := genFrame_Intn s4 100
                        rw [hEb] at this
                        exact this
                      have g3 : genFrame s6 s7 := by
                        have := genFrame_Intn s6 100
                        rw [hEc] at this
                        exact this
                      have g4 : genFrame s8 s9 := by
                        have := genFrame_Intn s8 11
                        rw [hEd] at this
                        exact this
                      have gtail : genFrame s3 s9 :=
                        genFrame_trans g1 (genFrame_trans g2 (genFrame_trans gC
                          (genFrame_trans g3 (genFrame_trans gD2 g4))))
                      have hfdp : fd.params = fC.params := by
                        rw [← hfd1]
                        exact hppD.trans hIte.2.1
                      have hfdrc : fd.receiver = some rcvr := by
                        rw [← hfd1]
                        exact hrcD.trans (hIte.2.2.2.trans hcrcv)
                      have hfdv : fd.values = [] := by
                        rw [← hfd1]
                        exact hvD.trans (hIte.2.2.1.trans hcv)
                      refine ⟨?_, ?_, hfdv, ?_⟩
                      · intro q hq
                        rw [hfdp] at hq
                        exact tdOK_of_noTd q (noTdList_mem hcp q hq)
                      · intro r hr
                        rw [hfdrc] at hr
                        have hre : rcvr = r := by simpa using hr
                        exact hre ▸ htdr
                      · rw [← hs1]
                        exact genFrame_trans (gS3) gtail
  · simp only [if_neg hm] at h

    obtain ⟨dc, s4, hEa⟩ : ∃ x y, sD.Intn 100 = (x, y) := ⟨_, _, rfl⟩
    simp only [hEa] at h
    obtain ⟨dp, s5, hEb⟩ : ∃ x y, s4.Intn 100 = (x, y) := ⟨_, _, rfl⟩
    simp only [hEb] at h
    match hpl : genstate.genFuncParamsLoop gt fuel s5
        { idx := fidx, recur := decide (d1 < sC.tunables.recurPerc), method := decide (d2 < sD.tunables.methodPerc), dodefc := dc }
        pidx np (decide (d1 < sC.tunables.recurPerc))
        (decide (dp < s5.tunables.takenFraction)) with
    | none => rw [hpl] at h; exact absurd h (by simp)
    | some (fC, s6, nc2) =>
        simp only [hpl] at h
        obtain ⟨htC, gC, hvC, hrC, hrcC, hmC, hcrC⟩ :=
          genFuncParamsLoop_char gt fuel np s5 _ pidx _ _ fC s6 nc2 hpl
        have hcp : noTdList fC.params = true := htC (rfl)
        have hcv : fC.values = [] := hvC.trans (rfl)
        have hcrcv : fC.receiver = none := hrcC.trans (rfl)
        obtain ⟨dr, s7, hEc⟩ : ∃ x y, s6.Intn 100 = (x, y) := ⟨_, _, rfl⟩
        simp only [hEc] at h
        have hIte : (if (fC.recur && nc2) = true then
            { fC with recur := false } else fC).returns = fC.returns ∧
            (if (fC.recur && nc2) = true then
            { fC with recur := false } else fC).params = fC.params ∧
            (if (fC.recur && nc2) = true then
            { fC with recur := false } else fC).values = fC.values ∧
            (if (fC.recur && nc2) = true then
            { fC with recur := false } else fC).receiver = fC.receiver := by
          by_cases hx : (fC.recur && nc2) = true
          · rw [if_pos hx]; exact ⟨rfl, rfl, rfl, rfl⟩
          · rw [if_neg hx]; exact ⟨rfl, rfl, rfl, rfl⟩
        match hrl : genstate.genFuncReturnsLoop gt fuel s7
            (if (fC.recur && nc2) = true then { fC with recur := false }
             else fC) pidx nr
            (decide (dr < s7.tunables.takenFraction)) with
        | none => rw [hrl] at h; exact absurd h (by simp)
        | some (fD, s8) =>
            simp only [hrl] at h
            obtain ⟨htD, gD2, hvD, hppD, hrcD, hmD, hcrD, hdcD⟩ :=
              genFuncReturnsLoop_char gt fuel nr s7 _ pidx _ fD s8 hrl
            obtain ⟨spw, s9, hEd⟩ : ∃ x y, s8.Intn 11 = (x, y) := ⟨_, _, rfl⟩
            simp only [hEd] at h
            simp only [Option.some.injEq, Prod.mk.injEq] at h
            obtain ⟨hfd1, hs1⟩ := h
            have g1 : genFrame sD s4 := by
              have := genFrame_Intn sD 100
              rw [hEa] at this
              exact this
            have g2 : genFrame s4 s5 := by
              have := genFrame_Intn s4 100
              rw [hEb] at this
              exact this
            have g3 : genFrame s6 s7 := by
              have := genFrame_Intn s6 100
              rw [hEc] at this
              exact this
            have g4 : genFrame s8 s9 := by
              have := genFrame_Intn s8 11
              rw [hEd] at this
              exact this
            have gtail : genFrame sD s9 :=
              genFrame_trans g1 (genFrame_trans g2 (genFrame_trans gC
                (genFrame_trans g3 (genFrame_trans gD2 g4))))
            have hfdp : fd.params = fC.params := by
              rw [← hfd1]
              exact hppD.trans hIte.2.1
            have hfdrc : fd.receiver = none := by
              rw [← hfd1]
              exact hrcD.trans (hIte.2.2.2.trans hcrcv)
            have hfdv : fd.values = [] := by
              rw [← hfd1]
              exact hvD.trans (hIte.2.2.1.trans hcv)
            refine ⟨?_, ?_, hfdv, ?_⟩
            · intro q hq
              rw [hfdp] at hq
              exact tdOK_of_noTd q (noTdList_mem hcp q hq)
            · intro r hr
              rw [hfdrc] at hr
              exact absurd hr (by simp)
            · rw [← hs1]
              exact genFrame_trans (gSD) gtail




theorem CheckOK_refl (w : wraprand) : w.CheckOK w = true := by
  simp [wraprand.CheckOK, wraprand.Equal]

theorem pairDraws_values (f : funcdef) (v : List Nat) (wr : wraprand) :
    pairDraws { f with values := v } wr = pairDraws f wr := rfl

set_option maxHeartbeats 2000000 in
theorem GenPair_char (gt : TunableParams) (σ : List Parm → List Parm)
    (fuel : Nat) (G : Int → Nat → Nat) (s : genstate) (fidx pidx : Nat)
    (seed : Int) (emit : Bool)
    (res : List String × List String × genstate × Int × Bool)
    (h : genstate.GenPair gt σ fuel G s fidx pidx seed emit = some res) :
    res.2.2.2.2 = true ∧ res.2.2.1.errs = s.errs ∧
    res.2.2.2.1 = seed + 1 := by
  simp only [genstate.GenPair] at h
  by_cases htun : (!checkTunablesOK gt) = true
  · rw [if_pos htun] at h; exact absurd h (by simp)
  rw [if_neg htun] at h
  match hgf : genstate.GenFunc gt fuel
      { s with tunables := gt, wr := NewWrapRand (G seed) } fidx pidx with
  | none => rw [hgf] at h; exact absurd h (by simp)
  | some (fp, s1) =>
      simp only [hgf] at h
      obtain ⟨htdp, htdr, hvals, hgfr⟩ :=
        GenFunc_char gt fuel _ fidx pidx fp s1 hgf
      obtain ⟨fp2, bc, s2, hec⟩ : ∃ x y z,
          genstate.emitCaller { s1 with wr := NewWrapRand (G seed) }
            fp pidx [] = (x, y, z) := ⟨_, _, _, rfl⟩
      simp only [hec] at h
      have hecc := emitCaller_char { s1 with wr := NewWrapRand (G seed) }
        fp pidx []
      simp only [hec] at hecc
      obtain ⟨hagc, hwrc, hfp2⟩ := hecc
      obtain ⟨bch, s3, hch⟩ : ∃ x y,
          genstate.emitChecker σ fuel { s2 with wr := NewWrapRand (G seed) }
            fp2 pidx emit [] = (x, y) := ⟨_, _, rfl⟩
      simp only [hch] at h
      have htdp2 : ∀ p ∈ fp2.params, tdOK p = true := by
        rw [hfp2]
        exact htdp
      have htdr2 : ∀ r, fp2.receiver = some r → tdOK r = true := by
        rw [hfp2]
        exact htdr
      have hchc := emitChecker_char σ fuel
        { s2 with wr := NewWrapRand (G seed) } fp2 pidx emit [] htdp2 htdr2
      simp only [hch] at hchc
      obtain ⟨hwrch, herrch⟩ := hchc
      simp only [Option.some.injEq] at h
      rw [← h]
      refine ⟨?_, ?_, rfl⟩
      · show s3.wr.CheckOK s2.wr = true
        rw [hwrch, hwrc, hfp2]
        show (pairDraws { fp with values := (fp.values ++
            valSeq fp.params (valueAtParams fp) ++
            rcvrVals fp (valEnd fp.params (valueAtParams fp))) }
            (NewWrapRand (G seed))).CheckOK
          (pairDraws fp (NewWrapRand (G seed))) = true
        rw [pairDraws_values]
        exact CheckOK_refl _
      · show s3.errs = s.errs
        have hv2 : fp2.values = valSeq fp2.params (valueAtParams fp2) ++
            rcvrVals fp (valEnd fp.params (valueAtParams fp)) := by
          rw [hfp2]
          show fp.values ++ valSeq fp.params (valueAtParams fp) ++
            rcvrVals fp (valEnd fp.params (valueAtParams fp)) =
            valSeq fp.params (valueAtParams fp) ++
            rcvrVals fp (valEnd fp.params (valueAtParams fp))
          rw [hvals, List.nil_append]
        rw [herrch _ hv2]
        show s2.errs = s.errs
        have h1 : s2.errs = s1.errs := hagc.1
        have h2 : s1.errs = s.errs := genFrame_errs hgfr
        exact h1.trans h2


/-- C1: for every GenPair invocation (any tunables, map-iteration order,
fuel, raw stream, state, indices, seed and emit flag), if a pair is
generated then the caller emission and the checker emission, each from a
fresh stream with the same per-pair seed, leave equal Intn/Float32/
NormFloat64 call counters: the final wraprand consistency check
(wrchecker.Check(wrcaller), embedded as CheckOK) passes, so the Check
panic is never hit. -/
theorem C1_pair_stream_counters_agree (gt : TunableParams)
    (σ : List Parm → List Parm) (fuel : Nat) (G : Int → Nat → Nat)
    (s : genstate) (fidx pidx : Nat) (seed : Int) (emit : Bool) :
    (genstate.GenPair gt σ fuel G s fidx pidx seed emit).all
      (fun r => r.2.2.2.2) = true := by
  match hE : genstate.GenPair gt σ fuel G s fidx pidx seed emit with
  | none => rfl
  | some r =>
      simp only [Option.all]
      exact (GenPair_char gt σ fuel G s fidx pidx seed emit r hE).1

/-- C2: for every GenPair invocation that generates a pair, the value
counters the checker reaches after re-walking each parameter agree with
the caller-recorded values vector f.values, so the
"checker/caller value mismatch" branch never fires: the error counter of
the final state equals the error counter of the initial state. -/
theorem C2_checker_value_counters_match (gt : TunableParams)
    (σ : List Parm → List Parm) (fuel : Nat) (G : Int → Nat → Nat)
    (s : genstate) (fidx pidx : Nat) (seed : Int) (emit : Bool) :
    (genstate.GenPair gt σ fuel G s fidx pidx seed emit).all
      (fun r => r.2.2.1.errs == s.errs) = true := by
  match hE : genstate.GenPair gt σ fuel G s fidx pidx seed emit with
  | none => rfl
  | some r =>
      simp only [Option.all]
      have := (GenPair_char gt σ fuel G s fidx pidx seed emit r hE).2.1
      simp [this]

/-- C7: the scoped-override stack is claimed to behave as a stack —
popTunables restoring the snapshot of the most recent unmatched
pushTunables, so that balanced nesting restores the tunables on entry
to the outermost scope.  The code instead pops `tstack[0]`, the OLDEST
snapshot (a queue).  On the nested push/pop trace that GenMapKeyType
plus a too-deep GenParm actually performs, the inner pop yields the
outermost snapshot (defaultTunables) instead of the mutated outer-scope
tunables, and after the balanced nesting the tunables equal the
mutated outer-scope state, not the entry state: the map/pointer
preclusions leak out of the scope. -/
theorem C7_popTunables_restores_oldest_snapshot :
    tstackTrace.map (fun t => t.2.1) = some defaultTunables ∧
    tstackTrace.map (fun t => decide (t.2.1 = t.1)) = some false ∧
    tstackTrace.map (fun t => decide (t.2.2 = t.1)) = some true ∧
    tstackTrace.map (fun t => decide (t.2.2 = defaultTunables)) = some false := by
  decide

/-- C8: precludeSelectedTypes is claimed to keep the typeFractions sum
at exactly 100 for every nonempty strict subset of avoided buckets.
When the avoided buckets carry zero combined weight (here: map and
pointer both zero, legal under checkTunables), the uint8 decrement in
the redistribution loop wraps and the loop adds 256 instead of 0, so
the fractions sum to 356 and the checkTunables call inside
redistributeFraction aborts. -/
theorem C8_redistributeFraction_zero_weight_aborts :
    checkTunablesOK allStructTunables = true ∧
    doredisAux [MapTfIdx, PointerTfIdx] redisFuel
      allStructTunables.typeFractions 0 0 =
      some [137, 37, 0, 0, 37, 37, 36, 36, 36] ∧
    (genstate.precludeSelectedTypes redisFuel { tunables := allStructTunables }
      MapTfIdx [PointerTfIdx]).isSome = false := by
  decide

/-- C10: SetBlank of the arrayparm revision in src/generator has a
value receiver, so calling it — directly or through a pointer held in a
parm interface value — leaves the arrayparm (in particular IsBlank)
unchanged, and the GenParm array path therefore always yields a
non-blank array parameter. -/
theorem C10_arrayparm_SetBlank_noop (a : ArrayparmFile.arrayparm) (v : Bool)
    (aname qname : String) (nel : Nat) (el : Parm) (isblank : Bool) :
    (ArrayparmFile.setBlankCall a v).IsBlank = a.IsBlank ∧
    ArrayparmFile.setBlankCall a v = a ∧
    (ArrayparmFile.genParmArrayBlank aname qname nel el isblank).IsBlank
      = false :=
  ⟨rfl, rfl, rfl⟩

end CabiGen
